import Mathlib

/-!
Verification of the intersection coordination core (`sim/src/intersections.rs`).

The Rust module is shallowly embedded: `BTreeSet`/`BTreeMap` become sorted
lists of elements / key-value pairs, machine integers become `Nat`, times and
speeds become `ℚ`, and fallible operations (Rust panics such as failed
`assert!`s, out-of-bounds indexing and `unwrap`) return `Option`, with `none`
marking a panic.  External collaborators (`Map`, `ControlMap`, `AgentInfo`)
are structures of total functions, mirroring the interfaces the module uses.
-/

set_option autoImplicit false

namespace AbStreet

/-- `IntersectionID` wraps a `usize` index in the source (`IntersectionID(pub usize)`). -/
abbrev IntersectionID := Nat

/-- Lane identifier; only its equality is used by this module. -/
abbrev LaneID := Nat

/-- `Tick` is a `u32` count of 0.1 s timesteps in the source. -/
abbrev Tick := Nat

/-- Modelled from the spec: one tick is 0.1 s, so `Tick::as_time` is division by 10. -/
def Tick.as_time (t : Tick) : ℚ := mkRat t 10

/-- `WAIT_AT_STOP_SIGN = 1.5 seconds`. -/
def WAIT_AT_STOP_SIGN : ℚ := mkRat 3 2

/-- Modelled from the spec: `kinematics::EPSILON_SPEED` is a small positive
threshold (treat as < 0.01 m/s) below which an agent counts as stopped.
Its exact value is irrelevant to the theorems below. -/
def EPSILON_SPEED : ℚ := mkRat 1 100000000

/-- Modelled from the spec: `AgentID` is the tagged variant
`Car(u64) | Pedestrian(u64)`, totally ordered with `Car` before `Pedestrian`
(the order derived in Rust for the enum). -/
inductive AgentID where
  | Car (id : Nat)
  | Pedestrian (id : Nat)
deriving DecidableEq, Repr

/-- Key of an `AgentID` in the lexicographic order derived in Rust. -/
def AgentID.key : AgentID → Nat ×ₗ Nat
  | .Car n => toLex (0, n)
  | .Pedestrian n => toLex (1, n)

instance : LinearOrder AgentID :=
  LinearOrder.lift' AgentID.key (by intro a b h; cases a <;> cases b <;> simp_all [AgentID.key])

/-- Modelled from the spec: `TurnID = (parent intersection, src lane, dst lane)`,
ordered lexicographically (the order derived in Rust for the struct). -/
structure TurnID where
  parent : IntersectionID
  src : LaneID
  dst : LaneID
deriving DecidableEq, Repr

/-- Key of a `TurnID` in the lexicographic order derived in Rust. -/
def TurnID.key (t : TurnID) : Nat ×ₗ (Nat ×ₗ Nat) := toLex (t.parent, toLex (t.src, t.dst))

instance : LinearOrder TurnID :=
  LinearOrder.lift' TurnID.key (by intro a b h; cases a; cases b; simp_all [TurnID.key])

/-- `Request { agent, turn }`, ordered by agent first, then turn
(the order derived in Rust for the struct). -/
structure Request where
  agent : AgentID
  turn : TurnID
deriving DecidableEq, Repr

/-- Key of a `Request` in the lexicographic order derived in Rust. -/
def Request.key (r : Request) : (Nat ×ₗ Nat) ×ₗ (Nat ×ₗ (Nat ×ₗ Nat)) :=
  toLex (r.agent.key, r.turn.key)

instance : LinearOrder Request :=
  LinearOrder.lift' Request.key (by
    intro a b h
    cases a; cases b
    simp only [Request.key, toLex_inj, Prod.mk.injEq] at h
    have h1 : ∀ x y : AgentID, x.key = y.key → x = y := by
      intro x y hxy; cases x <;> cases y <;> simp_all [AgentID.key]
    have h2 : ∀ x y : TurnID, x.key = y.key → x = y := by
      intro x y hxy; cases x; cases y; simp_all [TurnID.key]
    simp_all [h1 _ _ h.1, h2 _ _ h.2])

/-- `control::stop_signs::TurnPriority`, ordered `Stop < Yield < Priority`
(the order derived in Rust for the enum). -/
inductive TurnPriority where
  | Stop
  | Yield
  | Priority
deriving DecidableEq, Repr

/-- Key of a `TurnPriority` in the order derived in Rust. -/
def TurnPriority.key : TurnPriority → Nat
  | .Stop => 0
  | .Yield => 1
  | .Priority => 2

instance : LinearOrder TurnPriority :=
  LinearOrder.lift' TurnPriority.key
    (by intro a b h; cases a <;> cases b <;> simp_all [TurnPriority.key])

/-- The one event this module emits: `Event::IntersectionAcceptsRequest`. -/
inductive Event where
  | IntersectionAcceptsRequest (req : Request)
deriving DecidableEq, Repr

section OrderedCollections

variable {α : Type} [LinearOrder α] {ν : Type}

/-- `BTreeSet::insert`: insert into a sorted duplicate-free list. -/
def OSet.insert (a : α) : List α → List α
  | [] => [a]
  | b :: l => if a < b then a :: b :: l else if a = b then b :: l else b :: OSet.insert a l

/-- `BTreeMap::insert`: insert into a sorted association list, overwriting the key. -/
def OMap.insert (k : α) (v : ν) : List (α × ν) → List (α × ν)
  | [] => [(k, v)]
  | (k', v') :: l =>
    if k < k' then (k, v) :: (k', v') :: l
    else if k = k' then (k, v) :: l
    else (k', v') :: OMap.insert k v l

/-- `BTreeMap::get`. -/
def OMap.lookup (k : α) : List (α × ν) → Option ν
  | [] => none
  | (k', v') :: l => if k = k' then some v' else OMap.lookup k l

/-- `BTreeMap::contains_key`. -/
def OMap.contains (k : α) (m : List (α × ν)) : Bool :=
  (OMap.lookup k m).isSome

/-- `BTreeMap::remove`. -/
def OMap.erase (k : α) : List (α × ν) → List (α × ν)
  | [] => []
  | (k', v') :: l => if k = k' then l else (k', v') :: OMap.erase k l

end OrderedCollections

/-- One record of `map.all_intersections()`: only `id` and `has_traffic_signal`
are read by this module. -/
structure Intersection where
  id : IntersectionID
  has_traffic_signal : Bool

/-- The read-only map dependency.  `conflicts a b` models
`map.get_t(a).conflicts_with(map.get_t(b))`: the module always looks turns up
through `get_t` before applying the geometric predicate, so only the composite
matters here. -/
structure Map where
  all_intersections : List Intersection
  conflicts : TurnID → TurnID → Bool

/-- `ControlStopSign`: exposes a per-turn priority. -/
structure ControlStopSign where
  get_priority : TurnID → TurnPriority

/-- One phase of a signal program; `contains` says whether a turn is green. -/
structure Cycle where
  contains : TurnID → Bool

/-- `ControlTrafficSignal`: yields the active cycle and the remaining time of
the phase (the remaining time is unused by this module). -/
structure ControlTrafficSignal where
  current_cycle_and_remaining_time : ℚ → Cycle × ℚ

/-- The read-only control-map dependency.  The source indexes
`control_map.stop_signs[&id]` / `.traffic_signals[&id]`; total functions model
the maps (a missing key would panic in Rust and never arises for ids produced
by `new`). -/
structure ControlMap where
  stop_signs : IntersectionID → ControlStopSign
  traffic_signals : IntersectionID → ControlTrafficSignal

/-- Per-tick snapshot of agent state.  The source uses hashed containers here;
`speeds` is indexed with panic-on-missing, modelled as a total function. -/
structure AgentInfo where
  speeds : AgentID → ℚ
  leaders : AgentID → Bool

/-- The `StopSign` policy struct.  `BTreeSet`/`BTreeMap` fields are sorted
lists; key lists are duplicate-free for every state the Rust program can hold. -/
structure StopSign where
  id : IntersectionID
  approaching_agents : List Request
  started_waiting_at : List (Request × Tick)
  accepted : List (AgentID × TurnID)
  debug : Bool
deriving DecidableEq, Repr

/-- `StopSign::new`. -/
def StopSign.new (id : IntersectionID) : StopSign :=
  { id := id, approaching_agents := [], started_waiting_at := [], accepted := [], debug := false }

/-- Body of `StopSign::conflicts_with_accepted`, abstracted over the accepted
map so the sequential admission loop can consult its growing copy. -/
def conflictsWithAcceptedList (mp : Map) (acc : List (AgentID × TurnID)) (turn : TurnID) : Bool :=
  acc.any fun e => mp.conflicts turn e.2

/-- `StopSign::conflicts_with_accepted`. -/
def StopSign.conflicts_with_accepted (p : StopSign) (turn : TurnID) (mp : Map) : Bool :=
  conflictsWithAcceptedList mp p.accepted turn

/-- Body of `StopSign::conflicts_with_waiting_with_higher_priority`, abstracted
over the waiting map. -/
def conflictsWithWaitingList (mp : Map) (ss : ControlStopSign) (waiting : List (Request × Tick))
    (turn : TurnID) : Bool :=
  waiting.any fun e =>
    mp.conflicts turn e.1.turn && decide (ss.get_priority turn < ss.get_priority e.1.turn)

/-- `StopSign::conflicts_with_waiting_with_higher_priority`. -/
def StopSign.conflicts_with_waiting_with_higher_priority (p : StopSign) (turn : TurnID)
    (mp : Map) (ss : ControlStopSign) : Bool :=
  conflictsWithWaitingList mp ss p.started_waiting_at turn

/-- The promotion test of `StopSign::step`: the agent leads its lane, and for a
`Stop`-priority turn it has physically stopped. -/
def StopSign.should_promote (ss : ControlStopSign) (info : AgentInfo) (req : Request) : Bool :=
  info.leaders req.agent &&
    (if ss.get_priority req.turn = TurnPriority.Stop
      then decide (info.speeds req.agent ≤ EPSILON_SPEED)
      else true)

/-- First phase of `StopSign::step`: promote stopped leaders from
`approaching_agents` into `started_waiting_at`, stamped with the current tick.
The Rust loop collects `newly_stopped` and then removes them; since the loop
reads only `approaching_agents`, that equals this filter form. -/
def StopSign.promote (p : StopSign) (ss : ControlStopSign) (info : AgentInfo) (time : Tick) :
    StopSign :=
  let newly_stopped := p.approaching_agents.filter (StopSign.should_promote ss info)
  { p with
    started_waiting_at := newly_stopped.foldl (fun m r => OMap.insert r time m) p.started_waiting_at
    approaching_agents := p.approaching_agents.filter fun r => !StopSign.should_promote ss info r }

/-- Second phase of `StopSign::step`: walk `started_waiting_at` in order,
admitting conflict-free, priority-clear, wait-satisfied requests.  `waiting` is
the full waiting map (the higher-priority check reads it unchanged), `acc` the
growing accepted map, `newly` the admissions so far in order.  `none` models a
failed `assert_eq!` (wrong parent id, or an agent already accepted). -/
def StopSign.admit_loop (mp : Map) (ss : ControlStopSign) (time : Tick) (iid : IntersectionID)
    (waiting : List (Request × Tick)) :
    List (Request × Tick) → List (AgentID × TurnID) → List Request →
    Option (List (AgentID × TurnID) × List Request)
  | [], acc, newly => some (acc, newly)
  | (req, started) :: rest, acc, newly =>
    if req.turn.parent ≠ iid then none
    else if OMap.contains req.agent acc then none
    else if conflictsWithAcceptedList mp acc req.turn then
      StopSign.admit_loop mp ss time iid waiting rest acc newly
    else if conflictsWithWaitingList mp ss waiting req.turn then
      StopSign.admit_loop mp ss time iid waiting rest acc newly
    else if ss.get_priority req.turn = TurnPriority.Stop
        && decide (Tick.as_time (time - started) < WAIT_AT_STOP_SIGN) then
      StopSign.admit_loop mp ss time iid waiting rest acc newly
    else
      StopSign.admit_loop mp ss time iid waiting rest
        (OMap.insert req.agent req.turn acc) (newly ++ [req])

/-- `StopSign::step`.  Returns the updated policy and the events pushed by this
call; `none` models a panic. -/
def StopSign.step (p : StopSign) (time : Tick) (mp : Map) (control_map : ControlMap)
    (info : AgentInfo) : Option (StopSign × List Event) :=
  let ss := control_map.stop_signs p.id
  let p1 := p.promote ss info time
  match StopSign.admit_loop mp ss time p.id p1.started_waiting_at p1.started_waiting_at
      p1.accepted [] with
  | none => none
  | some (acc, newly) =>
    some
      ({ p1 with
          accepted := acc
          started_waiting_at := p1.started_waiting_at.filter fun e => !decide (e.1 ∈ newly) },
        newly.map Event.IntersectionAcceptsRequest)

/-- The `TrafficSignal` policy struct. -/
structure TrafficSignal where
  id : IntersectionID
  accepted : List (AgentID × TurnID)
  requests : List Request
  debug : Bool
deriving DecidableEq, Repr

/-- `TrafficSignal::new`. -/
def TrafficSignal.new (id : IntersectionID) : TrafficSignal :=
  { id := id, accepted := [], requests := [], debug := false }

/-- Admission loop of `TrafficSignal::step`: green-lit leaders are accepted,
everything else is kept for the next tick.  `none` models a failed
`assert_eq!`.  The source resolves `map.get_t(req.turn).id`, which is
`req.turn` again. -/
def TrafficSignal.admit_loop (cycle : Cycle) (info : AgentInfo) (iid : IntersectionID) :
    List Request → List (AgentID × TurnID) → List Request → List Event →
    Option (List (AgentID × TurnID) × List Request × List Event)
  | [], acc, keep, evs => some (acc, keep, evs)
  | req :: rest, acc, keep, evs =>
    if req.turn.parent ≠ iid then none
    else if OMap.contains req.agent acc then none
    else if !cycle.contains req.turn || !info.leaders req.agent then
      TrafficSignal.admit_loop cycle info iid rest acc (OSet.insert req keep) evs
    else
      TrafficSignal.admit_loop cycle info iid rest (OMap.insert req.agent req.turn acc) keep
        (evs ++ [Event.IntersectionAcceptsRequest req])

/-- `TrafficSignal::step`.  If any accepted agent out-lived its cycle the call
returns early without touching anything ("maintain safety when agents
over-run"); the Rust loop returns at the first stale entry, which equals this
`any` test because nothing is mutated before the return. -/
def TrafficSignal.step (p : TrafficSignal) (time : Tick) (mp : Map) (control_map : ControlMap)
    (info : AgentInfo) : Option (TrafficSignal × List Event) :=
  let signal := control_map.traffic_signals p.id
  let cycle := (signal.current_cycle_and_remaining_time (Tick.as_time time)).1
  if p.accepted.any (fun e => !cycle.contains e.2) then some (p, [])
  else
    match TrafficSignal.admit_loop cycle info p.id p.requests p.accepted [] [] with
    | none => none
    | some (acc, keep, evs) => some ({ p with accepted := acc, requests := keep }, evs)

/-- The per-intersection policy variant. -/
inductive IntersectionPolicy where
  | StopSignPolicy (p : StopSign)
  | TrafficSignalPolicy (p : TrafficSignal)
deriving DecidableEq, Repr

/-- The id of the policy's intersection. -/
def IntersectionPolicy.id : IntersectionPolicy → IntersectionID
  | .StopSignPolicy p => p.id
  | .TrafficSignalPolicy p => p.id

/-- `IntersectionPolicy::accepted`. -/
def IntersectionPolicy.accepted : IntersectionPolicy → List (AgentID × TurnID)
  | .StopSignPolicy p => p.accepted
  | .TrafficSignalPolicy p => p.accepted

/-- Writing through `IntersectionPolicy::accepted_mut`. -/
def IntersectionPolicy.withAccepted : IntersectionPolicy → List (AgentID × TurnID) →
    IntersectionPolicy
  | .StopSignPolicy p, a => .StopSignPolicy { p with accepted := a }
  | .TrafficSignalPolicy p, a => .TrafficSignalPolicy { p with accepted := a }

/-- Per-policy dispatch inside `IntersectionSimState::step`. -/
def IntersectionPolicy.step (i : IntersectionPolicy) (time : Tick) (mp : Map)
    (control_map : ControlMap) (info : AgentInfo) : Option (IntersectionPolicy × List Event) :=
  match i with
  | .StopSignPolicy p =>
    match p.step time mp control_map info with
    | none => none
    | some (p', evs) => some (.StopSignPolicy p', evs)
  | .TrafficSignalPolicy p =>
    match p.step time mp control_map info with
    | none => none
    | some (p', evs) => some (.TrafficSignalPolicy p', evs)

/-- The top-level simulation state. -/
structure IntersectionSimState where
  intersections : List IntersectionPolicy
  debug : Option IntersectionID
deriving DecidableEq, Repr

/-- `IntersectionSimState::new`: one policy per intersection in map order,
variant chosen by `has_traffic_signal`. -/
def IntersectionSimState.new (mp : Map) : IntersectionSimState :=
  { intersections :=
      mp.all_intersections.map fun i =>
        if i.has_traffic_signal then .TrafficSignalPolicy (TrafficSignal.new i.id)
        else .StopSignPolicy (StopSign.new i.id)
    debug := none }

/-- `IntersectionSimState::request_granted`.  The source indexes
`self.intersections[req.turn.parent.0]`, panicking out of range; an
out-of-range request is never granted, so that case is `false` here. -/
def IntersectionSimState.request_granted (s : IntersectionSimState) (req : Request) : Bool :=
  match s.intersections[req.turn.parent]? with
  | some i => decide (OMap.lookup req.agent i.accepted = some req.turn)
  | none => false

/-- The stop-sign enqueue step of `submit_request`: insert into
`approaching_agents` unless the request is already waiting. -/
def StopSign.enqueue (p : StopSign) (req : Request) : StopSign :=
  if OMap.contains req p.started_waiting_at then p
  else { p with approaching_agents := OSet.insert req p.approaching_agents }

/-- The traffic-signal enqueue step of `submit_request`. -/
def TrafficSignal.enqueue (p : TrafficSignal) (req : Request) : TrafficSignal :=
  { p with requests := OSet.insert req p.requests }

/-- Per-policy body of `IntersectionSimState::submit_request` (everything after
the accepted-map check is policy-specific). -/
def IntersectionPolicy.submit (i : IntersectionPolicy) (req : Request) :
    Except String IntersectionPolicy :=
  match OMap.lookup req.agent i.accepted with
  | some t =>
    if t ≠ req.turn then .error "request made, but another turn has already been accepted"
    else .ok i
  | none =>
    match i with
    | .StopSignPolicy p => .ok (.StopSignPolicy (p.enqueue req))
    | .TrafficSignalPolicy p => .ok (.TrafficSignalPolicy (p.enqueue req))

/-- `IntersectionSimState::submit_request`.  `none` models the panic of
`get_mut(..).unwrap()` on an out-of-range intersection id; `.error` leaves the
state unchanged in the source, so only the message is carried. -/
def IntersectionSimState.submit_request (s : IntersectionSimState) (req : Request) :
    Option (Except String IntersectionSimState) :=
  match s.intersections[req.turn.parent]? with
  | none => none
  | some i =>
    match IntersectionPolicy.submit i req with
    | .error e => some (.error e)
    | .ok i' => some (.ok { s with intersections := s.intersections.set req.turn.parent i' })

/-- The state after a `submit_request` call returns (normally or with `Err`):
on `Err` the source has not mutated anything. -/
def IntersectionSimState.after_submit (s : IntersectionSimState) (req : Request) :
    Option IntersectionSimState :=
  match s.submit_request req with
  | none => none
  | some (.error _) => some s
  | some (.ok s') => some s'

/-- Helper for `IntersectionSimState::step`: advance each policy in order,
concatenating events; a panic anywhere aborts the whole call. -/
def stepPolicies (time : Tick) (mp : Map) (control_map : ControlMap) (info : AgentInfo) :
    List IntersectionPolicy → Option (List IntersectionPolicy × List Event)
  | [] => some ([], [])
  | i :: rest =>
    match i.step time mp control_map info with
    | none => none
    | some (i', ev) =>
      match stepPolicies time mp control_map info rest with
      | none => none
      | some (rest', evs) => some (i' :: rest', ev ++ evs)

/-- `IntersectionSimState::step`: advances every policy exactly once, in vector
(= ascending intersection id) order. -/
def IntersectionSimState.step (s : IntersectionSimState) (time : Tick) (mp : Map)
    (control_map : ControlMap) (info : AgentInfo) :
    Option (IntersectionSimState × List Event) :=
  match stepPolicies time mp control_map info s.intersections with
  | none => none
  | some (is', evs) => some ({ s with intersections := is' }, evs)

/-- `IntersectionSimState::on_enter`: a query plus an assertion; it takes
`&self` and never mutates.  `none` models the out-of-range indexing panic. -/
def IntersectionSimState.on_enter (s : IntersectionSimState) (req : Request) :
    Option (Except String Unit) :=
  match s.intersections[req.turn.parent]? with
  | none => none
  | some i =>
    if OMap.contains req.agent i.accepted then some (.ok ())
    else some (.error "agent entered, but was not accepted by the intersection yet")

/-- `IntersectionSimState::on_exit`: removes the agent's accepted entry;
`none` models the `assert!(accepted.contains_key(..))` panic (and the
out-of-range indexing panic). -/
def IntersectionSimState.on_exit (s : IntersectionSimState) (req : Request) :
    Option IntersectionSimState :=
  match s.intersections[req.turn.parent]? with
  | none => none
  | some i =>
    if OMap.contains req.agent i.accepted then
      some { s with
        intersections :=
          s.intersections.set req.turn.parent (i.withAccepted (OMap.erase req.agent i.accepted)) }
    else none

/-- The three admission conditions of `StopSign::step` for one waiting entry
`e`, relative to the accepted map `acc` in force when `e` is examined and the
full waiting map `waiting`: no conflict with an accepted turn, no conflicting
waiting request of strictly higher priority, and — for a `Stop`-priority turn —
a wait of at least `WAIT_AT_STOP_SIGN`. -/
def admitCond (mp : Map) (ss : ControlStopSign) (time : Tick) (waiting : List (Request × Tick))
    (acc : List (AgentID × TurnID)) (e : Request × Tick) : Prop :=
  conflictsWithAcceptedList mp acc e.1.turn = false ∧
  conflictsWithWaitingList mp ss waiting e.1.turn = false ∧
  (ss.get_priority e.1.turn = TurnPriority.Stop →
    ¬Tick.as_time (time - e.2) < WAIT_AT_STOP_SIGN)

/-- Invariant I2 for one accepted map: entries of distinct agents never hold
conflicting turns. -/
def NCinv (mp : Map) (acc : List (AgentID × TurnID)) : Prop :=
  ∀ e1 ∈ acc, ∀ e2 ∈ acc, e1.1 ≠ e2.1 → mp.conflicts e1.2 e2.2 = false

/-- The control layer's obligation for traffic signals: all turns contained in
any one cycle it ever returns are mutually non-conflicting. -/
def CycleOK (cm : ControlMap) (mp : Map) : Prop :=
  ∀ i q t1 t2,
    ((cm.traffic_signals i).current_cycle_and_remaining_time q).1.contains t1 = true →
    ((cm.traffic_signals i).current_cycle_and_remaining_time q).1.contains t2 = true →
    mp.conflicts t1 t2 = false

/-- States reachable from `new(map)` by any sequence of `submit_request`
(normal or `Err` return) and successful `step` calls. -/
inductive Reachable (mp : Map) (cm : ControlMap) : IntersectionSimState → Prop where
  | init : Reachable mp cm (IntersectionSimState.new mp)
  | submit (s s' : IntersectionSimState) (r : Request) :
      Reachable mp cm s → s.after_submit r = some s' → Reachable mp cm s'
  | do_step (s s' : IntersectionSimState) (time : Tick) (info : AgentInfo) (evs : List Event) :
      Reachable mp cm s → s.step time mp cm info = some (s', evs) → Reachable mp cm s'

/-- The requests a policy currently stores (pending, not yet accepted):
`approaching_agents` and the keys of `started_waiting_at` for a stop sign,
`requests` for a traffic signal. -/
def IntersectionPolicy.stored : IntersectionPolicy → List Request
  | .StopSignPolicy p => p.approaching_agents ++ p.started_waiting_at.map Prod.fst
  | .TrafficSignalPolicy p => p.requests

/-- Conditions on one policy under which its `step` cannot hit a failed
assertion: every stored request names this intersection, no stored request's
agent is already accepted, and no agent has two stored requests. -/
def PolicyOK (i : IntersectionPolicy) : Prop :=
  (∀ r ∈ i.stored, r.turn.parent = i.id) ∧
  (∀ r ∈ i.stored, OMap.contains r.agent i.accepted = false) ∧
  (i.stored.map Request.agent).Nodup

/-- State-level form of `PolicyOK`, together with the id/index agreement the
source relies on when it indexes `self.intersections` by intersection id. -/
def StateOK (s : IntersectionSimState) : Prop :=
  ∀ k : Nat, ∀ i : IntersectionPolicy, s.intersections[k]? = some i → i.id = k ∧ PolicyOK i

/-- The claim's precondition: per intersection, each agent has at most one
stored request. -/
def OnePerAgent (s : IntersectionSimState) : Prop :=
  ∀ k : Nat, ∀ i : IntersectionPolicy, s.intersections[k]? = some i → (i.stored.map Request.agent).Nodup

/-- A map whose intersection list carries ids equal to positions, as
`Map::all_intersections` does in the source (`IntersectionID` is the index). -/
def WFMap (mp : Map) : Prop :=
  ∀ k : Nat, ∀ i : Intersection, mp.all_intersections[k]? = some i → i.id = k

/-- States reachable from `new(map)` under the one-stored-request-per-agent
discipline: every state along the trace keeps each agent with at most one
stored request per intersection (`step` only removes stored requests, so its
side condition always holds in practice). -/
inductive ReachableOne (mp : Map) (cm : ControlMap) : IntersectionSimState → Prop where
  | init : WFMap mp → ReachableOne mp cm (IntersectionSimState.new mp)
  | submit (s s' : IntersectionSimState) (r : Request) :
      ReachableOne mp cm s → s.after_submit r = some s' → OnePerAgent s' →
      ReachableOne mp cm s'
  | do_step (s s' : IntersectionSimState) (time : Tick) (info : AgentInfo) (evs : List Event) :
      ReachableOne mp cm s → s.step time mp cm info = some (s', evs) → OnePerAgent s' →
      ReachableOne mp cm s'

/-- The operations (other than `on_exit`) that can run after a grant: request
submission, a global step, and `on_enter`. -/
inductive QOp where
  | submit (r : Request)
  | step (time : Tick) (info : AgentInfo)
  | enter (r : Request)

/-- Run one operation; `none` is a panic, an `Err` return leaves the state. -/
def applyQOp (mp : Map) (cm : ControlMap) (s : IntersectionSimState) :
    QOp → Option IntersectionSimState
  | .submit r => s.after_submit r
  | .step time info =>
    match s.step time mp cm info with
    | none => none
    | some (s', _) => some s'
  | .enter r =>
    match s.on_enter r with
    | none => none
    | some _ => some s

/-- Run a sequence of operations, aborting at the first panic. -/
def applyQOps (mp : Map) (cm : ControlMap) : List QOp → IntersectionSimState →
    Option IntersectionSimState
  | [], s => some s
  | op :: ops, s =>
    match applyQOp mp cm s op with
    | none => none
    | some s' => applyQOps mp cm ops s'

/-- Concrete instances used to exercise the model at specific inputs. -/
def exTurn : TurnID := ⟨0, 0, 1⟩

def exTurn2 : TurnID := ⟨0, 1, 2⟩

def exReq : Request := ⟨AgentID.Car 0, exTurn⟩

def exReq2 : Request := ⟨AgentID.Car 1, exTurn2⟩

/-- A map with a single stop-sign intersection and distinct turns conflicting. -/
def exMap : Map := ⟨[⟨0, false⟩], fun a b => decide (a ≠ b)⟩

/-- A map with a single traffic-signal intersection and no conflicts. -/
def sigMap : Map := ⟨[⟨0, true⟩], fun _ _ => false⟩

/-- A cycle that is green exactly for turns out of lane 0. -/
def exCycle : Cycle := ⟨fun t => decide (t.src = 0)⟩

/-- Stop priority on every turn; the signal always shows `exCycle`. -/
def exControl : ControlMap :=
  ⟨fun _ => ⟨fun _ => TurnPriority.Stop⟩, fun _ => ⟨fun _ => (exCycle, 0)⟩⟩

/-- Yield priority on every turn; the signal always shows `exCycle`. -/
def yieldControl : ControlMap :=
  ⟨fun _ => ⟨fun _ => TurnPriority.Yield⟩, fun _ => ⟨fun _ => (exCycle, 0)⟩⟩

/-- Everybody is a stopped leader. -/
def exInfo : AgentInfo := ⟨fun _ => 0, fun _ => true⟩

def exState0 : IntersectionSimState := IntersectionSimState.new exMap

def exState1 : IntersectionSimState := (exState0.after_submit exReq).getD exState0

/-- The request of `Car 0` for the other turn (same agent as `exReq`). -/
def exReqB : Request := ⟨AgentID.Car 0, exTurn2⟩

/-- A stop-sign policy in which `Car 0` is already accepted for `exTurn`. -/
def exAccPolicy : IntersectionPolicy :=
  .StopSignPolicy ⟨0, [], [], [(AgentID.Car 0, exTurn)], false⟩

/-- A state holding just `exAccPolicy`. -/
def exAccState : IntersectionSimState := ⟨[exAccPolicy], none⟩

/-- A signal whose accepted agent's turn is no longer in `exCycle`. -/
def staleSignal : TrafficSignal := ⟨0, [(AgentID.Car 0, exTurn2)], [], false⟩

/-- A signal with one green-lit pending request and nothing accepted. -/
def sigPolicy : TrafficSignal := ⟨0, [], [exReq], false⟩

/-- A stop sign with one approaching request. -/
def apprStop : StopSign := ⟨0, [exReq], [], [], false⟩

/-- `apprStop` after one step at tick 0: promoted to waiting, not yet
admitted (the stop-sign wait has not elapsed). -/
def apprStopStepped : StopSign := ⟨0, [], [(exReq, 0)], [], false⟩

/-- `sigPolicy` after one step at tick 0: the green-lit leader is accepted. -/
def sigPolicyStepped : TrafficSignal := ⟨0, [(AgentID.Car 0, exTurn)], [], false⟩

/-- `apprStopStepped` after a step at tick 15: the stop-sign wait (1.5 s) has
elapsed, so the waiting request is admitted. -/
def waitStopStepped : StopSign := ⟨0, [], [], [(AgentID.Car 0, exTurn)], false⟩

/-- A stop sign holding two waiting requests of the same agent: `step` panics
on the second once the first is admitted. -/
def panicStop : StopSign :=
  ⟨0, [], [(⟨AgentID.Car 0, exTurn⟩, 0), (⟨AgentID.Car 0, exTurn2⟩, 0)], [], false⟩

section OrderedCollectionLemmas

variable {α : Type} [LinearOrder α] {ν : Type}

theorem OSet.mem_insert (a x : α) (l : List α) :
    x ∈ OSet.insert a l ↔ x = a ∨ x ∈ l := by
  induction l with
  | nil => simp [OSet.insert]
  | cons b l ih =>
    by_cases h1 : a < b
    · simp [OSet.insert, h1]
    · by_cases h2 : a = b
      · subst h2; simp [OSet.insert, h1]
      · simp only [OSet.insert, if_neg h1, if_neg h2, List.mem_cons, ih]
        tauto

theorem OSet.insert_idem (a : α) (l : List α) :
    OSet.insert a (OSet.insert a l) = OSet.insert a l := by
  induction l with
  | nil => simp [OSet.insert]
  | cons b l ih =>
    rcases lt_trichotomy a b with h | h | h
    · simp [OSet.insert, h]
    · subst h; simp [OSet.insert, lt_irrefl]
    · have h1 : ¬a < b := not_lt_of_gt h
      have h2 : a ≠ b := (ne_of_gt h)
      simp only [OSet.insert, if_neg h1, if_neg h2, ih]

theorem OSet.insert_comm (a b : α) (hab : a ≠ b) (l : List α) :
    OSet.insert a (OSet.insert b l) = OSet.insert b (OSet.insert a l) := by
  induction l with
  | nil =>
    rcases lt_trichotomy a b with h | h | h
    · simp [OSet.insert, h, not_lt_of_gt h, hab, hab.symm, h.ne, h.ne.symm]
    · exact absurd h hab
    · simp [OSet.insert, h, not_lt_of_gt h, hab, hab.symm, h.ne, h.ne.symm]
  | cons c l ih =>
    rcases lt_trichotomy b c with hbc | hbc | hbc
    · rcases lt_trichotomy a c with hac | hac | hac
      · rcases lt_trichotomy a b with h | h | h
        · simp [OSet.insert, hbc, hac, h, not_lt_of_gt h, hab, hab.symm]
        · exact absurd h hab
        · simp [OSet.insert, hbc, hac, h, not_lt_of_gt h, hab, hab.symm]
      · subst hac; simp [OSet.insert, hbc, not_lt_of_gt hbc, hab, hab.symm, lt_irrefl]
      · have : b < a := hbc.trans hac
        simp [OSet.insert, hbc, hac, not_lt_of_gt hac, (ne_of_gt hac), this,
          not_lt_of_gt this, (ne_of_gt this).symm, hab, hab.symm]
    · subst hbc
      have h1 : ¬b < b := lt_irrefl b
      rcases lt_trichotomy a b with hac | hac | hac
      · simp [OSet.insert, hac, h1, not_lt_of_gt hac, hab, hab.symm]
      · exact absurd hac hab
      · simp [OSet.insert, h1, not_lt_of_gt hac, hab, hab.symm, hac]
    · rcases lt_trichotomy a c with hac | hac | hac
      · have : a < b := hac.trans hbc
        simp [OSet.insert, hac, hbc, not_lt_of_gt hbc, (ne_of_gt hbc), this,
          not_lt_of_gt this, hab, hab.symm]
      · subst hac
        simp [OSet.insert, hbc, not_lt_of_gt hbc, (ne_of_gt hbc), lt_irrefl, hab, hab.symm]
      · have h1 : ¬a < c := not_lt_of_gt hac
        have h2 : ¬b < c := not_lt_of_gt hbc
        simp only [OSet.insert, if_neg h1, if_neg h2, if_neg (ne_of_gt hac),
          if_neg (ne_of_gt hbc), ih]

theorem OMap.lookup_insert (k k' : α) (v : ν) (m : List (α × ν)) :
    OMap.lookup k' (OMap.insert k v m) = if k' = k then some v else OMap.lookup k' m := by
  induction m with
  | nil => simp [OMap.insert, OMap.lookup]
  | cons e m ih =>
    obtain ⟨k0, v0⟩ := e
    by_cases h1 : k < k0
    · by_cases h2 : k' = k <;> simp [OMap.insert, OMap.lookup, h1, h2]
    · by_cases h2 : k = k0
      · subst h2
        by_cases h3 : k' = k <;> simp [OMap.insert, OMap.lookup, h1, h3]
      · by_cases h3 : k' = k
        · subst h3
          simp [OMap.insert, OMap.lookup, h1, h2, ih]
        · by_cases h4 : k' = k0 <;>
            simp [OMap.insert, OMap.lookup, h1, h2, h3, h4, ih, Ne.symm h2]

theorem OMap.contains_insert (k k' : α) (v : ν) (m : List (α × ν)) :
    OMap.contains k' (OMap.insert k v m) = (k' = k || OMap.contains k' m) := by
  by_cases h : k' = k <;> simp [OMap.contains, OMap.lookup_insert, h]

theorem OMap.lookup_isSome_iff (k : α) (m : List (α × ν)) :
    (OMap.lookup k m).isSome ↔ ∃ v, (k, v) ∈ m := by
  induction m with
  | nil => simp [OMap.lookup]
  | cons e m ih =>
    obtain ⟨k0, v0⟩ := e
    by_cases h : k = k0
    · subst h; simp [OMap.lookup]
    · simp [OMap.lookup, h, ih]

theorem OMap.lookup_mem (k : α) (v : ν) (m : List (α × ν))
    (h : OMap.lookup k m = some v) : (k, v) ∈ m := by
  induction m with
  | nil => simp [OMap.lookup] at h
  | cons e m ih =>
    obtain ⟨k0, v0⟩ := e
    rw [OMap.lookup] at h
    split at h
    next heq =>
      injection h with h2
      subst h2; subst heq
      exact List.mem_cons_self _ _
    next _ =>
      exact List.mem_cons_of_mem _ (ih h)

theorem OMap.lookup_eq_none_iff (k : α) (m : List (α × ν)) :
    OMap.lookup k m = none ↔ k ∉ m.map Prod.fst := by
  induction m with
  | nil => simp [OMap.lookup]
  | cons e m ih =>
    obtain ⟨k0, v0⟩ := e
    by_cases h : k = k0
    · subst h; simp [OMap.lookup]
    · simp [OMap.lookup, h, ih]

theorem OMap.contains_eq_false_iff (k : α) (m : List (α × ν)) :
    OMap.contains k m = false ↔ k ∉ m.map Prod.fst := by
  rw [OMap.contains, ← OMap.lookup_eq_none_iff]
  cases OMap.lookup k m <;> simp

theorem OMap.contains_eq_true_iff (k : α) (m : List (α × ν)) :
    OMap.contains k m = true ↔ k ∈ m.map Prod.fst := by
  rw [OMap.contains]
  refine (OMap.lookup_isSome_iff k m).trans ?_
  simp only [List.mem_map]
  exact ⟨fun ⟨v, h⟩ => ⟨(k, v), h, rfl⟩, fun ⟨x, hx, he⟩ => ⟨x.2, by rwa [← he, Prod.mk.eta]⟩⟩

theorem OMap.mem_insert_entry (k : α) (v : ν) (m : List (α × ν)) (x : α × ν) :
    x ∈ OMap.insert k v m → x = (k, v) ∨ x ∈ m := by
  induction m with
  | nil => intro h; simpa [OMap.insert] using h
  | cons e m ih =>
    obtain ⟨k0, v0⟩ := e
    intro h
    by_cases h1 : k < k0
    · rw [OMap.insert, if_pos h1] at h
      rcases List.mem_cons.mp h with h | h
      exacts [Or.inl h, Or.inr h]
    · by_cases h2 : k = k0
      · rw [OMap.insert, if_neg h1, if_pos h2] at h
        rcases List.mem_cons.mp h with h | h
        exacts [Or.inl h, Or.inr (List.mem_cons_of_mem _ h)]
      · rw [OMap.insert, if_neg h1, if_neg h2] at h
        rcases List.mem_cons.mp h with h | h
        · exact Or.inr (h ▸ List.mem_cons_self _ _)
        · rcases ih h with h' | h'
          exacts [Or.inl h', Or.inr (List.mem_cons_of_mem _ h')]

theorem OMap.insert_perm_of_not_mem (k : α) (v : ν) (m : List (α × ν))
    (h : k ∉ m.map Prod.fst) : (OMap.insert k v m).Perm ((k, v) :: m) := by
  induction m with
  | nil => simp [OMap.insert]
  | cons e m ih =>
    obtain ⟨k0, v0⟩ := e
    simp only [List.map_cons, List.mem_cons, not_or] at h
    rw [OMap.insert]
    by_cases h1 : k < k0
    · rw [if_pos h1]
    · rw [if_neg h1, if_neg h.1]
      exact ((ih h.2).cons (k0, v0)).trans (List.Perm.swap (k, v) (k0, v0) m)

/-- `lookup` after inserting a batch of keys all mapped to the same value. -/
theorem OMap.lookup_foldl_insert (L : List α) (t : ν) (m : List (α × ν)) (r : α) :
    OMap.lookup r (L.foldl (fun m x => OMap.insert x t m) m) =
      if r ∈ L then some t else OMap.lookup r m := by
  induction L generalizing m with
  | nil => simp
  | cons x L ih =>
    simp only [List.foldl_cons, ih, OMap.lookup_insert, List.mem_cons]
    by_cases h1 : r ∈ L
    · simp [h1]
    · by_cases h2 : r = x <;> simp [h1, h2]

end OrderedCollectionLemmas

theorem OMap.lookup_eq_none_of_contains_false {α : Type} [LinearOrder α] {ν : Type}
    (k : α) (m : List (α × ν)) (h : OMap.contains k m = false) : OMap.lookup k m = none := by
  rw [OMap.contains] at h
  cases hl : OMap.lookup k m with
  | none => rfl
  | some v => rw [hl] at h; simp at h

/-- If the stop-sign admission loop returns, every pre-existing accepted entry
survives unchanged (the loop only ever inserts fresh agents). -/
theorem StopSign.admit_loop_lookup_mono (mp : Map) (ss : ControlStopSign) (time : Tick)
    (iid : IntersectionID) (W : List (Request × Tick)) :
    ∀ (l : List (Request × Tick)) (acc : List (AgentID × TurnID)) (newly : List Request)
      (acc' : List (AgentID × TurnID)) (newly' : List Request),
      StopSign.admit_loop mp ss time iid W l acc newly = some (acc', newly') →
      ∀ a t, OMap.lookup a acc = some t → OMap.lookup a acc' = some t := by
  intro l
  induction l with
  | nil =>
    intro acc newly acc' newly' h a t hl
    rw [StopSign.admit_loop] at h
    injection h with h
    injection h with h1 h2
    exact h1 ▸ hl
  | cons e rest ih =>
    intro acc newly acc' newly' h a t hl
    obtain ⟨req, started⟩ := e
    rw [StopSign.admit_loop] at h
    by_cases c1 : req.turn.parent ≠ iid
    · rw [if_pos c1] at h; exact absurd h (by simp)
    rw [if_neg c1] at h
    by_cases c2 : OMap.contains req.agent acc = true
    · rw [if_pos c2] at h; exact absurd h (by simp)
    rw [if_neg c2] at h
    by_cases g1 : conflictsWithAcceptedList mp acc req.turn = true
    · rw [if_pos g1] at h; exact ih acc newly acc' newly' h a t hl
    rw [if_neg g1] at h
    by_cases g2 : conflictsWithWaitingList mp ss W req.turn = true
    · rw [if_pos g2] at h; exact ih acc newly acc' newly' h a t hl
    rw [if_neg g2] at h
    by_cases g3 : (decide (ss.get_priority req.turn = TurnPriority.Stop)
        && decide (Tick.as_time (time - started) < WAIT_AT_STOP_SIGN)) = true
    · rw [if_pos g3] at h; exact ih acc newly acc' newly' h a t hl
    rw [if_neg g3] at h
    refine ih _ _ acc' newly' h a t ?_
    rw [OMap.lookup_insert]
    have hne : a ≠ req.agent := by
      intro he
      subst he
      rw [OMap.contains, hl] at c2
      simp at c2
    rw [if_neg hne]
    exact hl

/-- Requests already recorded as admitted stay admitted. -/
theorem StopSign.admit_loop_newly_mono (mp : Map) (ss : ControlStopSign) (time : Tick)
    (iid : IntersectionID) (W : List (Request × Tick)) :
    ∀ (l : List (Request × Tick)) (acc : List (AgentID × TurnID)) (newly : List Request)
      (acc' : List (AgentID × TurnID)) (newly' : List Request),
      StopSign.admit_loop mp ss time iid W l acc newly = some (acc', newly') →
      ∀ r ∈ newly, r ∈ newly' := by
  intro l
  induction l with
  | nil =>
    intro acc newly acc' newly' h r hr
    rw [StopSign.admit_loop] at h
    injection h with h
    injection h with h1 h2
    exact h2 ▸ hr
  | cons e rest ih =>
    intro acc newly acc' newly' h r hr
    obtain ⟨req, started⟩ := e
    rw [StopSign.admit_loop] at h
    by_cases c1 : req.turn.parent ≠ iid
    · rw [if_pos c1] at h; exact absurd h (by simp)
    rw [if_neg c1] at h
    by_cases c2 : OMap.contains req.agent acc = true
    · rw [if_pos c2] at h; exact absurd h (by simp)
    rw [if_neg c2] at h
    by_cases g1 : conflictsWithAcceptedList mp acc req.turn = true
    · rw [if_pos g1] at h; exact ih acc newly acc' newly' h r hr
    rw [if_neg g1] at h
    by_cases g2 : conflictsWithWaitingList mp ss W req.turn = true
    · rw [if_pos g2] at h; exact ih acc newly acc' newly' h r hr
    rw [if_neg g2] at h
    by_cases g3 : (decide (ss.get_priority req.turn = TurnPriority.Stop)
        && decide (Tick.as_time (time - started) < WAIT_AT_STOP_SIGN)) = true
    · rw [if_pos g3] at h; exact ih acc newly acc' newly' h r hr
    rw [if_neg g3] at h
    exact ih _ _ acc' newly' h r (List.mem_append_left _ hr)

/-- Everything the loop admits comes from its input list (or was already in
`newly`). -/
theorem StopSign.admit_loop_newly_sub (mp : Map) (ss : ControlStopSign) (time : Tick)
    (iid : IntersectionID) (W : List (Request × Tick)) :
    ∀ (l : List (Request × Tick)) (acc : List (AgentID × TurnID)) (newly : List Request)
      (acc' : List (AgentID × TurnID)) (newly' : List Request),
      StopSign.admit_loop mp ss time iid W l acc newly = some (acc', newly') →
      ∀ r ∈ newly', r ∈ newly ∨ ∃ st, (r, st) ∈ l := by
  intro l
  induction l with
  | nil =>
    intro acc newly acc' newly' h r hr
    rw [StopSign.admit_loop] at h
    injection h with h
    injection h with h1 h2
    exact Or.inl (h2 ▸ hr)
  | cons e rest ih =>
    intro acc newly acc' newly' h r hr
    obtain ⟨req, started⟩ := e
    rw [StopSign.admit_loop] at h
    by_cases c1 : req.turn.parent ≠ iid
    · rw [if_pos c1] at h; exact absurd h (by simp)
    rw [if_neg c1] at h
    by_cases c2 : OMap.contains req.agent acc = true
    · rw [if_pos c2] at h; exact absurd h (by simp)
    rw [if_neg c2] at h
    by_cases g1 : conflictsWithAcceptedList mp acc req.turn = true
    · rw [if_pos g1] at h
      rcases ih acc newly acc' newly' h r hr with h' | ⟨st, h'⟩
      exacts [Or.inl h', Or.inr ⟨st, List.mem_cons_of_mem _ h'⟩]
    rw [if_neg g1] at h
    by_cases g2 : conflictsWithWaitingList mp ss W req.turn = true
    · rw [if_pos g2] at h
      rcases ih acc newly acc' newly' h r hr with h' | ⟨st, h'⟩
      exacts [Or.inl h', Or.inr ⟨st, List.mem_cons_of_mem _ h'⟩]
    rw [if_neg g2] at h
    by_cases g3 : (decide (ss.get_priority req.turn = TurnPriority.Stop)
        && decide (Tick.as_time (time - started) < WAIT_AT_STOP_SIGN)) = true
    · rw [if_pos g3] at h
      rcases ih acc newly acc' newly' h r hr with h' | ⟨st, h'⟩
      exacts [Or.inl h', Or.inr ⟨st, List.mem_cons_of_mem _ h'⟩]
    rw [if_neg g3] at h
    rcases ih _ _ acc' newly' h r hr with h' | ⟨st, h'⟩
    · rcases List.mem_append.mp h' with h'' | h''
      · exact Or.inl h''
      · obtain rfl := List.mem_singleton.mp h''
        exact Or.inr ⟨started, List.mem_cons_self _ _⟩
    · exact Or.inr ⟨st, List.mem_cons_of_mem _ h'⟩

/-- Every admitted request ends up granted in the final accepted map. -/
theorem StopSign.admit_loop_newly_granted (mp : Map) (ss : ControlStopSign) (time : Tick)
    (iid : IntersectionID) (W : List (Request × Tick)) :
    ∀ (l : List (Request × Tick)) (acc : List (AgentID × TurnID)) (newly : List Request)
      (acc' : List (AgentID × TurnID)) (newly' : List Request),
      StopSign.admit_loop mp ss time iid W l acc newly = some (acc', newly') →
      (∀ r ∈ newly, OMap.lookup r.agent acc = some r.turn) →
      ∀ r ∈ newly', OMap.lookup r.agent acc' = some r.turn := by
  intro l
  induction l with
  | nil =>
    intro acc newly acc' newly' h hpre r hr
    rw [StopSign.admit_loop] at h
    injection h with h
    injection h with h1 h2
    subst h1; subst h2
    exact hpre r hr
  | cons e rest ih =>
    intro acc newly acc' newly' h hpre r hr
    obtain ⟨req, started⟩ := e
    rw [StopSign.admit_loop] at h
    by_cases c1 : req.turn.parent ≠ iid
    · rw [if_pos c1] at h; exact absurd h (by simp)
    rw [if_neg c1] at h
    by_cases c2 : OMap.contains req.agent acc = true
    · rw [if_pos c2] at h; exact absurd h (by simp)
    rw [if_neg c2] at h
    by_cases g1 : conflictsWithAcceptedList mp acc req.turn = true
    · rw [if_pos g1] at h; exact ih acc newly acc' newly' h hpre r hr
    rw [if_neg g1] at h
    by_cases g2 : conflictsWithWaitingList mp ss W req.turn = true
    · rw [if_pos g2] at h; exact ih acc newly acc' newly' h hpre r hr
    rw [if_neg g2] at h
    by_cases g3 : (decide (ss.get_priority req.turn = TurnPriority.Stop)
        && decide (Tick.as_time (time - started) < WAIT_AT_STOP_SIGN)) = true
    · rw [if_pos g3] at h; exact ih acc newly acc' newly' h hpre r hr
    rw [if_neg g3] at h
    refine ih _ _ acc' newly' h ?_ r hr
    intro r' hr'
    rcases List.mem_append.mp hr' with h' | h'
    · have := hpre r' h'
      rw [OMap.lookup_insert]
      have hne : r'.agent ≠ req.agent := by
        intro he
        rw [OMap.contains, ← he, this] at c2
        simp at c2
      rw [if_neg hne]
      exact this
    · obtain rfl := List.mem_singleton.mp h'
      rw [OMap.lookup_insert, if_pos rfl]

/-- The admitted list never repeats an agent, and each admitted agent is a key
of the accepted map in force from that point on. -/
theorem StopSign.admit_loop_newly_nodup (mp : Map) (ss : ControlStopSign) (time : Tick)
    (iid : IntersectionID) (W : List (Request × Tick)) :
    ∀ (l : List (Request × Tick)) (acc : List (AgentID × TurnID)) (newly : List Request)
      (acc' : List (AgentID × TurnID)) (newly' : List Request),
      StopSign.admit_loop mp ss time iid W l acc newly = some (acc', newly') →
      (newly.map Request.agent).Nodup →
      (∀ r ∈ newly, OMap.contains r.agent acc = true) →
      (newly'.map Request.agent).Nodup := by
  intro l
  induction l with
  | nil =>
    intro acc newly acc' newly' h hnd hpre
    rw [StopSign.admit_loop] at h
    injection h with h
    injection h with h1 h2
    exact h2 ▸ hnd
  | cons e rest ih =>
    intro acc newly acc' newly' h hnd hpre
    obtain ⟨req, started⟩ := e
    rw [StopSign.admit_loop] at h
    by_cases c1 : req.turn.parent ≠ iid
    · rw [if_pos c1] at h; exact absurd h (by simp)
    rw [if_neg c1] at h
    by_cases c2 : OMap.contains req.agent acc = true
    · rw [if_pos c2] at h; exact absurd h (by simp)
    rw [if_neg c2] at h
    by_cases g1 : conflictsWithAcceptedList mp acc req.turn = true
    · rw [if_pos g1] at h; exact ih acc newly acc' newly' h hnd hpre
    rw [if_neg g1] at h
    by_cases g2 : conflictsWithWaitingList mp ss W req.turn = true
    · rw [if_pos g2] at h; exact ih acc newly acc' newly' h hnd hpre
    rw [if_neg g2] at h
    by_cases g3 : (decide (ss.get_priority req.turn = TurnPriority.Stop)
        && decide (Tick.as_time (time - started) < WAIT_AT_STOP_SIGN)) = true
    · rw [if_pos g3] at h; exact ih acc newly acc' newly' h hnd hpre
    rw [if_neg g3] at h
    refine ih _ _ acc' newly' h ?_ ?_
    · rw [List.map_append]
      refine List.Nodup.append hnd (by simp) ?_
      intro a ha hb
      simp only [List.map_cons, List.map_nil, List.mem_singleton] at hb
      subst hb
      rcases List.mem_map.mp ha with ⟨r', hr', he⟩
      have := hpre r' hr'
      rw [he] at this
      rw [this] at c2
      simp at c2
    · intro r' hr'
      rw [OMap.contains_insert]
      rcases List.mem_append.mp hr' with h' | h'
      · rw [hpre r' h']
        simp
      · obtain rfl := List.mem_singleton.mp h'
        simp

/-- Positional characterization of the admission loop: entry `k` of the list is
admitted exactly when the three admission conditions hold against the accepted
map produced by running the loop on the first `k` entries. -/
theorem StopSign.admit_loop_spec (mp : Map) (ss : ControlStopSign) (time : Tick)
    (iid : IntersectionID) (W : List (Request × Tick)) :
    ∀ (l : List (Request × Tick)) (acc : List (AgentID × TurnID)) (newly : List Request)
      (acc' : List (AgentID × TurnID)) (newly' : List Request),
      StopSign.admit_loop mp ss time iid W l acc newly = some (acc', newly') →
      (l.map Prod.fst).Nodup →
      (∀ e ∈ l, e.1 ∉ newly) →
      ∀ (k : Nat) (hk : k < l.length),
        ∃ acc2 newly2,
          StopSign.admit_loop mp ss time iid W (l.take k) acc newly = some (acc2, newly2) ∧
          ((l.get ⟨k, hk⟩).1 ∈ newly' ↔ admitCond mp ss time W acc2 (l.get ⟨k, hk⟩)) := by
  intro l
  induction l with
  | nil =>
    intro acc newly acc' newly' h hnd hdisj k hk
    exact absurd hk (by simp)
  | cons e rest ih =>
    intro acc newly acc' newly' h hnd hdisj k hk
    obtain ⟨req, started⟩ := e
    have hndh : req ∉ rest.map Prod.fst := by
      rw [List.map_cons, List.nodup_cons] at hnd
      exact hnd.1
    have hndt : (rest.map Prod.fst).Nodup := by
      rw [List.map_cons, List.nodup_cons] at hnd
      exact hnd.2
    rw [StopSign.admit_loop] at h
    by_cases c1 : req.turn.parent ≠ iid
    · rw [if_pos c1] at h; exact absurd h (by simp)
    rw [if_neg c1] at h
    by_cases c2 : OMap.contains req.agent acc = true
    · rw [if_pos c2] at h; exact absurd h (by simp)
    rw [if_neg c2] at h
    by_cases g1 : conflictsWithAcceptedList mp acc req.turn = true
    · rw [if_pos g1] at h
      cases k with
      | zero =>
        refine ⟨acc, newly, by rw [List.take_zero, StopSign.admit_loop], ?_⟩
        simp only [List.get]
        constructor
        · intro hmem
          rcases StopSign.admit_loop_newly_sub mp ss time iid W rest acc newly acc' newly'
              h req hmem with h' | ⟨st, h'⟩
          · exact absurd h' (hdisj _ (List.mem_cons_self _ _))
          · exact absurd (List.mem_map.mpr ⟨(req, st), h', rfl⟩) hndh
        · rintro ⟨hc, -, -⟩
          rw [g1] at hc
          cases hc
      | succ k =>
        obtain ⟨acc2, newly2, hpre, hiff⟩ :=
          ih acc newly acc' newly' h hndt
            (fun e' he' => hdisj e' (List.mem_cons_of_mem _ he')) k (by simpa using hk)
        refine ⟨acc2, newly2, ?_, ?_⟩
        · rw [List.take_succ_cons, StopSign.admit_loop, if_neg c1, if_neg c2, if_pos g1]
          exact hpre
        · simpa using hiff
    rw [if_neg g1] at h
    by_cases g2 : conflictsWithWaitingList mp ss W req.turn = true
    · rw [if_pos g2] at h
      cases k with
      | zero =>
        refine ⟨acc, newly, by rw [List.take_zero, StopSign.admit_loop], ?_⟩
        simp only [List.get]
        constructor
        · intro hmem
          rcases StopSign.admit_loop_newly_sub mp ss time iid W rest acc newly acc' newly'
              h req hmem with h' | ⟨st, h'⟩
          · exact absurd h' (hdisj _ (List.mem_cons_self _ _))
          · exact absurd (List.mem_map.mpr ⟨(req, st), h', rfl⟩) hndh
        · rintro ⟨-, hc, -⟩
          rw [g2] at hc
          cases hc
      | succ k =>
        obtain ⟨acc2, newly2, hpre, hiff⟩ :=
          ih acc newly acc' newly' h hndt
            (fun e' he' => hdisj e' (List.mem_cons_of_mem _ he')) k (by simpa using hk)
        refine ⟨acc2, newly2, ?_, ?_⟩
        · rw [List.take_succ_cons, StopSign.admit_loop, if_neg c1, if_neg c2, if_neg g1,
            if_pos g2]
          exact hpre
        · simpa using hiff
    rw [if_neg g2] at h
    by_cases g3 : (decide (ss.get_priority req.turn = TurnPriority.Stop)
        && decide (Tick.as_time (time - started) < WAIT_AT_STOP_SIGN)) = true
    · rw [if_pos g3] at h
      cases k with
      | zero =>
        refine ⟨acc, newly, by rw [List.take_zero, StopSign.admit_loop], ?_⟩
        simp only [List.get]
        rw [Bool.and_eq_true, decide_eq_true_eq, decide_eq_true_eq] at g3
        constructor
        · intro hmem
          rcases StopSign.admit_loop_newly_sub mp ss time iid W rest acc newly acc' newly'
              h req hmem with h' | ⟨st, h'⟩
          · exact absurd h' (hdisj _ (List.mem_cons_self _ _))
          · exact absurd (List.mem_map.mpr ⟨(req, st), h', rfl⟩) hndh
        · rintro ⟨-, -, hc⟩
          exact absurd g3.2 (hc g3.1)
      | succ k =>
        obtain ⟨acc2, newly2, hpre, hiff⟩ :=
          ih acc newly acc' newly' h hndt
            (fun e' he' => hdisj e' (List.mem_cons_of_mem _ he')) k (by simpa using hk)
        refine ⟨acc2, newly2, ?_, ?_⟩
        · rw [List.take_succ_cons, StopSign.admit_loop, if_neg c1, if_neg c2, if_neg g1,
            if_neg g2, if_pos g3]
          exact hpre
        · simpa using hiff
    rw [if_neg g3] at h
    cases k with
    | zero =>
      refine ⟨acc, newly, by rw [List.take_zero, StopSign.admit_loop], ?_⟩
      simp only [List.get]
      rw [Bool.and_eq_true, not_and, decide_eq_true_eq, decide_eq_true_eq] at g3
      constructor
      · intro _
        exact ⟨Bool.eq_false_iff.mpr g1, Bool.eq_false_iff.mpr g2, g3⟩
      · intro _
        exact StopSign.admit_loop_newly_mono mp ss time iid W rest _ _ acc' newly' h req
          (List.mem_append_right _ (List.mem_singleton.mpr rfl))
    | succ k =>
      have hdisj' : ∀ e' ∈ rest, e'.1 ∉ newly ++ [req] := by
        intro e' he' hmem
        rcases List.mem_append.mp hmem with h' | h'
        · exact hdisj e' (List.mem_cons_of_mem _ he') h'
        · obtain h'' := List.mem_singleton.mp h'
          exact hndh (List.mem_map.mpr ⟨e', he', h''⟩)
      obtain ⟨acc2, newly2, hpre, hiff⟩ :=
        ih _ _ acc' newly' h hndt hdisj' k (by simpa using hk)
      refine ⟨acc2, newly2, ?_, ?_⟩
      · rw [List.take_succ_cons, StopSign.admit_loop, if_neg c1, if_neg c2, if_neg g1,
          if_neg g2, if_neg g3]
        exact hpre
      · simpa using hiff

/-- The admission test of the traffic-signal loop. -/
theorem TrafficSignal.admit_loop_keep (cycle : Cycle) (info : AgentInfo)
    (iid : IntersectionID) :
    ∀ (l : List Request) (acc : List (AgentID × TurnID)) (keep : List Request)
      (evs : List Event) (acc' : List (AgentID × TurnID)) (keep' : List Request)
      (evs' : List Event),
      TrafficSignal.admit_loop cycle info iid l acc keep evs = some (acc', keep', evs') →
      ∀ r, r ∈ keep' ↔ r ∈ keep ∨ (r ∈ l ∧ ¬(cycle.contains r.turn = true ∧
        info.leaders r.agent = true)) := by
  intro l
  induction l with
  | nil =>
    intro acc keep evs acc' keep' evs' h r
    rw [TrafficSignal.admit_loop] at h
    injection h with h
    injection h with h1 h2
    injection h2 with h2 h3
    subst h2
    simp
  | cons req rest ih =>
    intro acc keep evs acc' keep' evs' h r
    rw [TrafficSignal.admit_loop] at h
    by_cases c1 : req.turn.parent ≠ iid
    · rw [if_pos c1] at h; exact absurd h (by simp)
    rw [if_neg c1] at h
    by_cases c2 : OMap.contains req.agent acc = true
    · rw [if_pos c2] at h; exact absurd h (by simp)
    rw [if_neg c2] at h
    by_cases g : (!cycle.contains req.turn || !info.leaders req.agent) = true
    · rw [if_pos g] at h
      rw [ih _ _ _ acc' keep' evs' h r, OSet.mem_insert]
      simp only [Bool.or_eq_true, Bool.not_eq_true'] at g
      constructor
      · rintro ((h' | h') | h')
        · subst h'
          refine Or.inr ⟨List.mem_cons_self _ _, ?_⟩
          rintro ⟨hc, hl⟩
          rcases g with g | g
          · rw [g] at hc; cases hc
          · rw [g] at hl; cases hl
        · exact Or.inl h'
        · exact Or.inr ⟨List.mem_cons_of_mem _ h'.1, h'.2⟩
      · rintro (h' | ⟨h1, h2⟩)
        · exact Or.inl (Or.inr h')
        · rcases List.mem_cons.mp h1 with h3 | h3
          · exact Or.inl (Or.inl h3)
          · exact Or.inr ⟨h3, h2⟩
    · rw [if_neg g] at h
      rw [ih _ _ _ acc' keep' evs' h r]
      have ha : cycle.contains req.turn = true ∧ info.leaders req.agent = true := by
        simpa using g
      constructor
      · rintro (h' | h')
        · exact Or.inl h'
        · exact Or.inr ⟨List.mem_cons_of_mem _ h'.1, h'.2⟩
      · rintro (h' | ⟨h1, h2⟩)
        · exact Or.inl h'
        · rcases List.mem_cons.mp h1 with h3 | h3
          · subst h3
            exact absurd ⟨ha.1, ha.2⟩ h2
          · exact Or.inr ⟨h3, h2⟩

/-- The traffic-signal loop emits exactly one event per green-lit leader, in
list order. -/
theorem TrafficSignal.admit_loop_evs (cycle : Cycle) (info : AgentInfo)
    (iid : IntersectionID) :
    ∀ (l : List Request) (acc : List (AgentID × TurnID)) (keep : List Request)
      (evs : List Event) (acc' : List (AgentID × TurnID)) (keep' : List Request)
      (evs' : List Event),
      TrafficSignal.admit_loop cycle info iid l acc keep evs = some (acc', keep', evs') →
      evs' = evs ++ (l.filter fun r => cycle.contains r.turn && info.leaders r.agent).map
        Event.IntersectionAcceptsRequest := by
  intro l
  induction l with
  | nil =>
    intro acc keep evs acc' keep' evs' h
    rw [TrafficSignal.admit_loop] at h
    injection h with h
    injection h with h1 h2
    injection h2 with h2 h3
    simp [h3.symm]
  | cons req rest ih =>
    intro acc keep evs acc' keep' evs' h
    rw [TrafficSignal.admit_loop] at h
    by_cases c1 : req.turn.parent ≠ iid
    · rw [if_pos c1] at h; exact absurd h (by simp)
    rw [if_neg c1] at h
    by_cases c2 : OMap.contains req.agent acc = true
    · rw [if_pos c2] at h; exact absurd h (by simp)
    rw [if_neg c2] at h
    by_cases g : (!cycle.contains req.turn || !info.leaders req.agent) = true
    · rw [if_pos g] at h
      have hcond : (cycle.contains req.turn && info.leaders req.agent) = false := by
        simp only [Bool.or_eq_true, Bool.not_eq_true'] at g
        rcases g with g | g <;> simp [g]
      rw [ih _ _ _ acc' keep' evs' h, List.filter_cons, hcond]
      simp
    · rw [if_neg g] at h
      have hcond : (cycle.contains req.turn && info.leaders req.agent) = true := by
        simp only [Bool.or_eq_true, Bool.not_eq_true'] at g
        push_neg at g
        simp [g.1, g.2]
      rw [ih _ _ _ acc' keep' evs' h, List.filter_cons, hcond]
      simp

/-- Accepted entries survive the traffic-signal loop unchanged. -/
theorem TrafficSignal.admit_loop_lookup_mono_sig (cycle : Cycle) (info : AgentInfo)
    (iid : IntersectionID) :
    ∀ (l : List Request) (acc : List (AgentID × TurnID)) (keep : List Request)
      (evs : List Event) (acc' : List (AgentID × TurnID)) (keep' : List Request)
      (evs' : List Event),
      TrafficSignal.admit_loop cycle info iid l acc keep evs = some (acc', keep', evs') →
      ∀ a t, OMap.lookup a acc = some t → OMap.lookup a acc' = some t := by
  intro l
  induction l with
  | nil =>
    intro acc keep evs acc' keep' evs' h a t hl
    rw [TrafficSignal.admit_loop] at h
    injection h with h
    injection h with h1 h2
    exact h1 ▸ hl
  | cons req rest ih =>
    intro acc keep evs acc' keep' evs' h a t hl
    rw [TrafficSignal.admit_loop] at h
    by_cases c1 : req.turn.parent ≠ iid
    · rw [if_pos c1] at h; exact absurd h (by simp)
    rw [if_neg c1] at h
    by_cases c2 : OMap.contains req.agent acc = true
    · rw [if_pos c2] at h; exact absurd h (by simp)
    rw [if_neg c2] at h
    by_cases g : (!cycle.contains req.turn || !info.leaders req.agent) = true
    · rw [if_pos g] at h
      exact ih _ _ _ acc' keep' evs' h a t hl
    · rw [if_neg g] at h
      refine ih _ _ _ acc' keep' evs' h a t ?_
      rw [OMap.lookup_insert]
      have hne : a ≠ req.agent := by
        intro he
        subst he
        rw [OMap.contains, hl] at c2
        simp at c2
      rw [if_neg hne]
      exact hl

/-- Every green-lit leader in the request list ends up granted. -/
theorem TrafficSignal.admit_loop_granted (cycle : Cycle) (info : AgentInfo)
    (iid : IntersectionID) :
    ∀ (l : List Request) (acc : List (AgentID × TurnID)) (keep : List Request)
      (evs : List Event) (acc' : List (AgentID × TurnID)) (keep' : List Request)
      (evs' : List Event),
      TrafficSignal.admit_loop cycle info iid l acc keep evs = some (acc', keep', evs') →
      ∀ r ∈ l, (cycle.contains r.turn && info.leaders r.agent) = true →
        OMap.lookup r.agent acc' = some r.turn := by
  intro l
  induction l with
  | nil =>
    intro acc keep evs acc' keep' evs' h r hr
    cases hr
  | cons req rest ih =>
    intro acc keep evs acc' keep' evs' h r hr hcond
    rw [TrafficSignal.admit_loop] at h
    by_cases c1 : req.turn.parent ≠ iid
    · rw [if_pos c1] at h; exact absurd h (by simp)
    rw [if_neg c1] at h
    by_cases c2 : OMap.contains req.agent acc = true
    · rw [if_pos c2] at h; exact absurd h (by simp)
    rw [if_neg c2] at h
    by_cases g : (!cycle.contains req.turn || !info.leaders req.agent) = true
    · rw [if_pos g] at h
      rcases List.mem_cons.mp hr with h' | h'
      · subst h'
        simp only [Bool.or_eq_true, Bool.not_eq_true'] at g
        rw [Bool.and_eq_true] at hcond
        rcases g with g | g
        · rw [g] at hcond; cases hcond.1
        · rw [g] at hcond; cases hcond.2
      · exact ih _ _ _ acc' keep' evs' h r h' hcond
    · rw [if_neg g] at h
      rcases List.mem_cons.mp hr with h' | h'
      · subst h'
        exact TrafficSignal.admit_loop_lookup_mono_sig cycle info iid rest _ _ _ acc' keep' evs' h
          r.agent r.turn (by rw [OMap.lookup_insert, if_pos rfl])
      · exact ih _ _ _ acc' keep' evs' h r h' hcond

theorem StopSign.promote_id (p : StopSign) (ss : ControlStopSign) (info : AgentInfo)
    (time : Tick) : (p.promote ss info time).id = p.id := rfl

theorem StopSign.promote_accepted (p : StopSign) (ss : ControlStopSign) (info : AgentInfo)
    (time : Tick) : (p.promote ss info time).accepted = p.accepted := rfl

theorem StopSign.promote_approaching (p : StopSign) (ss : ControlStopSign) (info : AgentInfo)
    (time : Tick) : (p.promote ss info time).approaching_agents =
      p.approaching_agents.filter fun r => !StopSign.should_promote ss info r := rfl

/-- Destructuring of a successful `StopSign::step`. -/
theorem StopSign.step_cases (p : StopSign) (time : Tick) (mp : Map) (cm : ControlMap)
    (info : AgentInfo) (p' : StopSign) (evs : List Event)
    (h : p.step time mp cm info = some (p', evs)) :
    ∃ acc' newly,
      StopSign.admit_loop mp (cm.stop_signs p.id) time p.id
        (p.promote (cm.stop_signs p.id) info time).started_waiting_at
        (p.promote (cm.stop_signs p.id) info time).started_waiting_at
        (p.promote (cm.stop_signs p.id) info time).accepted [] = some (acc', newly) ∧
      p' = { p.promote (cm.stop_signs p.id) info time with
              accepted := acc'
              started_waiting_at :=
                (p.promote (cm.stop_signs p.id) info time).started_waiting_at.filter
                  fun e => !decide (e.1 ∈ newly) } ∧
      evs = newly.map Event.IntersectionAcceptsRequest := by
  simp only [StopSign.step] at h
  split at h
  · cases h
  next acc newly heq =>
    injection h with h
    injection h with h1 h2
    exact ⟨acc, newly, heq, h1.symm, h2.symm⟩

/-- Destructuring of a successful `TrafficSignal::step`. -/
theorem TrafficSignal.step_cases_sig (p : TrafficSignal) (time : Tick) (mp : Map)
    (cm : ControlMap) (info : AgentInfo) (p' : TrafficSignal) (evs : List Event)
    (h : p.step time mp cm info = some (p', evs)) :
    (p.accepted.any (fun e =>
        !((cm.traffic_signals p.id).current_cycle_and_remaining_time
            (Tick.as_time time)).1.contains e.2) = true ∧ p' = p ∧ evs = []) ∨
    (p.accepted.any (fun e =>
        !((cm.traffic_signals p.id).current_cycle_and_remaining_time
            (Tick.as_time time)).1.contains e.2) = false ∧
      ∃ acc' keep' evs',
        TrafficSignal.admit_loop
          ((cm.traffic_signals p.id).current_cycle_and_remaining_time
            (Tick.as_time time)).1 info p.id p.requests p.accepted [] [] =
          some (acc', keep', evs') ∧
        p' = { p with accepted := acc', requests := keep' } ∧ evs = evs') := by
  simp only [TrafficSignal.step] at h
  by_cases hg : p.accepted.any (fun e =>
      !((cm.traffic_signals p.id).current_cycle_and_remaining_time
          (Tick.as_time time)).1.contains e.2) = true
  · rw [if_pos hg] at h
    injection h with h
    injection h with h1 h2
    exact Or.inl ⟨hg, h1.symm, h2.symm⟩
  · rw [if_neg hg] at h
    refine Or.inr ⟨Bool.eq_false_iff.mpr hg, ?_⟩
    split at h
    · cases h
    next acc' keep' evs' heq =>
      injection h with h
      injection h with h1 h2
      exact ⟨acc', keep', evs', heq, h1.symm, h2.symm⟩

/-- Index-wise view of `stepPolicies`. -/
theorem stepPolicies_index (time : Tick) (mp : Map) (cm : ControlMap) (info : AgentInfo) :
    ∀ (l l' : List IntersectionPolicy) (evs : List Event),
      stepPolicies time mp cm info l = some (l', evs) →
      ∀ (j : Nat) (i : IntersectionPolicy), l[j]? = some i →
        ∃ i' ev, l'[j]? = some i' ∧ i.step time mp cm info = some (i', ev) := by
  intro l
  induction l with
  | nil =>
    intro l' evs h j i hj
    simp at hj
  | cons i0 rest ih =>
    intro l' evs h j i hj
    rw [stepPolicies] at h
    cases hs : i0.step time mp cm info with
    | none => rw [hs] at h; cases h
    | some z =>
      obtain ⟨i0', ev⟩ := z
      rw [hs] at h
      cases hr : stepPolicies time mp cm info rest with
      | none => rw [hr] at h; cases h
      | some z2 =>
        obtain ⟨rest', evs2⟩ := z2
        rw [hr] at h
        injection h with h
        injection h with h1 h2
        subst h1
        cases j with
        | zero =>
          simp only [List.getElem?_cons_zero, Option.some.injEq] at hj
          subst hj
          exact ⟨i0', ev, by simp, hs⟩
        | succ j =>
          simp only [List.getElem?_cons_succ] at hj
          obtain ⟨i', ev', hj', hs'⟩ := ih rest' evs2 hr j i hj
          exact ⟨i', ev', by simpa using hj', hs'⟩

/-- Membership view of `stepPolicies`. -/
theorem stepPolicies_mem (time : Tick) (mp : Map) (cm : ControlMap) (info : AgentInfo) :
    ∀ (l l' : List IntersectionPolicy) (evs : List Event),
      stepPolicies time mp cm info l = some (l', evs) →
      ∀ i' ∈ l', ∃ i ∈ l, ∃ ev, i.step time mp cm info = some (i', ev) := by
  intro l
  induction l with
  | nil =>
    intro l' evs h i' hi'
    rw [stepPolicies] at h
    injection h with h
    injection h with h1 h2
    subst h1
    cases hi'
  | cons i0 rest ih =>
    intro l' evs h i' hi'
    rw [stepPolicies] at h
    cases hs : i0.step time mp cm info with
    | none => rw [hs] at h; cases h
    | some z =>
      obtain ⟨i0', ev⟩ := z
      rw [hs] at h
      cases hr : stepPolicies time mp cm info rest with
      | none => rw [hr] at h; cases h
      | some z2 =>
        obtain ⟨rest', evs2⟩ := z2
        rw [hr] at h
        injection h with h
        injection h with h1 h2
        subst h1
        rcases List.mem_cons.mp hi' with h' | h'
        · subst h'
          exact ⟨i0, List.mem_cons_self _ _, ev, hs⟩
        · obtain ⟨i, hi, ev', hs'⟩ := ih rest' evs2 hr i' h'
          exact ⟨i, List.mem_cons_of_mem _ hi, ev', hs'⟩

/-- Destructuring of a successful top-level `step`. -/
theorem IntersectionSimState.step_cases_state (s : IntersectionSimState) (time : Tick) (mp : Map)
    (cm : ControlMap) (info : AgentInfo) (s' : IntersectionSimState) (evs : List Event)
    (h : s.step time mp cm info = some (s', evs)) :
    stepPolicies time mp cm info s.intersections = some (s'.intersections, evs) ∧
      s'.debug = s.debug := by
  rw [IntersectionSimState.step] at h
  cases hr : stepPolicies time mp cm info s.intersections with
  | none => rw [hr] at h; cases h
  | some z =>
    obtain ⟨is', evs2⟩ := z
    rw [hr] at h
    injection h with h
    injection h with h1 h2
    subst h2
    rw [← h1]
    exact ⟨rfl, rfl⟩

/-- A successful per-policy step preserves every accepted entry (C8's core). -/
theorem IntersectionPolicy.step_lookup_mono (i i' : IntersectionPolicy) (time : Tick)
    (mp : Map) (cm : ControlMap) (info : AgentInfo) (ev : List Event)
    (h : i.step time mp cm info = some (i', ev)) :
    ∀ a t, OMap.lookup a i.accepted = some t → OMap.lookup a i'.accepted = some t := by
  intro a t hl
  cases i with
  | StopSignPolicy p =>
    rw [IntersectionPolicy.step] at h
    cases hs : p.step time mp cm info with
    | none => rw [hs] at h; cases h
    | some z =>
      obtain ⟨p', evs⟩ := z
      rw [hs] at h
      injection h with h
      injection h with h1 h2
      subst h1
      obtain ⟨acc', newly, hadm, hp', -⟩ := StopSign.step_cases p time mp cm info p' evs hs
      subst hp'
      exact StopSign.admit_loop_lookup_mono mp (cm.stop_signs p.id) time p.id _ _ _ _ acc'
        newly hadm a t (by rwa [StopSign.promote_accepted])
  | TrafficSignalPolicy p =>
    rw [IntersectionPolicy.step] at h
    cases hs : p.step time mp cm info with
    | none => rw [hs] at h; cases h
    | some z =>
      obtain ⟨p', evs⟩ := z
      rw [hs] at h
      injection h with h
      injection h with h1 h2
      subst h1
      rcases TrafficSignal.step_cases_sig p time mp cm info p' evs hs with
        ⟨-, hp', -⟩ | ⟨-, acc', keep', evs', hadm, hp', -⟩
      · subst hp'; exact hl
      · subst hp'
        exact TrafficSignal.admit_loop_lookup_mono_sig _ info p.id p.requests _ _ _ acc' keep'
          evs' hadm a t hl

theorem list_set_self {α : Type} (l : List α) (n : Nat) (a : α) (h : l[n]? = some a) :
    l.set n a = l := by
  induction l generalizing n with
  | nil => simp at h
  | cons b l ih =>
    cases n with
    | zero =>
      simp only [List.getElem?_cons_zero, Option.some.injEq] at h
      rw [h, List.set_cons_zero]
    | succ n =>
      simp only [List.getElem?_cons_succ] at h
      rw [List.set_cons_succ, ih n h]

/-- A successful policy-level submit never changes the accepted map. -/
theorem IntersectionPolicy.submit_accepted (i : IntersectionPolicy) (req : Request)
    (i' : IntersectionPolicy) (h : i.submit req = Except.ok i') :
    i'.accepted = i.accepted := by
  rw [IntersectionPolicy.submit.eq_def] at h
  split at h
  · split at h
    · cases h
    · injection h with h
      rw [← h]
  · cases i with
    | StopSignPolicy p =>
      simp only at h
      injection h with h
      rw [← h]
      simp only [IntersectionPolicy.accepted, StopSign.enqueue]
      split <;> rfl
    | TrafficSignalPolicy p =>
      simp only at h
      injection h with h
      rw [← h]
      rfl

/-- A policy-level submit errs exactly when the agent is accepted for another
turn. -/
theorem IntersectionPolicy.submit_error_iff (i : IntersectionPolicy) (req : Request) :
    (∃ e, i.submit req = Except.error e) ↔
      ∃ t, OMap.lookup req.agent i.accepted = some t ∧ t ≠ req.turn := by
  rw [IntersectionPolicy.submit.eq_def]
  split
  next t hl =>
    by_cases he : t ≠ req.turn
    · rw [if_pos he]
      exact ⟨fun _ => ⟨t, hl, he⟩, fun _ => ⟨_, rfl⟩⟩
    · rw [if_neg he]
      constructor
      · rintro ⟨e, he'⟩; cases he'
      · rintro ⟨t', ht', hne⟩
        rw [hl] at ht'
        injection ht' with ht'
        exact absurd (ht' ▸ hne) he
  next hl =>
    constructor
    · rintro ⟨e, he'⟩
      cases i <;> simp only at he' <;> cases he'
    · rintro ⟨t', ht', -⟩
      rw [hl] at ht'
      cases ht'

/-- Re-submitting the already-accepted request is an `Ok` no-op. -/
theorem IntersectionPolicy.submit_ok_self (i : IntersectionPolicy) (req : Request)
    (h : OMap.lookup req.agent i.accepted = some req.turn) : i.submit req = Except.ok i := by
  rw [IntersectionPolicy.submit.eq_def, h]
  simp

/-- Bridge: `submit_request` through a known policy at the request's index. -/
theorem IntersectionSimState.submit_request_eq (s : IntersectionSimState) (req : Request)
    (i : IntersectionPolicy) (hi : s.intersections[req.turn.parent]? = some i) :
    s.submit_request req =
      match i.submit req with
      | .error e => some (.error e)
      | .ok i' =>
        some (.ok { s with intersections := s.intersections.set req.turn.parent i' }) := by
  unfold IntersectionSimState.submit_request
  rw [hi]

/-- C7: `submit_request(req)` returns `InvariantViolated` exactly when the
agent already holds an accepted entry for a different turn at `req`'s
intersection, and then the state is unchanged; an identical accepted entry
yields `Ok` with the state unchanged; and a successful submit never changes
any intersection's accepted map (it never grants). -/
theorem C7_submit_error_semantics (s : IntersectionSimState) (req : Request)
    (i : IntersectionPolicy) (hi : s.intersections[req.turn.parent]? = some i) :
    ((∃ e, s.submit_request req = some (Except.error e)) ↔
      ∃ t, OMap.lookup req.agent i.accepted = some t ∧ t ≠ req.turn) ∧
    (OMap.lookup req.agent i.accepted = some req.turn →
      s.submit_request req = some (Except.ok s)) ∧
    ((∃ e, s.submit_request req = some (Except.error e)) →
      s.after_submit req = some s) ∧
    (∀ s', s.submit_request req = some (Except.ok s') →
      ∀ j : Nat, (s'.intersections[j]?).map IntersectionPolicy.accepted =
        (s.intersections[j]?).map IntersectionPolicy.accepted) := by
  have he := IntersectionSimState.submit_request_eq s req i hi
  have herr : (∃ e, s.submit_request req = some (Except.error e)) ↔
      ∃ e, i.submit req = Except.error e := by
    rw [he]
    cases hsi : i.submit req with
    | error e =>
      constructor
      · intro _; exact ⟨e, rfl⟩
      · intro _; exact ⟨e, rfl⟩
    | ok i' =>
      constructor
      · rintro ⟨e', he'⟩; simp at he'
      · rintro ⟨e', he'⟩; cases he'
  refine ⟨herr.trans (IntersectionPolicy.submit_error_iff i req), ?_, ?_, ?_⟩
  · intro hl
    rw [he, IntersectionPolicy.submit_ok_self i req hl]
    show some (Except.ok { s with intersections := s.intersections.set req.turn.parent i }) =
      some (Except.ok s)
    rw [list_set_self _ _ _ hi]
  · intro hex
    obtain ⟨e, hee⟩ := hex
    simp [IntersectionSimState.after_submit, hee]
  · intro s' hok j
    rw [he] at hok
    cases hsi : i.submit req with
    | error e => rw [hsi] at hok; simp at hok
    | ok i' =>
      rw [hsi] at hok
      have hok2 : some (Except.ok
          { s with intersections := s.intersections.set req.turn.parent i' }) =
          some (Except.ok s') := hok
      injection hok2 with hok2
      injection hok2 with hok2
      have hs' : s' = { s with intersections := s.intersections.set req.turn.parent i' } :=
        hok2.symm
      subst hs'
      by_cases hj : j = req.turn.parent
      · subst hj
        have hlt : req.turn.parent < s.intersections.length :=
          (List.getElem?_eq_some_iff.mp hi).1
        show ((s.intersections.set req.turn.parent
            i')[req.turn.parent]?).map IntersectionPolicy.accepted =
          (s.intersections[req.turn.parent]?).map IntersectionPolicy.accepted
        rw [List.getElem?_set_self hlt, hi]
        show some i'.accepted = some i.accepted
        rw [IntersectionPolicy.submit_accepted i req i' hsi]
      · show ((s.intersections.set req.turn.parent i')[j]?).map IntersectionPolicy.accepted =
          (s.intersections[j]?).map IntersectionPolicy.accepted
        rw [List.getElem?_set_ne (fun h => hj h.symm)]

/-- Witness for C7 at a concrete state: `Car 0` is accepted for `exTurn` and
submits `exReqB`, the same agent's request for a different turn. -/
theorem C7_submit_error_semantics_witness :
    (exAccState.intersections[exReqB.turn.parent]? = some exAccPolicy) ∧
    (((∃ e, exAccState.submit_request exReqB = some (Except.error e)) ↔
      ∃ t, OMap.lookup exReqB.agent exAccPolicy.accepted = some t ∧ t ≠ exReqB.turn) ∧
    (OMap.lookup exReqB.agent exAccPolicy.accepted = some exReqB.turn →
      exAccState.submit_request exReqB = some (Except.ok exAccState)) ∧
    ((∃ e, exAccState.submit_request exReqB = some (Except.error e)) →
      exAccState.after_submit exReqB = some exAccState) ∧
    (∀ s', exAccState.submit_request exReqB = some (Except.ok s') →
      ∀ j : Nat, (s'.intersections[j]?).map IntersectionPolicy.accepted =
        (exAccState.intersections[j]?).map IntersectionPolicy.accepted)) :=
  ⟨rfl, C7_submit_error_semantics exAccState exReqB exAccPolicy rfl⟩

/-- Bridge: `on_enter` through a known policy at the request's index. -/
theorem IntersectionSimState.on_enter_eq (s : IntersectionSimState) (req : Request)
    (i : IntersectionPolicy) (hi : s.intersections[req.turn.parent]? = some i) :
    s.on_enter req =
      (if OMap.contains req.agent i.accepted then some (Except.ok ())
        else some (Except.error
          "agent entered, but was not accepted by the intersection yet")) := by
  unfold IntersectionSimState.on_enter
  rw [hi]

/-- C9: `on_enter(req)` returns `Ok` exactly when the accepted map of `req`'s
intersection has the key `req.agent`, returns `InvariantViolated` otherwise,
and in either case leaves the state unchanged (the embedding of `on_enter`
computes no new state, and the trace semantics keeps `s`). -/
theorem C9_on_enter_semantics (s : IntersectionSimState) (req : Request)
    (i : IntersectionPolicy) (hi : s.intersections[req.turn.parent]? = some i) :
    (s.on_enter req = some (Except.ok ()) ↔ OMap.contains req.agent i.accepted = true) ∧
    ((∃ e, s.on_enter req = some (Except.error e)) ↔
      OMap.contains req.agent i.accepted = false) ∧
    (∀ (mp : Map) (cm : ControlMap) (s2 : IntersectionSimState),
      applyQOp mp cm s (QOp.enter req) = some s2 → s2 = s) := by
  have he := IntersectionSimState.on_enter_eq s req i hi
  refine ⟨?_, ?_, ?_⟩
  · rw [he]
    by_cases hc : OMap.contains req.agent i.accepted = true
    · simp [hc]
    · rw [if_neg hc]
      simp only [Option.some.injEq]
      constructor
      · intro h'; cases h'
      · intro h'; exact absurd h' hc
  · rw [he]
    by_cases hc : OMap.contains req.agent i.accepted = true
    · rw [if_pos hc]
      constructor
      · rintro ⟨e, h'⟩; simp at h'
      · intro h'; rw [h'] at hc; cases hc
    · rw [if_neg hc]
      exact ⟨fun _ => Bool.eq_false_iff.mpr hc, fun _ => ⟨_, rfl⟩⟩
  · intro mp cm s2 h'
    rw [applyQOp] at h'
    cases ho : s.on_enter req with
    | none => rw [ho] at h'; cases h'
    | some z =>
      rw [ho] at h'
      injection h' with h'
      exact h'.symm

/-- Witness for C9 at a concrete state: `Car 0` is accepted at `exAccState`
and enters on `exReq`. -/
theorem C9_on_enter_semantics_witness :
    (exAccState.intersections[exReq.turn.parent]? = some exAccPolicy) ∧
    ((exAccState.on_enter exReq = some (Except.ok ()) ↔
      OMap.contains exReq.agent exAccPolicy.accepted = true) ∧
    ((∃ e, exAccState.on_enter exReq = some (Except.error e)) ↔
      OMap.contains exReq.agent exAccPolicy.accepted = false) ∧
    (∀ (mp : Map) (cm : ControlMap) (s2 : IntersectionSimState),
      applyQOp mp cm exAccState (QOp.enter exReq) = some s2 → s2 = exAccState)) :=
  ⟨rfl, C9_on_enter_semantics exAccState exReq exAccPolicy rfl⟩

/-- C4: if some accepted `(agent, turn)` of a traffic signal is not in the
cycle current for this tick, `step` admits nothing, emits no event, and leaves
the whole policy (requests and accepted entries included) unchanged. -/
theorem C4_signal_overrun_guard (p : TrafficSignal) (time : Tick) (mp : Map)
    (cm : ControlMap) (info : AgentInfo)
    (hstale : ∃ e ∈ p.accepted,
      ((cm.traffic_signals p.id).current_cycle_and_remaining_time
        (Tick.as_time time)).1.contains e.2 = false) :
    p.step time mp cm info = some (p, []) := by
  have hany : p.accepted.any (fun e =>
      !((cm.traffic_signals p.id).current_cycle_and_remaining_time
        (Tick.as_time time)).1.contains e.2) = true := by
    rw [List.any_eq_true]
    obtain ⟨e, he, hc⟩ := hstale
    exact ⟨e, he, by rw [hc]; rfl⟩
  simp only [TrafficSignal.step]
  rw [if_pos hany]

/-- Witness for C4: `staleSignal` has `Car 0` accepted for `exTurn2`, which the
current cycle no longer contains. -/
theorem C4_signal_overrun_guard_witness :
    (∃ e ∈ staleSignal.accepted,
      ((exControl.traffic_signals staleSignal.id).current_cycle_and_remaining_time
        (Tick.as_time 0)).1.contains e.2 = false) ∧
    staleSignal.step 0 sigMap exControl exInfo = some (staleSignal, []) :=
  ⟨by decide, C4_signal_overrun_guard staleSignal 0 sigMap exControl exInfo (by decide)⟩

/-- Bridge: `after_submit` when the intersection id is out of range. -/
theorem IntersectionSimState.after_submit_none (s : IntersectionSimState) (r : Request)
    (hi : s.intersections[r.turn.parent]? = none) : s.after_submit r = none := by
  unfold IntersectionSimState.after_submit IntersectionSimState.submit_request
  rw [hi]

/-- Bridge: `after_submit` through a known policy at the request's index. -/
theorem IntersectionSimState.after_submit_eq (s : IntersectionSimState) (r : Request)
    (i : IntersectionPolicy) (hi : s.intersections[r.turn.parent]? = some i) :
    s.after_submit r = some
      (match i.submit r with
        | .error _ => s
        | .ok i' => { s with intersections := s.intersections.set r.turn.parent i' }) := by
  unfold IntersectionSimState.after_submit
  rw [IntersectionSimState.submit_request_eq s r i hi]
  cases i.submit r <;> rfl

/-- Enqueue never touches the waiting map or the accepted map. -/
theorem StopSign.enqueue_started_waiting_at (p : StopSign) (r : Request) :
    (p.enqueue r).started_waiting_at = p.started_waiting_at := by
  rw [StopSign.enqueue]
  split <;> rfl

theorem StopSign.enqueue_accepted (p : StopSign) (r : Request) :
    (p.enqueue r).accepted = p.accepted := by
  rw [StopSign.enqueue]
  split <;> rfl

theorem StopSign.enqueue_idem (p : StopSign) (r : Request) :
    (p.enqueue r).enqueue r = p.enqueue r := by
  by_cases hc : OMap.contains r p.started_waiting_at = true
  · have h1 : p.enqueue r = p := by rw [StopSign.enqueue, if_pos hc]
    rw [h1, h1]
  · have h1 : p.enqueue r =
        { p with approaching_agents := OSet.insert r p.approaching_agents } := by
      rw [StopSign.enqueue, if_neg hc]
    rw [h1, StopSign.enqueue]
    simp only [if_neg hc]
    rw [OSet.insert_idem]

theorem StopSign.enqueue_comm (p : StopSign) (r1 r2 : Request) (hne : r1 ≠ r2) :
    (p.enqueue r1).enqueue r2 = (p.enqueue r2).enqueue r1 := by
  by_cases hc1 : OMap.contains r1 p.started_waiting_at = true <;>
    by_cases hc2 : OMap.contains r2 p.started_waiting_at = true
  · have h1 : p.enqueue r1 = p := by rw [StopSign.enqueue, if_pos hc1]
    have h2 : p.enqueue r2 = p := by rw [StopSign.enqueue, if_pos hc2]
    rw [h1, h2, h1]
  · have h1 : p.enqueue r1 = p := by rw [StopSign.enqueue, if_pos hc1]
    have hq : OMap.contains r1 (p.enqueue r2).started_waiting_at = true := by
      rw [StopSign.enqueue_started_waiting_at]
      exact hc1
    rw [h1, show (p.enqueue r2).enqueue r1 = p.enqueue r2 from by
      rw [StopSign.enqueue, if_pos hq]]
  · have h2 : p.enqueue r2 = p := by rw [StopSign.enqueue, if_pos hc2]
    have hq : OMap.contains r2 (p.enqueue r1).started_waiting_at = true := by
      rw [StopSign.enqueue_started_waiting_at]
      exact hc2
    rw [h2, show (p.enqueue r1).enqueue r2 = p.enqueue r1 from by
      rw [StopSign.enqueue, if_pos hq]]
  · have h1 : p.enqueue r1 =
        { p with approaching_agents := OSet.insert r1 p.approaching_agents } := by
      rw [StopSign.enqueue, if_neg hc1]
    have h2 : p.enqueue r2 =
        { p with approaching_agents := OSet.insert r2 p.approaching_agents } := by
      rw [StopSign.enqueue, if_neg hc2]
    rw [h1, h2, StopSign.enqueue, StopSign.enqueue]
    simp only [if_neg hc1, if_neg hc2]
    rw [OSet.insert_comm r2 r1 hne.symm]

theorem TrafficSignal.enqueue_idem_sig (p : TrafficSignal) (r : Request) :
    (p.enqueue r).enqueue r = p.enqueue r := by
  simp only [TrafficSignal.enqueue]
  rw [OSet.insert_idem]

theorem TrafficSignal.enqueue_comm_sig (p : TrafficSignal) (r1 r2 : Request) (hne : r1 ≠ r2) :
    (p.enqueue r1).enqueue r2 = (p.enqueue r2).enqueue r1 := by
  simp only [TrafficSignal.enqueue]
  rw [OSet.insert_comm r2 r1 hne.symm]

/-- Re-submitting a request just accepted by `submit` is an `Ok` no-op. -/
theorem IntersectionPolicy.submit_submit (i : IntersectionPolicy) (r : Request)
    (i' : IntersectionPolicy) (h : i.submit r = Except.ok i') : i'.submit r = Except.ok i' := by
  rw [IntersectionPolicy.submit.eq_def] at h
  split at h
  next t hl =>
    split at h
    · cases h
    next he =>
      injection h with h
      subst h
      exact IntersectionPolicy.submit_ok_self i r (by rwa [not_ne_iff.mp he] at hl)
  next hl =>
    cases i with
    | StopSignPolicy p =>
      simp only at h
      injection h with h
      subst h
      have hl' : OMap.lookup r.agent
          (IntersectionPolicy.StopSignPolicy (p.enqueue r)).accepted = none := by
        show OMap.lookup r.agent (p.enqueue r).accepted = none
        rw [StopSign.enqueue_accepted]
        exact hl
      rw [IntersectionPolicy.submit.eq_def, hl']
      show Except.ok (IntersectionPolicy.StopSignPolicy ((p.enqueue r).enqueue r)) =
        Except.ok (IntersectionPolicy.StopSignPolicy (p.enqueue r))
      rw [StopSign.enqueue_idem]
    | TrafficSignalPolicy p =>
      simp only at h
      injection h with h
      subst h
      have hl' : OMap.lookup r.agent
          (IntersectionPolicy.TrafficSignalPolicy (p.enqueue r)).accepted = none := by
        show OMap.lookup r.agent (p.enqueue r).accepted = none
        exact hl
      rw [IntersectionPolicy.submit.eq_def, hl']
      show Except.ok (IntersectionPolicy.TrafficSignalPolicy ((p.enqueue r).enqueue r)) =
        Except.ok (IntersectionPolicy.TrafficSignalPolicy (p.enqueue r))
      rw [TrafficSignal.enqueue_idem_sig]

/-- An `InvariantViolated` from `submit` persists through another agent's
successful submit (it depends only on the accepted map, which is unchanged). -/
theorem IntersectionPolicy.submit_error_stable (i i1 : IntersectionPolicy) (r1 r2 : Request)
    (h1 : i.submit r1 = Except.ok i1) (herr : ∃ e, i.submit r2 = Except.error e) :
    ∃ e, i1.submit r2 = Except.error e := by
  rw [IntersectionPolicy.submit_error_iff] at herr
  rw [IntersectionPolicy.submit_error_iff, IntersectionPolicy.submit_accepted i r1 i1 h1]
  exact herr

/-- Defining equation of `submit` when the agent has no accepted entry. -/
theorem IntersectionPolicy.submit_of_none (i : IntersectionPolicy) (r : Request)
    (h : OMap.lookup r.agent i.accepted = none) :
    i.submit r = Except.ok (match i with
      | .StopSignPolicy p => .StopSignPolicy (p.enqueue r)
      | .TrafficSignalPolicy p => .TrafficSignalPolicy (p.enqueue r)) := by
  rw [IntersectionPolicy.submit.eq_def, h]
  cases i <;> rfl

/-- Defining equation of `submit` when the agent is accepted for another turn. -/
theorem IntersectionPolicy.submit_of_some_ne (i : IntersectionPolicy) (r : Request)
    (t : TurnID) (h : OMap.lookup r.agent i.accepted = some t) (hne : t ≠ r.turn) :
    ∃ e, i.submit r = Except.error e := by
  refine ⟨"request made, but another turn has already been accepted", ?_⟩
  rw [IntersectionPolicy.submit.eq_def, h]
  show (if t ≠ r.turn then
      Except.error "request made, but another turn has already been accepted"
    else Except.ok i) =
    Except.error "request made, but another turn has already been accepted"
  rw [if_pos hne]

/-- If `submit` succeeds while the agent already has an accepted entry, that
entry was for the same turn and nothing changed. -/
theorem IntersectionPolicy.submit_ok_inv (i : IntersectionPolicy) (r : Request) (t : TurnID)
    (hl : OMap.lookup r.agent i.accepted = some t) (i' : IntersectionPolicy)
    (h : i.submit r = Except.ok i') : i' = i ∧ t = r.turn := by
  have ht : t = r.turn := by
    by_contra hc
    obtain ⟨e, he⟩ := IntersectionPolicy.submit_of_some_ne i r t hl hc
    rw [he] at h
    cases h
  subst ht
  rw [IntersectionPolicy.submit_ok_self i r hl] at h
  injection h with h
  exact ⟨h.symm, rfl⟩

/-- Two successful submits of distinct requests commute at the policy level. -/
theorem IntersectionPolicy.submit_ok_comm (i : IntersectionPolicy) (r1 r2 : Request)
    (hne : r1 ≠ r2) (i1 i2 : IntersectionPolicy)
    (h1 : i.submit r1 = Except.ok i1) (h2 : i.submit r2 = Except.ok i2) :
    ∃ j, i1.submit r2 = Except.ok j ∧ i2.submit r1 = Except.ok j := by
  have hacc1 : i1.accepted = i.accepted := IntersectionPolicy.submit_accepted i r1 i1 h1
  have hacc2 : i2.accepted = i.accepted := IntersectionPolicy.submit_accepted i r2 i2 h2
  cases hl2 : OMap.lookup r2.agent i.accepted with
  | some t =>
    obtain ⟨hi2, ht⟩ := IntersectionPolicy.submit_ok_inv i r2 t hl2 i2 h2
    refine ⟨i1, ?_, ?_⟩
    · exact IntersectionPolicy.submit_ok_self i1 r2 (by rw [hacc1, hl2, ht])
    · rw [hi2]; exact h1
  | none =>
    cases hl1 : OMap.lookup r1.agent i.accepted with
    | some t =>
      obtain ⟨hi1, ht⟩ := IntersectionPolicy.submit_ok_inv i r1 t hl1 i1 h1
      refine ⟨i2, ?_, ?_⟩
      · rw [hi1]; exact h2
      · exact IntersectionPolicy.submit_ok_self i2 r1 (by rw [hacc2, hl1, ht])
    | none =>
      rw [IntersectionPolicy.submit_of_none i r1 hl1] at h1
      rw [IntersectionPolicy.submit_of_none i r2 hl2] at h2
      injection h1 with h1
      injection h2 with h2
      cases i with
      | StopSignPolicy p =>
        simp only at h1 h2
        subst h1 h2
        refine ⟨.StopSignPolicy ((p.enqueue r1).enqueue r2), ?_, ?_⟩
        · rw [IntersectionPolicy.submit_of_none _ r2 (by
            show OMap.lookup r2.agent (p.enqueue r1).accepted = none
            rw [StopSign.enqueue_accepted]
            exact hl2)]
        · rw [IntersectionPolicy.submit_of_none _ r1 (by
            show OMap.lookup r1.agent (p.enqueue r2).accepted = none
            rw [StopSign.enqueue_accepted]
            exact hl1)]
          show Except.ok (IntersectionPolicy.StopSignPolicy ((p.enqueue r2).enqueue r1)) =
            Except.ok (IntersectionPolicy.StopSignPolicy ((p.enqueue r1).enqueue r2))
          rw [StopSign.enqueue_comm p r2 r1 hne.symm]
      | TrafficSignalPolicy p =>
        simp only at h1 h2
        subst h1 h2
        refine ⟨.TrafficSignalPolicy ((p.enqueue r1).enqueue r2), ?_, ?_⟩
        · rw [IntersectionPolicy.submit_of_none _ r2 (by
            show OMap.lookup r2.agent (p.enqueue r1).accepted = none
            exact hl2)]
        · rw [IntersectionPolicy.submit_of_none _ r1 (by
            show OMap.lookup r1.agent (p.enqueue r2).accepted = none
            exact hl1)]
          show Except.ok (IntersectionPolicy.TrafficSignalPolicy ((p.enqueue r2).enqueue r1)) =
            Except.ok (IntersectionPolicy.TrafficSignalPolicy ((p.enqueue r1).enqueue r2))
          rw [TrafficSignal.enqueue_comm_sig p r2 r1 hne.symm]

/-- C6: `submit_request` is idempotent (submitting `r` twice equals submitting
it once), and for distinct requests at one intersection the submission order
does not matter, both for the resulting state and for the state after a
subsequent `step`.  An `Err` return leaves the state unchanged, so traces use
`after_submit`; a panic (`none`) aborts both traces alike. -/
theorem C6_submit_idempotent_order_independent (s : IntersectionSimState)
    (r r1 r2 : Request) (hne : r1 ≠ r2) (hpar : r1.turn.parent = r2.turn.parent) :
    ((s.after_submit r).bind (fun s' => s'.after_submit r) = s.after_submit r) ∧
    ((s.after_submit r1).bind (fun s' => s'.after_submit r2) =
      (s.after_submit r2).bind (fun s' => s'.after_submit r1)) ∧
    (∀ (time : Tick) (mp : Map) (cm : ControlMap) (info : AgentInfo),
      ((s.after_submit r1).bind (fun s' => s'.after_submit r2)).bind
          (fun s' => s'.step time mp cm info) =
        ((s.after_submit r2).bind (fun s' => s'.after_submit r1)).bind
          (fun s' => s'.step time mp cm info)) := by
  have hcomm : (s.after_submit r1).bind (fun s' => s'.after_submit r2) =
      (s.after_submit r2).bind (fun s' => s'.after_submit r1) := by
    cases hi : s.intersections[r1.turn.parent]? with
    | none =>
      have hi2 : s.intersections[r2.turn.parent]? = none := by rw [← hpar]; exact hi
      rw [IntersectionSimState.after_submit_none s r1 hi,
        IntersectionSimState.after_submit_none s r2 hi2, Option.none_bind, Option.none_bind]
    | some i =>
      have hi2 : s.intersections[r2.turn.parent]? = some i := by rw [← hpar]; exact hi
      have hlt : r1.turn.parent < s.intersections.length := (List.getElem?_eq_some_iff.mp hi).1
      cases hs1 : i.submit r1 with
      | error e1 =>
        have L1 : s.after_submit r1 = some s := by
          rw [IntersectionSimState.after_submit_eq s r1 i hi, hs1]
        cases hs2 : i.submit r2 with
        | error e2 =>
          have L2 : s.after_submit r2 = some s := by
            rw [IntersectionSimState.after_submit_eq s r2 i hi2, hs2]
          rw [L1, L2, Option.some_bind, Option.some_bind, L1, L2]
        | ok i2 =>
          have L2 : s.after_submit r2 =
              some { s with intersections := s.intersections.set r2.turn.parent i2 } := by
            rw [IntersectionSimState.after_submit_eq s r2 i hi2, hs2]
          have hi2' : ({ s with intersections :=
              s.intersections.set r2.turn.parent i2 } :
                IntersectionSimState).intersections[r1.turn.parent]? = some i2 := by
            show (s.intersections.set r2.turn.parent i2)[r1.turn.parent]? = some i2
            rw [hpar]
            exact List.getElem?_set_self (by rw [← hpar]; exact hlt)
          obtain ⟨e', he'⟩ :=
            IntersectionPolicy.submit_error_stable i i2 r2 r1 hs2 ⟨e1, hs1⟩
          have L3 : ({ s with intersections :=
              s.intersections.set r2.turn.parent i2 } :
                IntersectionSimState).after_submit r1 =
              some { s with intersections := s.intersections.set r2.turn.parent i2 } := by
            rw [IntersectionSimState.after_submit_eq _ r1 i2 hi2', he']
          rw [L1, L2, Option.some_bind, Option.some_bind, L2, L3]
      | ok i1 =>
        have L1 : s.after_submit r1 =
            some { s with intersections := s.intersections.set r1.turn.parent i1 } := by
          rw [IntersectionSimState.after_submit_eq s r1 i hi, hs1]
        have hi1' : ({ s with intersections :=
            s.intersections.set r1.turn.parent i1 } :
              IntersectionSimState).intersections[r2.turn.parent]? = some i1 := by
          show (s.intersections.set r1.turn.parent i1)[r2.turn.parent]? = some i1
          rw [← hpar]
          exact List.getElem?_set_self hlt
        cases hs2 : i.submit r2 with
        | error e2 =>
          have L2 : s.after_submit r2 = some s := by
            rw [IntersectionSimState.after_submit_eq s r2 i hi2, hs2]
          obtain ⟨e', he'⟩ :=
            IntersectionPolicy.submit_error_stable i i1 r1 r2 hs1 ⟨e2, hs2⟩
          have L3 : ({ s with intersections :=
              s.intersections.set r1.turn.parent i1 } :
                IntersectionSimState).after_submit r2 =
              some { s with intersections := s.intersections.set r1.turn.parent i1 } := by
            rw [IntersectionSimState.after_submit_eq _ r2 i1 hi1', he']
          rw [L1, L2, Option.some_bind, Option.some_bind, L3, L1]
        | ok i2 =>
          obtain ⟨j, hj1, hj2⟩ := IntersectionPolicy.submit_ok_comm i r1 r2 hne i1 i2 hs1 hs2
          have L2 : s.after_submit r2 =
              some { s with intersections := s.intersections.set r2.turn.parent i2 } := by
            rw [IntersectionSimState.after_submit_eq s r2 i hi2, hs2]
          have hi2' : ({ s with intersections :=
              s.intersections.set r2.turn.parent i2 } :
                IntersectionSimState).intersections[r1.turn.parent]? = some i2 := by
            show (s.intersections.set r2.turn.parent i2)[r1.turn.parent]? = some i2
            rw [hpar]
            exact List.getElem?_set_self (by rw [← hpar]; exact hlt)
          have L3 : ({ s with intersections :=
              s.intersections.set r1.turn.parent i1 } :
                IntersectionSimState).after_submit r2 =
              some { s with intersections :=
                (s.intersections.set r1.turn.parent i1).set r2.turn.parent j } := by
            rw [IntersectionSimState.after_submit_eq _ r2 i1 hi1', hj1]
          have L4 : ({ s with intersections :=
              s.intersections.set r2.turn.parent i2 } :
                IntersectionSimState).after_submit r1 =
              some { s with intersections :=
                (s.intersections.set r2.turn.parent i2).set r1.turn.parent j } := by
            rw [IntersectionSimState.after_submit_eq _ r1 i2 hi2', hj2]
          rw [L1, L2, Option.some_bind, Option.some_bind, L3, L4, hpar,
            List.set_set, List.set_set]
  refine ⟨?_, hcomm, fun time mp cm info => by rw [hcomm]⟩
  cases hi : s.intersections[r.turn.parent]? with
  | none =>
    rw [IntersectionSimState.after_submit_none s r hi]
    rfl
  | some i =>
    cases hsi : i.submit r with
    | error e =>
      have L : s.after_submit r = some s := by
        rw [IntersectionSimState.after_submit_eq s r i hi, hsi]
      rw [L, Option.some_bind, L]
    | ok i' =>
      have hlt : r.turn.parent < s.intersections.length := (List.getElem?_eq_some_iff.mp hi).1
      have L : s.after_submit r =
          some { s with intersections := s.intersections.set r.turn.parent i' } := by
        rw [IntersectionSimState.after_submit_eq s r i hi, hsi]
      have hi' : ({ s with intersections :=
          s.intersections.set r.turn.parent i' } :
            IntersectionSimState).intersections[r.turn.parent]? = some i' := by
        show (s.intersections.set r.turn.parent i')[r.turn.parent]? = some i'
        exact List.getElem?_set_self hlt
      have L2 : ({ s with intersections :=
          s.intersections.set r.turn.parent i' } :
            IntersectionSimState).after_submit r =
          some { s with intersections :=
            (s.intersections.set r.turn.parent i').set r.turn.parent i' } := by
        rw [IntersectionSimState.after_submit_eq _ r i' hi',
          IntersectionPolicy.submit_submit i r i' hsi]
      rw [L, Option.some_bind, L2, List.set_set]

/-- Witness for C6: the distinct requests `exReq` and `exReq2` at the
stop-sign intersection of `exState0`. -/
theorem C6_submit_idempotent_order_independent_witness :
    (exReq ≠ exReq2) ∧ (exReq.turn.parent = exReq2.turn.parent) ∧
    (((exState0.after_submit exReq).bind (fun s' => s'.after_submit exReq) =
      exState0.after_submit exReq) ∧
    ((exState0.after_submit exReq).bind (fun s' => s'.after_submit exReq2) =
      (exState0.after_submit exReq2).bind (fun s' => s'.after_submit exReq)) ∧
    (∀ (time : Tick) (mp : Map) (cm : ControlMap) (info : AgentInfo),
      ((exState0.after_submit exReq).bind (fun s' => s'.after_submit exReq2)).bind
          (fun s' => s'.step time mp cm info) =
        ((exState0.after_submit exReq2).bind (fun s' => s'.after_submit exReq)).bind
          (fun s' => s'.step time mp cm info))) :=
  ⟨by decide, rfl,
    C6_submit_idempotent_order_independent exState0 exReq exReq exReq2 (by decide) rfl⟩

/-- `request_granted` unfolded. -/
theorem IntersectionSimState.request_granted_iff (s : IntersectionSimState) (r : Request) :
    s.request_granted r = true ↔
      ∃ i, s.intersections[r.turn.parent]? = some i ∧
        OMap.lookup r.agent i.accepted = some r.turn := by
  rw [IntersectionSimState.request_granted]
  cases hi : s.intersections[r.turn.parent]? with
  | none => simp
  | some i => simp

/-- One post-grant operation preserves every accepted entry. -/
theorem applyQOp_lookup_mono (mp : Map) (cm : ControlMap) (s s2 : IntersectionSimState)
    (op : QOp) (h : applyQOp mp cm s op = some s2) :
    ∀ (P : Nat) (i : IntersectionPolicy), s.intersections[P]? = some i →
      ∀ a t, OMap.lookup a i.accepted = some t →
        ∃ i2, s2.intersections[P]? = some i2 ∧ OMap.lookup a i2.accepted = some t := by
  intro P i hi a t hl
  cases op with
  | submit r =>
    rw [applyQOp] at h
    cases hj : s.intersections[r.turn.parent]? with
    | none =>
      rw [IntersectionSimState.after_submit_none s r hj] at h
      cases h
    | some i0 =>
      rw [IntersectionSimState.after_submit_eq s r i0 hj] at h
      injection h with h
      cases hs : i0.submit r with
      | error e =>
        rw [hs] at h
        exact ⟨i, by rw [← h]; exact hi, hl⟩
      | ok i' =>
        rw [hs] at h
        subst h
        by_cases hP : P = r.turn.parent
        · subst hP
          have hii : i = i0 := by rw [hi] at hj; injection hj
          subst hii
          refine ⟨i', ?_, ?_⟩
          · show (s.intersections.set r.turn.parent i')[r.turn.parent]? = some i'
            exact List.getElem?_set_self (List.getElem?_eq_some_iff.mp hi).1
          · rw [IntersectionPolicy.submit_accepted i r i' hs]
            exact hl
        · refine ⟨i, ?_, hl⟩
          show (s.intersections.set r.turn.parent i')[P]? = some i
          rw [List.getElem?_set_ne (fun he => hP he.symm)]
          exact hi
  | step time info =>
    rw [applyQOp] at h
    cases hs : s.step time mp cm info with
    | none => rw [hs] at h; cases h
    | some z =>
      obtain ⟨s', evs⟩ := z
      rw [hs] at h
      injection h with h
      subst h
      obtain ⟨hsp, -⟩ := IntersectionSimState.step_cases_state s time mp cm info s' evs hs
      obtain ⟨i', ev, hi', hstep⟩ :=
        stepPolicies_index time mp cm info s.intersections s'.intersections evs hsp P i hi
      exact ⟨i', hi',
        IntersectionPolicy.step_lookup_mono i i' time mp cm info ev hstep a t hl⟩
  | enter r =>
    rw [applyQOp] at h
    cases ho : s.on_enter r with
    | none => rw [ho] at h; cases h
    | some z =>
      rw [ho] at h
      injection h with h
      subst h
      exact ⟨i, hi, hl⟩

/-- C8: once `request_granted(r)` is true, it stays true across any further
sequence of `submit_request`, `step` and `on_enter` calls (every operation
other than `on_exit` preserves each accepted entry); only `on_exit` removes
entries, and it is not among the operations of the trace. -/
theorem C8_grant_persistence (mp : Map) (cm : ControlMap) (ops : List QOp) :
    ∀ (s s' : IntersectionSimState) (r : Request),
      s.request_granted r = true → applyQOps mp cm ops s = some s' →
      s'.request_granted r = true := by
  induction ops with
  | nil =>
    intro s s' r hg h
    rw [applyQOps] at h
    injection h with h
    exact h ▸ hg
  | cons op ops ih =>
    intro s s' r hg h
    rw [applyQOps] at h
    cases ha : applyQOp mp cm s op with
    | none => rw [ha] at h; cases h
    | some s2 =>
      rw [ha] at h
      refine ih s2 s' r ?_ h
      obtain ⟨i, hi, hl⟩ := (IntersectionSimState.request_granted_iff s r).mp hg
      obtain ⟨i2, hi2, hl2⟩ :=
        applyQOp_lookup_mono mp cm s s2 op ha r.turn.parent i hi r.agent r.turn hl
      exact (IntersectionSimState.request_granted_iff s2 r).mpr ⟨i2, hi2, hl2⟩

/-- Witness for C8: `Car 0` is granted at `exAccState`; a re-submit, a step
and an `on_enter` later it is still granted. -/
theorem C8_grant_persistence_witness :
    exAccState.request_granted exReq = true ∧
    applyQOps exMap exControl [QOp.submit exReq, QOp.step 0 exInfo, QOp.enter exReq]
      exAccState = some exAccState ∧
    exAccState.request_granted exReq = true :=
  ⟨by decide, by decide,
    C8_grant_persistence exMap exControl [QOp.submit exReq, QOp.step 0 exInfo, QOp.enter exReq]
      exAccState exAccState exReq (by decide) (by decide)⟩

/-- C3: during one stop-sign step, a request in `approaching_agents` moves to
waiting exactly when its agent leads its lane and either the turn's priority is
not `Stop` or the agent has stopped; promotion stamps the current tick into the
waiting map and removes the request from `approaching_agents`; requests that
fail the test stay in `approaching_agents` with their waiting entry untouched. -/
theorem C3_stop_sign_promotion (p : StopSign) (time : Tick) (mp : Map) (cm : ControlMap)
    (info : AgentInfo) (p' : StopSign) (evs : List Event)
    (hstep : p.step time mp cm info = some (p', evs)) :
    (p'.approaching_agents = p.approaching_agents.filter
      fun r => !StopSign.should_promote (cm.stop_signs p.id) info r) ∧
    (∀ r, StopSign.should_promote (cm.stop_signs p.id) info r = true ↔
      (info.leaders r.agent = true ∧
        ((cm.stop_signs p.id).get_priority r.turn ≠ TurnPriority.Stop ∨
          info.speeds r.agent ≤ EPSILON_SPEED))) ∧
    (∀ r ∈ p.approaching_agents,
      StopSign.should_promote (cm.stop_signs p.id) info r = true →
      r ∉ p'.approaching_agents ∧
        OMap.lookup r (p.promote (cm.stop_signs p.id) info time).started_waiting_at =
          some time) ∧
    (∀ r ∈ p.approaching_agents,
      StopSign.should_promote (cm.stop_signs p.id) info r = false →
      r ∈ p'.approaching_agents ∧
        OMap.lookup r (p.promote (cm.stop_signs p.id) info time).started_waiting_at =
          OMap.lookup r p.started_waiting_at) := by
  obtain ⟨acc', newly, -, hp', -⟩ :=
    StopSign.step_cases p time mp cm info p' evs hstep
  have happ : p'.approaching_agents = p.approaching_agents.filter
      fun r => !StopSign.should_promote (cm.stop_signs p.id) info r := by
    rw [hp']
    exact StopSign.promote_approaching p (cm.stop_signs p.id) info time
  have hW : (p.promote (cm.stop_signs p.id) info time).started_waiting_at =
      (p.approaching_agents.filter
        (StopSign.should_promote (cm.stop_signs p.id) info)).foldl
        (fun m x => OMap.insert x time m) p.started_waiting_at := rfl
  refine ⟨happ, ?_, ?_, ?_⟩
  · intro r
    rw [StopSign.should_promote]
    by_cases hp : (cm.stop_signs p.id).get_priority r.turn = TurnPriority.Stop
    · simp [hp]
    · simp [hp]
  · intro r hr hsp
    refine ⟨?_, ?_⟩
    · rw [happ, List.mem_filter]
      rintro ⟨-, hc⟩
      rw [hsp] at hc
      cases hc
    · rw [hW, OMap.lookup_foldl_insert, if_pos (List.mem_filter.mpr ⟨hr, hsp⟩)]
  · intro r hr hsp
    refine ⟨?_, ?_⟩
    · rw [happ, List.mem_filter]
      exact ⟨hr, by rw [hsp]; rfl⟩
    · rw [hW, OMap.lookup_foldl_insert, if_neg ?_]
      rw [List.mem_filter]
      rintro ⟨-, hc⟩
      rw [hsp] at hc
      cases hc

/-- Witness for C3: one approaching stop-sign request of a stopped leader is
promoted at tick 0. -/
theorem C3_stop_sign_promotion_witness :
    apprStop.step 0 exMap exControl exInfo = some (apprStopStepped, []) ∧
    ((apprStopStepped.approaching_agents = apprStop.approaching_agents.filter
      fun r => !StopSign.should_promote (exControl.stop_signs apprStop.id) exInfo r) ∧
    (∀ r, StopSign.should_promote (exControl.stop_signs apprStop.id) exInfo r = true ↔
      (exInfo.leaders r.agent = true ∧
        ((exControl.stop_signs apprStop.id).get_priority r.turn ≠ TurnPriority.Stop ∨
          exInfo.speeds r.agent ≤ EPSILON_SPEED))) ∧
    (∀ r ∈ apprStop.approaching_agents,
      StopSign.should_promote (exControl.stop_signs apprStop.id) exInfo r = true →
      r ∉ apprStopStepped.approaching_agents ∧
        OMap.lookup r
          (apprStop.promote (exControl.stop_signs apprStop.id) exInfo 0).started_waiting_at =
          some 0) ∧
    (∀ r ∈ apprStop.approaching_agents,
      StopSign.should_promote (exControl.stop_signs apprStop.id) exInfo r = false →
      r ∈ apprStopStepped.approaching_agents ∧
        OMap.lookup r
          (apprStop.promote (exControl.stop_signs apprStop.id) exInfo 0).started_waiting_at =
          OMap.lookup r apprStop.started_waiting_at)) :=
  ⟨by decide,
    C3_stop_sign_promotion apprStop 0 exMap exControl exInfo apprStopStepped [] (by decide)⟩

/-- C5: in a signal step whose accepted turns are all inside the current
cycle, a pending request is admitted (entered into `accepted` with exactly one
event, in sorted order) precisely when its turn is green and its agent leads;
all other requests are retained for the next tick. -/
theorem C5_signal_admission (p : TrafficSignal) (time : Tick) (mp : Map) (cm : ControlMap)
    (info : AgentInfo) (p' : TrafficSignal) (evs : List Event)
    (hstep : p.step time mp cm info = some (p', evs))
    (hguard : ∀ e ∈ p.accepted,
      ((cm.traffic_signals p.id).current_cycle_and_remaining_time
        (Tick.as_time time)).1.contains e.2 = true) :
    (evs = (p.requests.filter fun r =>
        ((cm.traffic_signals p.id).current_cycle_and_remaining_time
          (Tick.as_time time)).1.contains r.turn && info.leaders r.agent).map
        Event.IntersectionAcceptsRequest) ∧
    (∀ r ∈ p.requests,
      (Event.IntersectionAcceptsRequest r ∈ evs ↔
        (((cm.traffic_signals p.id).current_cycle_and_remaining_time
          (Tick.as_time time)).1.contains r.turn = true ∧
          info.leaders r.agent = true))) ∧
    (∀ r ∈ p.requests,
      (((cm.traffic_signals p.id).current_cycle_and_remaining_time
        (Tick.as_time time)).1.contains r.turn = true ∧ info.leaders r.agent = true) →
      OMap.lookup r.agent p'.accepted = some r.turn) ∧
    (∀ r, r ∈ p'.requests ↔ r ∈ p.requests ∧
      ¬(((cm.traffic_signals p.id).current_cycle_and_remaining_time
        (Tick.as_time time)).1.contains r.turn = true ∧ info.leaders r.agent = true)) := by
  rcases TrafficSignal.step_cases_sig p time mp cm info p' evs hstep with
    ⟨hany, -, -⟩ | ⟨-, acc', keep', evs', hadm, hp', hE⟩
  · rw [List.any_eq_true] at hany
    obtain ⟨e, he, hc⟩ := hany
    rw [hguard e he] at hc
    cases hc
  · subst hp'
    subst hE
    have hevs := TrafficSignal.admit_loop_evs _ info p.id p.requests p.accepted [] []
      acc' keep' evs hadm
    simp only [List.nil_append] at hevs
    have hkeep := TrafficSignal.admit_loop_keep _ info p.id p.requests p.accepted [] []
      acc' keep' evs hadm
    refine ⟨hevs, ?_, ?_, ?_⟩
    · intro r hr
      rw [hevs]
      simp only [List.mem_map, List.mem_filter, Event.IntersectionAcceptsRequest.injEq]
      constructor
      · rintro ⟨a, ⟨-, hc⟩, ha⟩
        subst ha
        simp only [Bool.and_eq_true] at hc
        exact hc
      · rintro ⟨h1, h2⟩
        exact ⟨r, ⟨hr, by rw [h1, h2]; rfl⟩, rfl⟩
    · intro r hr hc
      exact TrafficSignal.admit_loop_granted _ info p.id p.requests p.accepted [] []
        acc' keep' evs hadm r hr (by rw [hc.1, hc.2]; rfl)
    · intro r
      rw [hkeep r]
      simp only [List.not_mem_nil, false_or]

/-- Witness for C5: the single green-lit leader request of `sigPolicy` is
admitted with one event. -/
theorem C5_signal_admission_witness :
    sigPolicy.step 0 sigMap exControl exInfo =
      some (sigPolicyStepped, [Event.IntersectionAcceptsRequest exReq]) ∧
    (∀ e ∈ sigPolicy.accepted,
      ((exControl.traffic_signals sigPolicy.id).current_cycle_and_remaining_time
        (Tick.as_time 0)).1.contains e.2 = true) ∧
    (([Event.IntersectionAcceptsRequest exReq] = (sigPolicy.requests.filter fun r =>
        ((exControl.traffic_signals sigPolicy.id).current_cycle_and_remaining_time
          (Tick.as_time 0)).1.contains r.turn && exInfo.leaders r.agent).map
        Event.IntersectionAcceptsRequest) ∧
    (∀ r ∈ sigPolicy.requests,
      (Event.IntersectionAcceptsRequest r ∈ [Event.IntersectionAcceptsRequest exReq] ↔
        (((exControl.traffic_signals sigPolicy.id).current_cycle_and_remaining_time
          (Tick.as_time 0)).1.contains r.turn = true ∧
          exInfo.leaders r.agent = true))) ∧
    (∀ r ∈ sigPolicy.requests,
      (((exControl.traffic_signals sigPolicy.id).current_cycle_and_remaining_time
        (Tick.as_time 0)).1.contains r.turn = true ∧ exInfo.leaders r.agent = true) →
      OMap.lookup r.agent sigPolicyStepped.accepted = some r.turn) ∧
    (∀ r, r ∈ sigPolicyStepped.requests ↔ r ∈ sigPolicy.requests ∧
      ¬(((exControl.traffic_signals sigPolicy.id).current_cycle_and_remaining_time
        (Tick.as_time 0)).1.contains r.turn = true ∧ exInfo.leaders r.agent = true))) :=
  ⟨by decide, by decide,
    C5_signal_admission sigPolicy 0 sigMap exControl exInfo sigPolicyStepped
      [Event.IntersectionAcceptsRequest exReq] (by decide) (by decide)⟩

/-- C2: one stop-sign step examines the waiting map (after promotion) in
sorted order; entry `k` is admitted — meaning exactly one
`IntersectionAcceptsRequest` event and a move from waiting to accepted — if
and only if its turn conflicts with no accepted turn (including turns admitted
earlier in this same step: `acc2` below is the accepted map after the first `k`
entries), no waiting request of strictly higher priority conflicts with it,
and a `Stop`-priority turn has waited at least `WAIT_AT_STOP_SIGN`. -/
theorem C2_stop_sign_admission (p : StopSign) (time : Tick) (mp : Map) (cm : ControlMap)
    (info : AgentInfo) (p' : StopSign) (evs : List Event)
    (hstep : p.step time mp cm info = some (p', evs))
    (hnd : (((p.promote (cm.stop_signs p.id) info time).started_waiting_at).map
      Prod.fst).Nodup) :
    (∀ (k : Nat)
      (hk : k < (p.promote (cm.stop_signs p.id) info time).started_waiting_at.length),
      ∃ acc2 newly2,
        StopSign.admit_loop mp (cm.stop_signs p.id) time p.id
          (p.promote (cm.stop_signs p.id) info time).started_waiting_at
          ((p.promote (cm.stop_signs p.id) info time).started_waiting_at.take k)
          p.accepted [] = some (acc2, newly2) ∧
        (Event.IntersectionAcceptsRequest
            ((p.promote (cm.stop_signs p.id) info time).started_waiting_at.get ⟨k, hk⟩).1 ∈
            evs ↔
          admitCond mp (cm.stop_signs p.id) time
            (p.promote (cm.stop_signs p.id) info time).started_waiting_at acc2
            ((p.promote (cm.stop_signs p.id) info time).started_waiting_at.get ⟨k, hk⟩))) ∧
    (∀ r : Request, Event.IntersectionAcceptsRequest r ∈ evs →
      OMap.lookup r.agent p'.accepted = some r.turn ∧
        r ∉ p'.started_waiting_at.map Prod.fst) ∧
    (evs.Nodup ∧ ∀ ev ∈ evs, ∃ r : Request, ev = Event.IntersectionAcceptsRequest r ∧
      ∃ st, (r, st) ∈ (p.promote (cm.stop_signs p.id) info time).started_waiting_at) ∧
    (∀ e ∈ (p.promote (cm.stop_signs p.id) info time).started_waiting_at,
      Event.IntersectionAcceptsRequest e.1 ∉ evs → e ∈ p'.started_waiting_at) := by
  obtain ⟨acc', newly, hadm, hp', hevs⟩ :=
    StopSign.step_cases p time mp cm info p' evs hstep
  rw [StopSign.promote_accepted] at hadm
  have hmem : ∀ r : Request, Event.IntersectionAcceptsRequest r ∈ evs ↔ r ∈ newly := by
    intro r
    rw [hevs]
    simp only [List.mem_map, Event.IntersectionAcceptsRequest.injEq]
    exact ⟨fun ⟨a, ha, he⟩ => he ▸ ha, fun h => ⟨r, h, rfl⟩⟩
  refine ⟨?_, ?_, ⟨?_, ?_⟩, ?_⟩
  · intro k hk
    obtain ⟨acc2, newly2, hpre, hiff⟩ :=
      StopSign.admit_loop_spec mp (cm.stop_signs p.id) time p.id
        (p.promote (cm.stop_signs p.id) info time).started_waiting_at
        (p.promote (cm.stop_signs p.id) info time).started_waiting_at
        p.accepted [] acc' newly hadm hnd (by simp) k hk
    exact ⟨acc2, newly2, hpre, (hmem _).trans hiff⟩
  · intro r hr
    rw [hmem r] at hr
    constructor
    · rw [hp']
      exact StopSign.admit_loop_newly_granted mp (cm.stop_signs p.id) time p.id
        _ _ p.accepted [] acc' newly hadm (by simp) r hr
    · rw [hp']
      intro hmem'
      simp only [List.mem_map] at hmem'
      obtain ⟨e, he, hfst⟩ := hmem'
      rw [List.mem_filter] at he
      have := he.2
      rw [hfst] at this
      simp at this
      exact this hr
  · rw [hevs]
    refine List.Nodup.map (fun a b h => ?_) ?_
    · injection h
    · have := StopSign.admit_loop_newly_nodup mp (cm.stop_signs p.id) time p.id
        _ _ p.accepted [] acc' newly hadm (by simp) (by simp)
      exact this.of_map Request.agent
  · intro ev hev
    rw [hevs] at hev
    obtain ⟨r, hr, he⟩ := List.mem_map.mp hev
    refine ⟨r, he.symm, ?_⟩
    rcases StopSign.admit_loop_newly_sub mp (cm.stop_signs p.id) time p.id
        _ _ p.accepted [] acc' newly hadm r hr with h' | h'
    · cases h'
    · exact h'
  · intro e he hev
    rw [hp']
    rw [List.mem_filter]
    refine ⟨he, ?_⟩
    rw [hmem e.1] at hev
    simp [hev]

/-- Witness for C2: at tick 15 the lone waiting request of `apprStopStepped`
has waited 1.5 s and is admitted with exactly one event. -/
theorem C2_stop_sign_admission_witness :
    apprStopStepped.step 15 exMap exControl exInfo =
      some (waitStopStepped, [Event.IntersectionAcceptsRequest exReq]) ∧
    ((((apprStopStepped.promote (exControl.stop_signs apprStopStepped.id) exInfo
      15).started_waiting_at).map Prod.fst).Nodup) ∧
    ((∀ (k : Nat)
      (hk : k < (apprStopStepped.promote (exControl.stop_signs apprStopStepped.id) exInfo
        15).started_waiting_at.length),
      ∃ acc2 newly2,
        StopSign.admit_loop exMap (exControl.stop_signs apprStopStepped.id) 15
          apprStopStepped.id
          (apprStopStepped.promote (exControl.stop_signs apprStopStepped.id) exInfo
            15).started_waiting_at
          ((apprStopStepped.promote (exControl.stop_signs apprStopStepped.id) exInfo
            15).started_waiting_at.take k)
          apprStopStepped.accepted [] = some (acc2, newly2) ∧
        (Event.IntersectionAcceptsRequest
            ((apprStopStepped.promote (exControl.stop_signs apprStopStepped.id) exInfo
              15).started_waiting_at.get ⟨k, hk⟩).1 ∈
            [Event.IntersectionAcceptsRequest exReq] ↔
          admitCond exMap (exControl.stop_signs apprStopStepped.id) 15
            (apprStopStepped.promote (exControl.stop_signs apprStopStepped.id) exInfo
              15).started_waiting_at acc2
            ((apprStopStepped.promote (exControl.stop_signs apprStopStepped.id) exInfo
              15).started_waiting_at.get ⟨k, hk⟩))) ∧
    (∀ r : Request,
      Event.IntersectionAcceptsRequest r ∈ [Event.IntersectionAcceptsRequest exReq] →
      OMap.lookup r.agent waitStopStepped.accepted = some r.turn ∧
        r ∉ waitStopStepped.started_waiting_at.map Prod.fst) ∧
    (([Event.IntersectionAcceptsRequest exReq] : List Event).Nodup ∧
      ∀ ev ∈ [Event.IntersectionAcceptsRequest exReq],
        ∃ r : Request, ev = Event.IntersectionAcceptsRequest r ∧
        ∃ st, (r, st) ∈ (apprStopStepped.promote
          (exControl.stop_signs apprStopStepped.id) exInfo 15).started_waiting_at) ∧
    (∀ e ∈ (apprStopStepped.promote (exControl.stop_signs apprStopStepped.id) exInfo
        15).started_waiting_at,
      Event.IntersectionAcceptsRequest e.1 ∉ [Event.IntersectionAcceptsRequest exReq] →
        e ∈ waitStopStepped.started_waiting_at)) :=
  ⟨by decide, by decide,
    C2_stop_sign_admission apprStopStepped 15 exMap exControl exInfo waitStopStepped
      [Event.IntersectionAcceptsRequest exReq] (by decide) (by decide)⟩

/-- The stop-sign admission loop preserves pairwise conflict-freedom of the
accepted map: every insertion was checked against the whole current map. -/
theorem StopSign.admit_loop_NC (mp : Map) (ss : ControlStopSign) (time : Tick)
    (iid : IntersectionID) (W : List (Request × Tick))
    (hsym : ∀ a b, mp.conflicts a b = mp.conflicts b a) :
    ∀ (l : List (Request × Tick)) (acc : List (AgentID × TurnID)) (newly : List Request)
      (acc' : List (AgentID × TurnID)) (newly' : List Request),
      StopSign.admit_loop mp ss time iid W l acc newly = some (acc', newly') →
      NCinv mp acc → NCinv mp acc' := by
  intro l
  induction l with
  | nil =>
    intro acc newly acc' newly' h hNC
    rw [StopSign.admit_loop] at h
    injection h with h
    injection h with h1 h2
    exact h1 ▸ hNC
  | cons e rest ih =>
    intro acc newly acc' newly' h hNC
    obtain ⟨req, started⟩ := e
    rw [StopSign.admit_loop] at h
    by_cases c1 : req.turn.parent ≠ iid
    · rw [if_pos c1] at h; exact absurd h (by simp)
    rw [if_neg c1] at h
    by_cases c2 : OMap.contains req.agent acc = true
    · rw [if_pos c2] at h; exact absurd h (by simp)
    rw [if_neg c2] at h
    by_cases g1 : conflictsWithAcceptedList mp acc req.turn = true
    · rw [if_pos g1] at h; exact ih acc newly acc' newly' h hNC
    rw [if_neg g1] at h
    by_cases g2 : conflictsWithWaitingList mp ss W req.turn = true
    · rw [if_pos g2] at h; exact ih acc newly acc' newly' h hNC
    rw [if_neg g2] at h
    by_cases g3 : (decide (ss.get_priority req.turn = TurnPriority.Stop)
        && decide (Tick.as_time (time - started) < WAIT_AT_STOP_SIGN)) = true
    · rw [if_pos g3] at h; exact ih acc newly acc' newly' h hNC
    rw [if_neg g3] at h
    refine ih _ _ acc' newly' h ?_
    have hnoc : ∀ e ∈ acc, mp.conflicts req.turn e.2 = false := by
      have := Bool.eq_false_iff.mpr g1
      rw [conflictsWithAcceptedList, List.any_eq_false] at this
      intro e he
      have h' := this e he
      simpa using h'
    intro e1 he1 e2 he2 hne
    rcases OMap.mem_insert_entry _ _ _ _ he1 with h1 | h1 <;>
      rcases OMap.mem_insert_entry _ _ _ _ he2 with h2 | h2
    · rw [h1, h2] at hne
      exact absurd rfl hne
    · rw [h1]
      exact hnoc e2 h2
    · rw [h2]
      rw [hsym]
      exact hnoc e1 h1
    · exact hNC e1 h1 e2 h2 hne

/-- The traffic-signal admission loop preserves conflict-freedom when every
turn of the current cycle is mutually non-conflicting and all accepted turns
are in the cycle. -/
theorem TrafficSignal.admit_loop_NC_sig (cycle : Cycle) (info : AgentInfo)
    (iid : IntersectionID) (mp : Map)
    (hcyc : ∀ t1 t2, cycle.contains t1 = true → cycle.contains t2 = true →
      mp.conflicts t1 t2 = false) :
    ∀ (l : List Request) (acc : List (AgentID × TurnID)) (keep : List Request)
      (evs : List Event) (acc' : List (AgentID × TurnID)) (keep' : List Request)
      (evs' : List Event),
      TrafficSignal.admit_loop cycle info iid l acc keep evs = some (acc', keep', evs') →
      NCinv mp acc → (∀ e ∈ acc, cycle.contains e.2 = true) →
      NCinv mp acc' ∧ (∀ e ∈ acc', cycle.contains e.2 = true) := by
  intro l
  induction l with
  | nil =>
    intro acc keep evs acc' keep' evs' h hNC hacc
    rw [TrafficSignal.admit_loop] at h
    injection h with h
    injection h with h1 h2
    exact h1 ▸ ⟨hNC, hacc⟩
  | cons req rest ih =>
    intro acc keep evs acc' keep' evs' h hNC hacc
    rw [TrafficSignal.admit_loop] at h
    by_cases c1 : req.turn.parent ≠ iid
    · rw [if_pos c1] at h; exact absurd h (by simp)
    rw [if_neg c1] at h
    by_cases c2 : OMap.contains req.agent acc = true
    · rw [if_pos c2] at h; exact absurd h (by simp)
    rw [if_neg c2] at h
    by_cases g : (!cycle.contains req.turn || !info.leaders req.agent) = true
    · rw [if_pos g] at h
      exact ih _ _ _ acc' keep' evs' h hNC hacc
    · rw [if_neg g] at h
      have hin : cycle.contains req.turn = true := by
        have := (by simpa using g : cycle.contains req.turn = true ∧
          info.leaders req.agent = true)
        exact this.1
      refine ih _ _ _ acc' keep' evs' h ?_ ?_
      · intro e1 he1 e2 he2 hne
        rcases OMap.mem_insert_entry _ _ _ _ he1 with h1 | h1 <;>
          rcases OMap.mem_insert_entry _ _ _ _ he2 with h2 | h2
        · rw [h1, h2] at hne
          exact absurd rfl hne
        · rw [h1]
          exact hcyc _ _ hin (hacc e2 h2)
        · rw [h2]
          exact hcyc _ _ (hacc e1 h1) hin
        · exact hNC e1 h1 e2 h2 hne
      · intro e he
        rcases OMap.mem_insert_entry _ _ _ _ he with h1 | h1
        · rw [h1]
          exact hin
        · exact hacc e h1

/-- A policy step preserves conflict-freedom of its accepted map; stop signs
need only symmetry of the conflict predicate, signals additionally the
control-layer cycle obligation. -/
theorem IntersectionPolicy.step_NC (i i' : IntersectionPolicy) (time : Tick) (mp : Map)
    (cm : ControlMap) (info : AgentInfo) (ev : List Event)
    (hsym : ∀ a b, mp.conflicts a b = mp.conflicts b a)
    (hcyc : ∀ p : TrafficSignal, i = .TrafficSignalPolicy p →
      ∀ t1 t2, ((cm.traffic_signals p.id).current_cycle_and_remaining_time
          (Tick.as_time time)).1.contains t1 = true →
        ((cm.traffic_signals p.id).current_cycle_and_remaining_time
          (Tick.as_time time)).1.contains t2 = true →
        mp.conflicts t1 t2 = false)
    (h : i.step time mp cm info = some (i', ev))
    (hNC : NCinv mp i.accepted) : NCinv mp i'.accepted := by
  cases i with
  | StopSignPolicy p =>
    rw [IntersectionPolicy.step] at h
    cases hs : p.step time mp cm info with
    | none => rw [hs] at h; cases h
    | some z =>
      obtain ⟨p', evs⟩ := z
      rw [hs] at h
      injection h with h
      injection h with h1 h2
      subst h1
      obtain ⟨acc', newly, hadm, hp', -⟩ := StopSign.step_cases p time mp cm info p' evs hs
      rw [StopSign.promote_accepted] at hadm
      have : NCinv mp acc' :=
        StopSign.admit_loop_NC mp (cm.stop_signs p.id) time p.id _ hsym _ p.accepted []
          acc' newly hadm hNC
      rw [hp']
      exact this
  | TrafficSignalPolicy p =>
    rw [IntersectionPolicy.step] at h
    cases hs : p.step time mp cm info with
    | none => rw [hs] at h; cases h
    | some z =>
      obtain ⟨p', evs⟩ := z
      rw [hs] at h
      injection h with h
      injection h with h1 h2
      subst h1
      rcases TrafficSignal.step_cases_sig p time mp cm info p' evs hs with
        ⟨-, hp', -⟩ | ⟨hok, acc', keep', evs', hadm, hp', -⟩
      · subst hp'
        exact hNC
      · have hacc : ∀ e ∈ p.accepted,
            ((cm.traffic_signals p.id).current_cycle_and_remaining_time
              (Tick.as_time time)).1.contains e.2 = true := by
          rw [List.any_eq_false] at hok
          intro e he
          have := hok e he
          simpa using this
        have := TrafficSignal.admit_loop_NC_sig _ info p.id mp (hcyc p rfl) p.requests
          p.accepted [] [] acc' keep' evs' hadm hNC hacc
        rw [hp']
        exact this.1
  
/-- C1: after any sequence of `submit_request` and `step` calls from
`new(map)`, no two accepted entries of one intersection conflict: for
stop-sign policies this needs only the symmetry of the map's geometric
conflict predicate, and for traffic-signal policies additionally the control
layer's obligation that all turns of any one cycle are mutually
non-conflicting (`CycleOK`). -/
theorem C1_accepted_conflict_free (mp : Map) (cm : ControlMap)
    (hsym : ∀ a b, mp.conflicts a b = mp.conflicts b a)
    (s : IntersectionSimState) (hreach : Reachable mp cm s) :
    (∀ i ∈ s.intersections, ∀ p : StopSign, i = .StopSignPolicy p →
      NCinv mp p.accepted) ∧
    (CycleOK cm mp → ∀ i ∈ s.intersections, NCinv mp i.accepted) := by
  induction hreach with
  | init =>
    constructor
    · intro i hi p hp
      rw [IntersectionSimState.new] at hi
      simp only [List.mem_map] at hi
      obtain ⟨x, -, hx⟩ := hi
      by_cases hts : x.has_traffic_signal = true
      · rw [if_pos hts] at hx
        rw [← hx] at hp
        cases hp
      · rw [if_neg hts] at hx
        rw [← hx] at hp
        injection hp with hp
        rw [← hp]
        intro e1 he1
        cases he1
    · intro _ i hi
      rw [IntersectionSimState.new] at hi
      simp only [List.mem_map] at hi
      obtain ⟨x, -, hx⟩ := hi
      by_cases hts : x.has_traffic_signal = true
      · rw [if_pos hts] at hx
        rw [← hx]
        intro e1 he1
        cases he1
      · rw [if_neg hts] at hx
        rw [← hx]
        intro e1 he1
        cases he1
  | submit s s' r hr hsub ih =>
    have key : ∀ i' ∈ s'.intersections, ∃ i ∈ s.intersections,
        i'.accepted = i.accepted ∧ (∀ p' : StopSign, i' = .StopSignPolicy p' →
          ∃ p : StopSign, i = .StopSignPolicy p ∧ p'.accepted = p.accepted) := by
      cases hi : s.intersections[r.turn.parent]? with
      | none =>
        rw [IntersectionSimState.after_submit_none s r hi] at hsub
        cases hsub
      | some i0 =>
        rw [IntersectionSimState.after_submit_eq s r i0 hi] at hsub
        injection hsub with hsub
        cases hs : i0.submit r with
        | error e =>
          rw [hs] at hsub
          intro i' hi'
          rw [← hsub] at hi'
          exact ⟨i', hi', rfl, fun p' hp' => ⟨p', hp', rfl⟩⟩
        | ok i1 =>
          rw [hs] at hsub
          subst hsub
          intro i' hi'
          have hi'mem : i' ∈ s.intersections ∨ i' = i1 := by
            have : i' ∈ s.intersections.set r.turn.parent i1 := hi'
            exact List.mem_or_eq_of_mem_set this
          rcases hi'mem with h' | h'
          · exact ⟨i', h', rfl, fun p' hp' => ⟨p', hp', rfl⟩⟩
          · subst h'
            have hi0mem : i0 ∈ s.intersections := by
              obtain ⟨hlt, he⟩ := List.getElem?_eq_some_iff.mp hi
              exact he ▸ List.getElem_mem hlt
            refine ⟨i0, hi0mem, IntersectionPolicy.submit_accepted i0 r i' hs, ?_⟩
            intro p' hp'
            subst hp'
            rw [IntersectionPolicy.submit.eq_def] at hs
            split at hs
            · split at hs
              · cases hs
              · injection hs with hs
                cases i0 with
                | StopSignPolicy p =>
                  refine ⟨p, rfl, ?_⟩
                  injection hs.symm with hs2
                  rw [hs2]
                | TrafficSignalPolicy p => cases hs
            · cases i0 with
              | StopSignPolicy p =>
                simp only at hs
                injection hs with hs
                refine ⟨p, rfl, ?_⟩
                injection hs.symm with hs2
                rw [hs2, StopSign.enqueue_accepted]
              | TrafficSignalPolicy p =>
                simp only at hs
                injection hs with hs
                cases hs.symm
    constructor
    · intro i' hi' p' hp'
      obtain ⟨i, hi, -, hss⟩ := key i' hi'
      obtain ⟨p, hp, hpacc⟩ := hss p' hp'
      rw [hpacc]
      exact ih.1 i hi p hp
    · intro hc i' hi'
      obtain ⟨i, hi, hacc, -⟩ := key i' hi'
      rw [hacc]
      exact ih.2 hc i hi
  | do_step s s' time info evs hr hstep ih =>
    obtain ⟨hsp, -⟩ := IntersectionSimState.step_cases_state s time mp cm info s' evs hstep
    constructor
    · intro i' hi' p' hp'
      obtain ⟨i, hi, ev, hs⟩ :=
        stepPolicies_mem time mp cm info s.intersections s'.intersections evs hsp i' hi'
      cases i with
      | StopSignPolicy p =>
        rw [IntersectionPolicy.step] at hs
        cases hps : p.step time mp cm info with
        | none => rw [hps] at hs; cases hs
        | some z =>
          obtain ⟨p2, evs2⟩ := z
          rw [hps] at hs
          injection hs with hs
          injection hs with hs1 hs2
          rw [← hs1] at hp'
          injection hp' with hpe
          subst hpe
          obtain ⟨acc', newly, hadm, hp2, -⟩ :=
            StopSign.step_cases p time mp cm info p2 evs2 hps
          rw [StopSign.promote_accepted] at hadm
          have hNCp : NCinv mp p.accepted := ih.1 (.StopSignPolicy p) hi p rfl
          have hNC' : NCinv mp acc' :=
            StopSign.admit_loop_NC mp (cm.stop_signs p.id) time p.id _ hsym _ p.accepted []
              acc' newly hadm hNCp
          rw [hp2]
          exact hNC'
      | TrafficSignalPolicy p =>
        rw [IntersectionPolicy.step] at hs
        cases hps : p.step time mp cm info with
        | none => rw [hps] at hs; cases hs
        | some z =>
          obtain ⟨p2, evs2⟩ := z
          rw [hps] at hs
          injection hs with hs
          injection hs with hs1 hs2
          rw [← hs1] at hp'
          cases hp'
    · intro hc i' hi'
      obtain ⟨i, hi, ev, hs⟩ :=
        stepPolicies_mem time mp cm info s.intersections s'.intersections evs hsp i' hi'
      refine IntersectionPolicy.step_NC i i' time mp cm info ev hsym ?_ hs (ih.2 hc i hi)
      intro p hp t1 t2 h1 h2
      exact hc p.id (Tick.as_time time) t1 t2 h1 h2

/-- Witness for C1 at the freshly built state over `sigMap` (whose conflict
predicate is constantly false, hence symmetric, with `CycleOK` holding). -/
theorem C1_accepted_conflict_free_witness :
    (∀ a b, sigMap.conflicts a b = sigMap.conflicts b a) ∧
    ((∀ i ∈ (IntersectionSimState.new sigMap).intersections, ∀ p : StopSign,
      i = .StopSignPolicy p → NCinv sigMap p.accepted) ∧
    (CycleOK exControl sigMap →
      ∀ i ∈ (IntersectionSimState.new sigMap).intersections, NCinv sigMap i.accepted)) :=
  ⟨fun _ _ => rfl,
    C1_accepted_conflict_free sigMap exControl (fun _ _ => rfl)
      (IntersectionSimState.new sigMap) Reachable.init⟩

theorem OMap.keys_insert {α : Type} [LinearOrder α] {ν : Type} (k a : α) (v : ν)
    (m : List (α × ν)) (h : a ∈ (OMap.insert k v m).map Prod.fst) :
    a = k ∨ a ∈ m.map Prod.fst := by
  obtain ⟨e, he, hfst⟩ := List.mem_map.mp h
  rcases OMap.mem_insert_entry k v m e he with h' | h'
  · rw [h'] at hfst
    exact Or.inl hfst.symm
  · exact Or.inr (List.mem_map.mpr ⟨e, h', hfst⟩)

/-- Inserting a duplicate-free batch of fresh keys is, up to permutation,
prepending the corresponding pairs. -/
theorem OMap.foldl_insert_perm {α : Type} [LinearOrder α] {ν : Type} (v : ν) :
    ∀ (L : List α) (m : List (α × ν)), (∀ r ∈ L, r ∉ m.map Prod.fst) → L.Nodup →
      (L.foldl (fun m x => OMap.insert x v m) m).Perm (L.map (fun r => (r, v)) ++ m) := by
  intro L
  induction L with
  | nil => intro m _ _; simp
  | cons x L ih =>
    intro m hfresh hnd
    rw [List.foldl_cons]
    have hx : x ∉ m.map Prod.fst := hfresh x (List.mem_cons_self _ _)
    have hfresh' : ∀ r ∈ L, r ∉ (OMap.insert x v m).map Prod.fst := by
      intro r hr hmem
      rcases OMap.keys_insert x r v m hmem with h' | h'
      · rw [h'] at hr
        exact (List.nodup_cons.mp hnd).1 hr
      · exact hfresh r (List.mem_cons_of_mem _ hr) h'
    have h1 := ih (OMap.insert x v m) hfresh' (List.nodup_cons.mp hnd).2
    have h2 : (L.map (fun r => (r, v)) ++ OMap.insert x v m).Perm
        (L.map (fun r => (r, v)) ++ ((x, v) :: m)) :=
      List.Perm.append_left _ (OMap.insert_perm_of_not_mem x v m hx)
    have h3 : (L.map (fun r => (r, v)) ++ ((x, v) :: m)).Perm
        ((x, v) :: (L.map (fun r => (r, v)) ++ m)) := List.perm_middle
    simpa using (h1.trans h2).trans h3

/-- The stop-sign admission loop cannot panic when all entries name this
intersection, no two entries share an agent, and no entry's agent is already
accepted. -/
theorem StopSign.admit_loop_isSome (mp : Map) (ss : ControlStopSign) (time : Tick)
    (iid : IntersectionID) (W : List (Request × Tick)) :
    ∀ (l : List (Request × Tick)) (acc : List (AgentID × TurnID)) (newly : List Request),
      (∀ e ∈ l, e.1.turn.parent = iid) →
      ((l.map fun e => e.1.agent).Nodup) →
      (∀ e ∈ l, OMap.contains e.1.agent acc = false) →
      (StopSign.admit_loop mp ss time iid W l acc newly).isSome := by
  intro l
  induction l with
  | nil =>
    intro acc newly _ _ _
    rw [StopSign.admit_loop]
    rfl
  | cons e rest ih =>
    intro acc newly hpar hnd hacc
    obtain ⟨req, started⟩ := e
    rw [StopSign.admit_loop]
    rw [if_neg (by
      simp only [ne_eq, not_not]
      exact hpar (req, started) (List.mem_cons_self _ _))]
    rw [if_neg (by
      rw [hacc (req, started) (List.mem_cons_self _ _)]
      simp)]
    have hndh : req.agent ∉ rest.map fun e => e.1.agent := by
      rw [List.map_cons, List.nodup_cons] at hnd
      exact hnd.1
    have hndt : (rest.map fun e => e.1.agent).Nodup := by
      rw [List.map_cons, List.nodup_cons] at hnd
      exact hnd.2
    have hpar' : ∀ e ∈ rest, e.1.turn.parent = iid :=
      fun e he => hpar e (List.mem_cons_of_mem _ he)
    have hacc' : ∀ e ∈ rest, OMap.contains e.1.agent acc = false :=
      fun e he => hacc e (List.mem_cons_of_mem _ he)
    by_cases g1 : conflictsWithAcceptedList mp acc req.turn = true
    · rw [if_pos g1]
      exact ih acc newly hpar' hndt hacc'
    rw [if_neg g1]
    by_cases g2 : conflictsWithWaitingList mp ss W req.turn = true
    · rw [if_pos g2]
      exact ih acc newly hpar' hndt hacc'
    rw [if_neg g2]
    by_cases g3 : (decide (ss.get_priority req.turn = TurnPriority.Stop)
        && decide (Tick.as_time (time - started) < WAIT_AT_STOP_SIGN)) = true
    · rw [if_pos g3]
      exact ih acc newly hpar' hndt hacc'
    rw [if_neg g3]
    refine ih _ _ hpar' hndt ?_
    intro e he
    rw [OMap.contains_insert]
    have : e.1.agent ≠ req.agent := by
      intro hc
      exact hndh (hc ▸ List.mem_map.mpr ⟨e, he, rfl⟩)
    rw [hacc' e he]
    simp [this]

/-- The traffic-signal admission loop cannot panic under the same conditions. -/
theorem TrafficSignal.admit_loop_isSome_sig (cycle : Cycle) (info : AgentInfo)
    (iid : IntersectionID) :
    ∀ (l : List Request) (acc : List (AgentID × TurnID)) (keep : List Request)
      (evs : List Event),
      (∀ r ∈ l, r.turn.parent = iid) →
      ((l.map Request.agent).Nodup) →
      (∀ r ∈ l, OMap.contains r.agent acc = false) →
      (TrafficSignal.admit_loop cycle info iid l acc keep evs).isSome := by
  intro l
  induction l with
  | nil =>
    intro acc keep evs _ _ _
    rw [TrafficSignal.admit_loop]
    rfl
  | cons req rest ih =>
    intro acc keep evs hpar hnd hacc
    rw [TrafficSignal.admit_loop]
    rw [if_neg (by
      simp only [ne_eq, not_not]
      exact hpar req (List.mem_cons_self _ _))]
    rw [if_neg (by
      rw [hacc req (List.mem_cons_self _ _)]
      simp)]
    have hndh : req.agent ∉ rest.map Request.agent := by
      rw [List.map_cons, List.nodup_cons] at hnd
      exact hnd.1
    have hndt : (rest.map Request.agent).Nodup := by
      rw [List.map_cons, List.nodup_cons] at hnd
      exact hnd.2
    have hpar' : ∀ r ∈ rest, r.turn.parent = iid :=
      fun r hr => hpar r (List.mem_cons_of_mem _ hr)
    have hacc' : ∀ r ∈ rest, OMap.contains r.agent acc = false :=
      fun r hr => hacc r (List.mem_cons_of_mem _ hr)
    by_cases g : (!cycle.contains req.turn || !info.leaders req.agent) = true
    · rw [if_pos g]
      exact ih acc _ evs hpar' hndt hacc'
    · rw [if_neg g]
      refine ih _ keep _ hpar' hndt ?_
      intro r hr
      rw [OMap.contains_insert]
      have : r.agent ≠ req.agent := by
        intro hc
        exact hndh (hc ▸ List.mem_map.mpr ⟨r, hr, rfl⟩)
      rw [hacc' r hr]
      simp [this]

/-- Facts about the post-promotion waiting map of a stop sign satisfying
`PolicyOK`: entries name this intersection, agents are pairwise distinct, and
no entry's agent is already accepted. -/
theorem StopSign.W_facts (p : StopSign) (ss : ControlStopSign) (info : AgentInfo)
    (time : Tick) (hOK : PolicyOK (.StopSignPolicy p)) :
    (∀ e ∈ (p.promote ss info time).started_waiting_at, e.1.turn.parent = p.id) ∧
    (((p.promote ss info time).started_waiting_at.map fun e => e.1.agent).Nodup) ∧
    (∀ e ∈ (p.promote ss info time).started_waiting_at,
      OMap.contains e.1.agent p.accepted = false) := by
  obtain ⟨hp1, hp2, hp3⟩ := hOK
  have hnd0 : ((p.approaching_agents ++ p.started_waiting_at.map Prod.fst).map
      Request.agent).Nodup := hp3
  rw [List.map_append] at hnd0
  obtain ⟨hA, hK, hD⟩ := List.nodup_append.mp hnd0
  have happNodup : p.approaching_agents.Nodup := hA.of_map
  have hpromNodup : (p.approaching_agents.filter (StopSign.should_promote ss info)).Nodup :=
    happNodup.filter _
  have hfresh : ∀ r ∈ p.approaching_agents.filter (StopSign.should_promote ss info),
      r ∉ p.started_waiting_at.map Prod.fst := by
    intro r hr hmem
    have hrapp : r ∈ p.approaching_agents := (List.mem_filter.mp hr).1
    exact hD (List.mem_map.mpr ⟨r, hrapp, rfl⟩)
      (by
        rw [List.map_map]
        obtain ⟨e, he, hfe⟩ := List.mem_map.mp hmem
        exact List.mem_map.mpr ⟨e, he, by rw [Function.comp_apply, hfe]⟩)
  have hperm : (p.promote ss info time).started_waiting_at.Perm
      ((p.approaching_agents.filter (StopSign.should_promote ss info)).map
        (fun r => (r, time)) ++ p.started_waiting_at) :=
    OMap.foldl_insert_perm time _ p.started_waiting_at hfresh hpromNodup
  have hmemstored : ∀ e ∈ (p.promote ss info time).started_waiting_at,
      e.1 ∈ (IntersectionPolicy.StopSignPolicy p).stored := by
    intro e he
    rcases List.mem_append.mp (hperm.mem_iff.mp he) with h' | h'
    · obtain ⟨r, hr, hre⟩ := List.mem_map.mp h'
      have : e.1 = r := by rw [← hre]
      rw [this]
      exact List.mem_append_left _ (List.mem_filter.mp hr).1
    · exact List.mem_append_right _ (List.mem_map.mpr ⟨e, h', rfl⟩)
  refine ⟨?_, ?_, ?_⟩
  · intro e he
    exact hp1 e.1 (hmemstored e he)
  · rw [List.Perm.nodup_iff (hperm.map fun e => e.1.agent)]
    rw [List.map_append, List.map_map]
    have hsubA : ((p.approaching_agents.filter
        (StopSign.should_promote ss info)).map Request.agent).Sublist
        (p.approaching_agents.map Request.agent) :=
      (List.filter_sublist _).map _
    have heq1 : ((fun e : Request × Tick => e.1.agent) ∘ fun r => (r, time)) =
        Request.agent := rfl
    rw [heq1]
    rw [List.nodup_append]
    refine ⟨hsubA.nodup hA, ?_, ?_⟩
    · rw [List.map_map] at hK
      exact hK
    · intro a ha hb
      refine hD (hsubA.mem ha) ?_
      rw [List.map_map]
      exact hb
  · intro e he
    exact hp2 e.1 (hmemstored e he)

/-- A stop-sign policy satisfying `PolicyOK` steps without panicking. -/
theorem StopSign.step_isSome (p : StopSign) (time : Tick) (mp : Map) (cm : ControlMap)
    (info : AgentInfo) (hOK : PolicyOK (.StopSignPolicy p)) :
    (p.step time mp cm info).isSome := by
  obtain ⟨h1, h2, h3⟩ := StopSign.W_facts p (cm.stop_signs p.id) info time hOK
  have hsome := StopSign.admit_loop_isSome mp (cm.stop_signs p.id) time p.id
    (p.promote (cm.stop_signs p.id) info time).started_waiting_at
    (p.promote (cm.stop_signs p.id) info time).started_waiting_at
    (p.promote (cm.stop_signs p.id) info time).accepted [] h1 h2
    (by
      intro e he
      rw [StopSign.promote_accepted]
      exact h3 e he)
  simp only [StopSign.step]
  cases hadm : StopSign.admit_loop mp (cm.stop_signs p.id) time p.id
      (p.promote (cm.stop_signs p.id) info time).started_waiting_at
      (p.promote (cm.stop_signs p.id) info time).started_waiting_at
      (p.promote (cm.stop_signs p.id) info time).accepted [] with
  | none =>
    rw [hadm] at hsome
    cases hsome
  | some z =>
    obtain ⟨acc, newly⟩ := z
    rfl

/-- A traffic-signal policy satisfying `PolicyOK` steps without panicking. -/
theorem TrafficSignal.step_isSome_sig (p : TrafficSignal) (time : Tick) (mp : Map)
    (cm : ControlMap) (info : AgentInfo) (hOK : PolicyOK (.TrafficSignalPolicy p)) :
    (p.step time mp cm info).isSome := by
  obtain ⟨hp1, hp2, hp3⟩ := hOK
  simp only [TrafficSignal.step]
  by_cases hg : p.accepted.any (fun e =>
      !((cm.traffic_signals p.id).current_cycle_and_remaining_time
        (Tick.as_time time)).1.contains e.2) = true
  · rw [if_pos hg]
    rfl
  · rw [if_neg hg]
    have hsome := TrafficSignal.admit_loop_isSome_sig
      ((cm.traffic_signals p.id).current_cycle_and_remaining_time (Tick.as_time time)).1
      info p.id p.requests p.accepted [] [] hp1 hp3 hp2
    cases hadm : TrafficSignal.admit_loop
        ((cm.traffic_signals p.id).current_cycle_and_remaining_time (Tick.as_time time)).1
        info p.id p.requests p.accepted [] [] with
    | none =>
      rw [hadm] at hsome
      cases hsome
    | some z =>
      obtain ⟨acc, keep, evs⟩ := z
      rfl

/-- A policy satisfying `PolicyOK` steps without panicking. -/
theorem IntersectionPolicy.step_isSome_policy (i : IntersectionPolicy) (time : Tick) (mp : Map)
    (cm : ControlMap) (info : AgentInfo) (hOK : PolicyOK i) :
    (i.step time mp cm info).isSome := by
  cases i with
  | StopSignPolicy p =>
    have := StopSign.step_isSome p time mp cm info hOK
    rw [IntersectionPolicy.step]
    cases hs : p.step time mp cm info with
    | none => rw [hs] at this; cases this
    | some z => obtain ⟨p', evs⟩ := z; rfl
  | TrafficSignalPolicy p =>
    have := TrafficSignal.step_isSome_sig p time mp cm info hOK
    rw [IntersectionPolicy.step]
    cases hs : p.step time mp cm info with
    | none => rw [hs] at this; cases this
    | some z => obtain ⟨p', evs⟩ := z; rfl

theorem StopSign.enqueue_id (p : StopSign) (r : Request) : (p.enqueue r).id = p.id := by
  rw [StopSign.enqueue]
  split <;> rfl

/-- `submit` never changes the policy's intersection id. -/
theorem IntersectionPolicy.submit_id (i : IntersectionPolicy) (r : Request)
    (i' : IntersectionPolicy) (h : i.submit r = Except.ok i') : i'.id = i.id := by
  cases hl : OMap.lookup r.agent i.accepted with
  | some t =>
    obtain ⟨hi', -⟩ := IntersectionPolicy.submit_ok_inv i r t hl i' h
    rw [hi']
  | none =>
    rw [IntersectionPolicy.submit_of_none i r hl] at h
    injection h with h
    subst h
    cases i with
    | StopSignPolicy p =>
      show (p.enqueue r).id = p.id
      exact StopSign.enqueue_id p r
    | TrafficSignalPolicy p => rfl

/-- A policy step never changes the policy's intersection id. -/
theorem IntersectionPolicy.step_id (i i' : IntersectionPolicy) (time : Tick) (mp : Map)
    (cm : ControlMap) (info : AgentInfo) (ev : List Event)
    (h : i.step time mp cm info = some (i', ev)) : i'.id = i.id := by
  cases i with
  | StopSignPolicy p =>
    rw [IntersectionPolicy.step] at h
    cases hs : p.step time mp cm info with
    | none => rw [hs] at h; cases h
    | some z =>
      obtain ⟨p', evs⟩ := z
      rw [hs] at h
      injection h with h
      injection h with h1 h2
      subst h1
      obtain ⟨acc', newly, -, hp', -⟩ := StopSign.step_cases p time mp cm info p' evs hs
      rw [hp']
      rfl
  | TrafficSignalPolicy p =>
    rw [IntersectionPolicy.step] at h
    cases hs : p.step time mp cm info with
    | none => rw [hs] at h; cases h
    | some z =>
      obtain ⟨p', evs⟩ := z
      rw [hs] at h
      injection h with h
      injection h with h1 h2
      subst h1
      rcases TrafficSignal.step_cases_sig p time mp cm info p' evs hs with
        ⟨-, hp', -⟩ | ⟨-, acc', keep', evs', -, hp', -⟩
      · rw [hp']
      · rw [hp']
        rfl

/-- The post-promotion waiting map, as a permutation of the promoted pairs
prepended to the old waiting map (for a `PolicyOK` stop sign). -/
theorem StopSign.W_perm (p : StopSign) (ss : ControlStopSign) (info : AgentInfo)
    (time : Tick) (hOK : PolicyOK (.StopSignPolicy p)) :
    (p.promote ss info time).started_waiting_at.Perm
      ((p.approaching_agents.filter (StopSign.should_promote ss info)).map
        (fun r => (r, time)) ++ p.started_waiting_at) := by
  obtain ⟨-, -, hp3⟩ := hOK
  have hnd0 : ((p.approaching_agents ++ p.started_waiting_at.map Prod.fst).map
      Request.agent).Nodup := hp3
  rw [List.map_append] at hnd0
  obtain ⟨hA, hK, hD⟩ := List.nodup_append.mp hnd0
  have happNodup : p.approaching_agents.Nodup := hA.of_map
  refine OMap.foldl_insert_perm time _ p.started_waiting_at ?_ (happNodup.filter _)
  intro r hr hmem
  have hrapp : r ∈ p.approaching_agents := (List.mem_filter.mp hr).1
  refine hD (List.mem_map.mpr ⟨r, hrapp, rfl⟩) ?_
  rw [List.map_map]
  obtain ⟨e, he, hfe⟩ := List.mem_map.mp hmem
  exact List.mem_map.mpr ⟨e, he, by rw [Function.comp_apply, hfe]⟩

/-- Every post-promotion waiting entry is a stored request of the policy. -/
theorem StopSign.W_mem_stored (p : StopSign) (ss : ControlStopSign) (info : AgentInfo)
    (time : Tick) (hOK : PolicyOK (.StopSignPolicy p)) :
    ∀ e ∈ (p.promote ss info time).started_waiting_at,
      e.1 ∈ (IntersectionPolicy.StopSignPolicy p).stored := by
  intro e he
  rcases List.mem_append.mp ((StopSign.W_perm p ss info time hOK).mem_iff.mp he) with h' | h'
  · obtain ⟨r, hr, hre⟩ := List.mem_map.mp h'
    have : e.1 = r := by rw [← hre]
    rw [this]
    exact List.mem_append_left _ (List.mem_filter.mp hr).1
  · exact List.mem_append_right _ (List.mem_map.mpr ⟨e, h', rfl⟩)

/-- A key of the accepted map produced by the stop-sign loop was either
accepted before or belongs to an admitted request. -/
theorem StopSign.admit_loop_acc_origin (mp : Map) (ss : ControlStopSign) (time : Tick)
    (iid : IntersectionID) (W : List (Request × Tick)) :
    ∀ (l : List (Request × Tick)) (acc : List (AgentID × TurnID)) (newly : List Request)
      (acc' : List (AgentID × TurnID)) (newly' : List Request),
      StopSign.admit_loop mp ss time iid W l acc newly = some (acc', newly') →
      ∀ a, OMap.contains a acc' = true →
        OMap.contains a acc = true ∨ ∃ r2 ∈ newly', r2.agent = a := by
  intro l
  induction l with
  | nil =>
    intro acc newly acc' newly' h a ha
    rw [StopSign.admit_loop] at h
    injection h with h
    injection h with h1 h2
    exact Or.inl (h1 ▸ ha)
  | cons e rest ih =>
    intro acc newly acc' newly' h a ha
    obtain ⟨req, started⟩ := e
    rw [StopSign.admit_loop] at h
    by_cases c1 : req.turn.parent ≠ iid
    · rw [if_pos c1] at h; exact absurd h (by simp)
    rw [if_neg c1] at h
    by_cases c2 : OMap.contains req.agent acc = true
    · rw [if_pos c2] at h; exact absurd h (by simp)
    rw [if_neg c2] at h
    by_cases g1 : conflictsWithAcceptedList mp acc req.turn = true
    · rw [if_pos g1] at h; exact ih acc newly acc' newly' h a ha
    rw [if_neg g1] at h
    by_cases g2 : conflictsWithWaitingList mp ss W req.turn = true
    · rw [if_pos g2] at h; exact ih acc newly acc' newly' h a ha
    rw [if_neg g2] at h
    by_cases g3 : (decide (ss.get_priority req.turn = TurnPriority.Stop)
        && decide (Tick.as_time (time - started) < WAIT_AT_STOP_SIGN)) = true
    · rw [if_pos g3] at h; exact ih acc newly acc' newly' h a ha
    rw [if_neg g3] at h
    rcases ih _ _ acc' newly' h a ha with h' | h'
    · rw [OMap.contains_eq_true_iff] at h'
      rcases OMap.keys_insert req.agent a req.turn acc h' with h'' | h''
      · refine Or.inr ⟨req, ?_, h''.symm⟩
        exact StopSign.admit_loop_newly_mono mp ss time iid W rest _ _ acc' newly' h req
          (List.mem_append_right _ (List.mem_singleton.mpr rfl))
      · exact Or.inl ((OMap.contains_eq_true_iff _ _).mpr h'')
    · exact Or.inr h'

/-- A key of the accepted map produced by the signal loop was either accepted
before or belongs to a green-lit leader of the request list. -/
theorem TrafficSignal.admit_loop_acc_origin_sig (cycle : Cycle) (info : AgentInfo)
    (iid : IntersectionID) :
    ∀ (l : List Request) (acc : List (AgentID × TurnID)) (keep : List Request)
      (evs : List Event) (acc' : List (AgentID × TurnID)) (keep' : List Request)
      (evs' : List Event),
      TrafficSignal.admit_loop cycle info iid l acc keep evs = some (acc', keep', evs') →
      ∀ a, OMap.contains a acc' = true →
        OMap.contains a acc = true ∨
          ∃ r2 ∈ l, (cycle.contains r2.turn && info.leaders r2.agent) = true ∧
            r2.agent = a := by
  intro l
  induction l with
  | nil =>
    intro acc keep evs acc' keep' evs' h a ha
    rw [TrafficSignal.admit_loop] at h
    injection h with h
    injection h with h1 h2
    exact Or.inl (h1 ▸ ha)
  | cons req rest ih =>
    intro acc keep evs acc' keep' evs' h a ha
    rw [TrafficSignal.admit_loop] at h
    by_cases c1 : req.turn.parent ≠ iid
    · rw [if_pos c1] at h; exact absurd h (by simp)
    rw [if_neg c1] at h
    by_cases c2 : OMap.contains req.agent acc = true
    · rw [if_pos c2] at h; exact absurd h (by simp)
    rw [if_neg c2] at h
    by_cases g : (!cycle.contains req.turn || !info.leaders req.agent) = true
    · rw [if_pos g] at h
      rcases ih _ _ _ acc' keep' evs' h a ha with h' | ⟨r2, hr2, hc, hag⟩
      · exact Or.inl h'
      · exact Or.inr ⟨r2, List.mem_cons_of_mem _ hr2, hc, hag⟩
    · rw [if_neg g] at h
      have hcond : (cycle.contains req.turn && info.leaders req.agent) = true := by
        have := (by simpa using g : cycle.contains req.turn = true ∧
          info.leaders req.agent = true)
        rw [this.1, this.2]
        rfl
      rcases ih _ _ _ acc' keep' evs' h a ha with h' | ⟨r2, hr2, hc, hag⟩
      · rw [OMap.contains_eq_true_iff] at h'
        rcases OMap.keys_insert req.agent a req.turn acc h' with h'' | h''
        · exact Or.inr ⟨req, List.mem_cons_self _ _, hcond, h''.symm⟩
        · exact Or.inl ((OMap.contains_eq_true_iff _ _).mpr h'')
      · exact Or.inr ⟨r2, List.mem_cons_of_mem _ hr2, hc, hag⟩

/-- After a successful stop-sign step every stored request was stored before. -/
theorem StopSign.step_stored_sub (p : StopSign) (time : Tick) (mp : Map) (cm : ControlMap)
    (info : AgentInfo) (p' : StopSign) (evs : List Event)
    (h : p.step time mp cm info = some (p', evs)) (hOK : PolicyOK (.StopSignPolicy p)) :
    ∀ r ∈ (IntersectionPolicy.StopSignPolicy p').stored,
      r ∈ (IntersectionPolicy.StopSignPolicy p).stored := by
  obtain ⟨acc', newly, hadm, hp', -⟩ := StopSign.step_cases p time mp cm info p' evs h
  intro r hr
  simp only [IntersectionPolicy.stored] at hr ⊢
  rw [hp'] at hr
  rcases List.mem_append.mp hr with h' | h'
  · have h2 : r ∈ (p.promote (cm.stop_signs p.id) info time).approaching_agents := h'
    rw [StopSign.promote_approaching] at h2
    exact List.mem_append_left _ (List.mem_filter.mp h2).1
  · obtain ⟨e, he, hre⟩ := List.mem_map.mp h'
    have heW : e ∈ (p.promote (cm.stop_signs p.id) info time).started_waiting_at :=
      (List.mem_filter.mp he).1
    have h3 := StopSign.W_mem_stored p (cm.stop_signs p.id) info time hOK e heW
    simp only [IntersectionPolicy.stored] at h3
    exact hre ▸ h3

/-- After a successful stop-sign step no stored agent is a key of the new
accepted map. -/
theorem StopSign.step_accepted_fresh (p : StopSign) (time : Tick) (mp : Map) (cm : ControlMap)
    (info : AgentInfo) (p' : StopSign) (evs : List Event)
    (h : p.step time mp cm info = some (p', evs)) (hOK : PolicyOK (.StopSignPolicy p)) :
    ∀ r ∈ (IntersectionPolicy.StopSignPolicy p').stored,
      OMap.contains r.agent p'.accepted = false := by
  obtain ⟨acc', newly, hadm, hp', -⟩ := StopSign.step_cases p time mp cm info p' evs h
  rw [StopSign.promote_accepted] at hadm
  intro r hr
  by_contra hcon
  have hc : OMap.contains r.agent p'.accepted = true := by
    cases hcc : OMap.contains r.agent p'.accepted
    · exact absurd hcc hcon
    · rfl
  have hacc' : p'.accepted = acc' := by rw [hp']
  rw [hacc'] at hc
  rcases StopSign.admit_loop_acc_origin mp (cm.stop_signs p.id) time p.id
      (p.promote (cm.stop_signs p.id) info time).started_waiting_at
      (p.promote (cm.stop_signs p.id) info time).started_waiting_at
      p.accepted [] acc' newly hadm r.agent hc with h1 | ⟨r2, hr2, hag⟩
  · have hst := StopSign.step_stored_sub p time mp cm info p' evs h hOK r hr
    have h2 : OMap.contains r.agent p.accepted = false := hOK.2.1 r hst
    rw [h2] at h1
    cases h1
  · rcases StopSign.admit_loop_newly_sub mp (cm.stop_signs p.id) time p.id
        _ _ p.accepted [] acc' newly hadm r2 hr2 with h2 | ⟨st2, hst2⟩
    · cases h2
    have hnd0 : ((p.approaching_agents ++ p.started_waiting_at.map Prod.fst).map
        Request.agent).Nodup := hOK.2.2
    rw [List.map_append] at hnd0
    obtain ⟨hA, hK, hD⟩ := List.nodup_append.mp hnd0
    have hWnd := (StopSign.W_facts p (cm.stop_signs p.id) info time hOK).2.1
    simp only [IntersectionPolicy.stored] at hr
    rw [hp'] at hr
    rcases List.mem_append.mp hr with h3 | h3
    · have h4 : r ∈ (p.promote (cm.stop_signs p.id) info time).approaching_agents := h3
      rw [StopSign.promote_approaching] at h4
      obtain ⟨hrapp, hrnp⟩ := List.mem_filter.mp h4
      have hrnp' : StopSign.should_promote (cm.stop_signs p.id) info r = false := by
        simpa using hrnp
      rcases List.mem_append.mp
          ((StopSign.W_perm p (cm.stop_signs p.id) info time hOK).mem_iff.mp hst2)
          with h5 | h5
      · obtain ⟨r3, hr3, he3⟩ := List.mem_map.mp h5
        have hr3r2 : r3 = r2 := congrArg Prod.fst he3
        obtain ⟨hr2app, hr2p⟩ := List.mem_filter.mp (hr3r2 ▸ hr3)
        have hrr2 : r = r2 := List.inj_on_of_nodup_map hA hrapp hr2app hag.symm
        rw [← hrr2] at hr2p
        rw [hrnp'] at hr2p
        cases hr2p
      · refine hD (List.mem_map.mpr ⟨r, hrapp, rfl⟩) ?_
        rw [List.map_map]
        refine List.mem_map.mpr ⟨(r2, st2), h5, ?_⟩
        rw [Function.comp_apply]
        exact hag
    · obtain ⟨e, he, hre⟩ := List.mem_map.mp h3
      have he2 : e ∈ (p.promote (cm.stop_signs p.id) info time).started_waiting_at.filter
          (fun e => !decide (e.1 ∈ newly)) := he
      obtain ⟨heW, hef⟩ := List.mem_filter.mp he2
      have hnotin : e.1 ∉ newly := by simpa using hef
      have hee : e = (r2, st2) := by
        refine List.inj_on_of_nodup_map hWnd heW hst2 ?_
        show e.1.agent = r2.agent
        rw [hre]
        exact hag.symm
      refine hnotin ?_
      rw [hee]
      exact hr2

/-- After a successful traffic-signal step every stored request was stored
before. -/
theorem TrafficSignal.step_stored_sub_sig (p : TrafficSignal) (time : Tick) (mp : Map)
    (cm : ControlMap) (info : AgentInfo) (p' : TrafficSignal) (evs : List Event)
    (h : p.step time mp cm info = some (p', evs)) :
    ∀ r ∈ (IntersectionPolicy.TrafficSignalPolicy p').stored,
      r ∈ (IntersectionPolicy.TrafficSignalPolicy p).stored := by
  rcases TrafficSignal.step_cases_sig p time mp cm info p' evs h with
    ⟨-, hp', -⟩ | ⟨-, acc', keep', evs', hadm, hp', -⟩
  · subst hp'
    exact fun r hr => hr
  · intro r hr
    simp only [IntersectionPolicy.stored] at hr ⊢
    rw [hp'] at hr
    have hr' : r ∈ keep' := hr
    rcases (TrafficSignal.admit_loop_keep _ info p.id p.requests p.accepted [] []
        acc' keep' evs' hadm r).mp hr' with h' | h'
    · cases h'
    · exact h'.1

/-- After a successful traffic-signal step no stored agent is a key of the new
accepted map. -/
theorem TrafficSignal.step_accepted_fresh_sig (p : TrafficSignal) (time : Tick) (mp : Map)
    (cm : ControlMap) (info : AgentInfo) (p' : TrafficSignal) (evs : List Event)
    (h : p.step time mp cm info = some (p', evs)) (hOK : PolicyOK (.TrafficSignalPolicy p)) :
    ∀ r ∈ (IntersectionPolicy.TrafficSignalPolicy p').stored,
      OMap.contains r.agent p'.accepted = false := by
  rcases TrafficSignal.step_cases_sig p time mp cm info p' evs h with
    ⟨-, hp', -⟩ | ⟨-, acc', keep', evs', hadm, hp', -⟩
  · subst hp'
    exact fun r hr => hOK.2.1 r hr
  · intro r hr
    by_contra hcon
    have hc : OMap.contains r.agent p'.accepted = true := by
      cases hcc : OMap.contains r.agent p'.accepted
      · exact absurd hcc hcon
      · rfl
    have hacc' : p'.accepted = acc' := by rw [hp']
    rw [hacc'] at hc
    simp only [IntersectionPolicy.stored] at hr
    rw [hp'] at hr
    have hrk : r ∈ keep' := hr
    have hkeep := (TrafficSignal.admit_loop_keep _ info p.id p.requests p.accepted
        [] [] acc' keep' evs' hadm r).mp hrk
    have hrr : r ∈ p.requests ∧ ¬(((cm.traffic_signals p.id).current_cycle_and_remaining_time
        (Tick.as_time time)).1.contains r.turn = true ∧ info.leaders r.agent = true) := by
      rcases hkeep with h' | h'
      · cases h'
      · exact h'
    rcases TrafficSignal.admit_loop_acc_origin_sig _ info p.id p.requests p.accepted [] []
        acc' keep' evs' hadm r.agent hc with h1 | ⟨r2, hr2, hcond, hag⟩
    · have h2 : OMap.contains r.agent p.accepted = false := hOK.2.1 r hrr.1
      rw [h2] at h1
      cases h1
    · have hnd : (p.requests.map Request.agent).Nodup := hOK.2.2
      have hrr2 : r = r2 := List.inj_on_of_nodup_map hnd hrr.1 hr2 hag.symm
      rw [← hrr2, Bool.and_eq_true] at hcond
      exact hrr.2 ⟨hcond.1, hcond.2⟩

/-- A successful policy step shrinks the stored set and leaves no stored agent
accepted. -/
theorem IntersectionPolicy.step_PolicyOK_parts (i i' : IntersectionPolicy) (time : Tick)
    (mp : Map) (cm : ControlMap) (info : AgentInfo) (ev : List Event)
    (h : i.step time mp cm info = some (i', ev)) (hOK : PolicyOK i) :
    (∀ r ∈ i'.stored, r ∈ i.stored) ∧
    (∀ r ∈ i'.stored, OMap.contains r.agent i'.accepted = false) := by
  cases i with
  | StopSignPolicy p =>
    rw [IntersectionPolicy.step] at h
    cases hs : p.step time mp cm info with
    | none => rw [hs] at h; cases h
    | some z =>
      obtain ⟨p', pevs⟩ := z
      rw [hs] at h
      injection h with h
      injection h with h1 h2
      subst h1
      exact ⟨StopSign.step_stored_sub p time mp cm info p' pevs hs hOK,
        StopSign.step_accepted_fresh p time mp cm info p' pevs hs hOK⟩
  | TrafficSignalPolicy p =>
    rw [IntersectionPolicy.step] at h
    cases hs : p.step time mp cm info with
    | none => rw [hs] at h; cases h
    | some z =>
      obtain ⟨p', pevs⟩ := z
      rw [hs] at h
      injection h with h
      injection h with h1 h2
      subst h1
      exact ⟨TrafficSignal.step_stored_sub_sig p time mp cm info p' pevs hs,
        TrafficSignal.step_accepted_fresh_sig p time mp cm info p' pevs hs hOK⟩

/-- A successful policy-level submit keeps the request-shape invariants:
stored requests name this intersection and their agents are not accepted. -/
theorem IntersectionPolicy.submit_PolicyOK_parts (i i' : IntersectionPolicy) (req : Request)
    (h : i.submit req = Except.ok i')
    (hOK1 : ∀ r ∈ i.stored, r.turn.parent = i.id)
    (hOK2 : ∀ r ∈ i.stored, OMap.contains r.agent i.accepted = false)
    (hpar : req.turn.parent = i.id) :
    (∀ r ∈ i'.stored, r.turn.parent = i'.id) ∧
    (∀ r ∈ i'.stored, OMap.contains r.agent i'.accepted = false) := by
  have hacc := IntersectionPolicy.submit_accepted i req i' h
  have hid := IntersectionPolicy.submit_id i req i' h
  have hstored : ∀ r ∈ i'.stored,
      (r = req ∧ OMap.lookup req.agent i.accepted = none) ∨ r ∈ i.stored := by
    cases hl : OMap.lookup req.agent i.accepted with
    | some t =>
      obtain ⟨hi', -⟩ := IntersectionPolicy.submit_ok_inv i req t hl i' h
      rw [hi']
      exact fun r hr => Or.inr hr
    | none =>
      rw [IntersectionPolicy.submit_of_none i req hl] at h
      injection h with h
      cases i with
      | StopSignPolicy p =>
        have h2 : IntersectionPolicy.StopSignPolicy (p.enqueue req) = i' := h
        rw [← h2]
        intro r hr
        by_cases hc : OMap.contains req p.started_waiting_at = true
        · have h4 : p.enqueue req = p := by rw [StopSign.enqueue, if_pos hc]
          rw [h4] at hr
          exact Or.inr hr
        · have h4 : p.enqueue req =
              { p with approaching_agents := OSet.insert req p.approaching_agents } := by
            rw [StopSign.enqueue, if_neg hc]
          rw [h4] at hr
          have hr2 : r ∈ OSet.insert req p.approaching_agents ++
              p.started_waiting_at.map Prod.fst := hr
          rcases List.mem_append.mp hr2 with h3 | h3
          · rcases (OSet.mem_insert req r p.approaching_agents).mp h3 with h5 | h5
            · exact Or.inl ⟨h5, rfl⟩
            · exact Or.inr (List.mem_append_left _ h5)
          · exact Or.inr (List.mem_append_right _ h3)
      | TrafficSignalPolicy p =>
        have h2 : IntersectionPolicy.TrafficSignalPolicy (p.enqueue req) = i' := h
        rw [← h2]
        intro r hr
        have hr2 : r ∈ OSet.insert req p.requests := hr
        rcases (OSet.mem_insert req r p.requests).mp hr2 with h5 | h5
        · exact Or.inl ⟨h5, rfl⟩
        · exact Or.inr h5
  refine ⟨?_, ?_⟩
  · intro r hr
    rw [hid]
    rcases hstored r hr with ⟨hre, -⟩ | hri
    · rw [hre]
      exact hpar
    · exact hOK1 r hri
  · intro r hr
    rw [hacc]
    rcases hstored r hr with ⟨hre, hl⟩ | hri
    · rw [hre]
      show (OMap.lookup req.agent i.accepted).isSome = false
      rw [hl]
      rfl
    · exact hOK2 r hri

/-- The fresh state built by `new` satisfies the step invariant. -/
theorem IntersectionSimState.new_StateOK (mp : Map) (hWF : WFMap mp) :
    StateOK (IntersectionSimState.new mp) := by
  intro k i hi
  have hi' : (mp.all_intersections.map fun it =>
      if it.has_traffic_signal then
        IntersectionPolicy.TrafficSignalPolicy (TrafficSignal.new it.id)
      else IntersectionPolicy.StopSignPolicy (StopSign.new it.id))[k]? = some i := hi
  rw [List.getElem?_map] at hi'
  cases hint : mp.all_intersections[k]? with
  | none =>
    rw [hint] at hi'
    cases hi'
  | some int =>
    rw [hint] at hi'
    have hi2 : some (if int.has_traffic_signal then
        IntersectionPolicy.TrafficSignalPolicy (TrafficSignal.new int.id)
      else IntersectionPolicy.StopSignPolicy (StopSign.new int.id)) = some i := hi'
    injection hi2 with hi2
    have hid := hWF k int hint
    cases hts : int.has_traffic_signal with
    | true =>
      rw [hts, if_pos rfl] at hi2
      rw [← hi2]
      refine ⟨hid, ?_, ?_, ?_⟩
      · intro r hr
        cases hr
      · intro r hr
        cases hr
      · exact List.nodup_nil
    | false =>
      rw [hts, if_neg (by simp)] at hi2
      rw [← hi2]
      refine ⟨hid, ?_, ?_, ?_⟩
      · intro r hr
        cases hr
      · intro r hr
        cases hr
      · exact List.nodup_nil

/-- `after_submit` preserves the step invariant, given the one-request-per-agent
side condition on the resulting state. -/
theorem IntersectionSimState.after_submit_StateOK (s s' : IntersectionSimState) (r : Request)
    (h : s.after_submit r = some s') (hOK : StateOK s) (hOne : OnePerAgent s') :
    StateOK s' := by
  rw [IntersectionSimState.after_submit.eq_def] at h
  cases hsr : s.submit_request r with
  | none => rw [hsr] at h; cases h
  | some res =>
    rw [hsr] at h
    cases res with
    | error e =>
      have h2 : some s = some s' := h
      injection h2 with h2
      rw [← h2]
      exact hOK
    | ok s2 =>
      have h2 : some s2 = some s' := h
      injection h2 with h2
      subst h2
      cases hi : s.intersections[r.turn.parent]? with
      | none =>
        rw [IntersectionSimState.submit_request.eq_def, hi] at hsr
        cases hsr
      | some i =>
        rw [IntersectionSimState.submit_request_eq s r i hi] at hsr
        cases hsub : i.submit r with
        | error e2 =>
          rw [hsub] at hsr
          have h3 : some (Except.error e2 : Except String IntersectionSimState) =
              some (Except.ok s2) := hsr
          injection h3 with h3
          cases h3
        | ok i2 =>
          rw [hsub] at hsr
          have h3 : some (Except.ok
              { s with intersections := s.intersections.set r.turn.parent i2 }) =
              some (Except.ok s2) := hsr
          injection h3 with h3
          injection h3 with h3
          subst h3
          have hid2 : i2.id = r.turn.parent := by
            rw [IntersectionPolicy.submit_id i r i2 hsub]
            exact (hOK r.turn.parent i hi).1
          have hparts := IntersectionPolicy.submit_PolicyOK_parts i i2 r hsub
            (hOK r.turn.parent i hi).2.1 (hOK r.turn.parent i hi).2.2.1
            (hOK r.turn.parent i hi).1.symm
          intro k j hj
          have hj' : (s.intersections.set r.turn.parent i2)[k]? = some j := hj
          by_cases hk : k = r.turn.parent
          · subst hk
            have hlt : r.turn.parent < s.intersections.length :=
              (List.getElem?_eq_some_iff.mp hi).1
            rw [List.getElem?_set_self hlt] at hj'
            injection hj' with hj2
            subst hj2
            exact ⟨hid2, hparts.1, hparts.2, hOne r.turn.parent i2 hj⟩
          · rw [List.getElem?_set_ne (fun hh => hk hh.symm)] at hj'
            exact hOK k j hj'

/-- `stepPolicies` preserves the number of intersections. -/
theorem stepPolicies_length (time : Tick) (mp : Map) (cm : ControlMap) (info : AgentInfo) :
    ∀ (l l' : List IntersectionPolicy) (evs : List Event),
      stepPolicies time mp cm info l = some (l', evs) → l'.length = l.length := by
  intro l
  induction l with
  | nil =>
    intro l' evs h
    rw [stepPolicies] at h
    injection h with h
    injection h with h1 h2
    rw [← h1]
  | cons i rest ih =>
    intro l' evs h
    rw [stepPolicies] at h
    cases hs : i.step time mp cm info with
    | none => rw [hs] at h; cases h
    | some z =>
      obtain ⟨i', ev⟩ := z
      rw [hs] at h
      cases hr : stepPolicies time mp cm info rest with
      | none => rw [hr] at h; cases h
      | some z2 =>
        obtain ⟨rest', evs2⟩ := z2
        rw [hr] at h
        injection h with h
        injection h with h1 h2
        rw [← h1]
        simp [ih rest' evs2 hr]

/-- A global step preserves the invariant, given the one-request-per-agent side
condition on the resulting state. -/
theorem IntersectionSimState.step_StateOK (s s' : IntersectionSimState) (time : Tick)
    (mp : Map) (cm : ControlMap) (info : AgentInfo) (evs : List Event)
    (h : s.step time mp cm info = some (s', evs)) (hOK : StateOK s) (hOne : OnePerAgent s') :
    StateOK s' := by
  obtain ⟨hsp, -⟩ := IntersectionSimState.step_cases_state s time mp cm info s' evs h
  have hlen := stepPolicies_length time mp cm info s.intersections s'.intersections evs hsp
  intro k j hj
  obtain ⟨hlt', -⟩ := List.getElem?_eq_some_iff.mp hj
  have hlt : k < s.intersections.length := by
    rw [← hlen]
    exact hlt'
  have hsi : s.intersections[k]? = some s.intersections[k] := List.getElem?_eq_getElem hlt
  obtain ⟨i', ev, hk', hs'⟩ := stepPolicies_index time mp cm info s.intersections
    s'.intersections evs hsp k _ hsi
  rw [hj] at hk'
  injection hk' with hk2
  obtain ⟨hidk, hPOK⟩ := hOK k s.intersections[k] hsi
  have hid' := IntersectionPolicy.step_id _ _ time mp cm info ev hs'
  have hparts := IntersectionPolicy.step_PolicyOK_parts _ _ time mp cm info ev hs' hPOK
  have hnd := hOne k j hj
  rw [hk2] at hnd
  rw [hk2]
  refine ⟨by rw [hid']; exact hidk, ?_, hparts.2, hnd⟩
  intro r hr
  rw [hid']
  exact hPOK.1 r (hparts.1 r hr)

/-- Every state reachable under the one-stored-request-per-agent discipline
satisfies the step invariant. -/
theorem ReachableOne_StateOK (mp : Map) (cm : ControlMap) (s : IntersectionSimState)
    (h : ReachableOne mp cm s) : StateOK s := by
  induction h with
  | init hWF => exact IntersectionSimState.new_StateOK mp hWF
  | submit a b r hre hsub hone ih =>
    exact IntersectionSimState.after_submit_StateOK a b r hsub ih hone
  | do_step a b time info evs hre hstep hone ih =>
    exact IntersectionSimState.step_StateOK a b time mp cm info evs hstep ih hone

/-- If every policy satisfies `PolicyOK`, no per-policy step panics. -/
theorem stepPolicies_isSome (time : Tick) (mp : Map) (cm : ControlMap) (info : AgentInfo) :
    ∀ l : List IntersectionPolicy, (∀ i ∈ l, PolicyOK i) →
      (stepPolicies time mp cm info l).isSome := by
  intro l
  induction l with
  | nil =>
    intro _
    rw [stepPolicies]
    rfl
  | cons i rest ih =>
    intro hOK
    rw [stepPolicies]
    have h1 := IntersectionPolicy.step_isSome_policy i time mp cm info (hOK i (List.mem_cons_self _ _))
    cases hs : i.step time mp cm info with
    | none => rw [hs] at h1; cases h1
    | some z =>
      obtain ⟨i', ev⟩ := z
      have h2 := ih (fun j hj => hOK j (List.mem_cons_of_mem _ hj))
      cases hr : stepPolicies time mp cm info rest with
      | none => rw [hr] at h2; cases h2
      | some z2 =>
        obtain ⟨rest', evs⟩ := z2
        rfl

/-- A state satisfying the invariant steps without panicking. -/
theorem IntersectionSimState.step_total (s : IntersectionSimState) (time : Tick) (mp : Map)
    (cm : ControlMap) (info : AgentInfo) (hOK : StateOK s) :
    (s.step time mp cm info).isSome := by
  have hall : ∀ i ∈ s.intersections, PolicyOK i := by
    intro i hi
    obtain ⟨k, hk⟩ := List.mem_iff_getElem?.mp hi
    exact (hOK k i hk).2
  have h1 := stepPolicies_isSome time mp cm info s.intersections hall
  simp only [IntersectionSimState.step]
  cases hr : stepPolicies time mp cm info s.intersections with
  | none => rw [hr] at h1; cases h1
  | some z =>
    obtain ⟨is', evs⟩ := z
    rfl

/-- After `enqueue`, the request is stored, and previously stored requests
remain stored. -/
theorem StopSign.enqueue_stored (p : StopSign) (r : Request) :
    r ∈ (IntersectionPolicy.StopSignPolicy (p.enqueue r)).stored ∧
    ∀ r' ∈ (IntersectionPolicy.StopSignPolicy p).stored,
      r' ∈ (IntersectionPolicy.StopSignPolicy (p.enqueue r)).stored := by
  rw [StopSign.enqueue]
  by_cases hc : OMap.contains r p.started_waiting_at = true
  · rw [if_pos hc]
    refine ⟨List.mem_append_right _ ?_, fun r' hr' => hr'⟩
    exact (OMap.contains_eq_true_iff r p.started_waiting_at).mp hc
  · rw [if_neg hc]
    constructor
    · exact List.mem_append_left _ ((OSet.mem_insert r r p.approaching_agents).mpr (Or.inl rfl))
    · intro r' hr'
      rcases List.mem_append.mp hr' with h3 | h3
      · exact List.mem_append_left _
          ((OSet.mem_insert r r' p.approaching_agents).mpr (Or.inr h3))
      · exact List.mem_append_right _ h3

/-- After `enqueue`, the request is pending, and previously pending requests
remain pending. -/
theorem TrafficSignal.enqueue_stored_sig (p : TrafficSignal) (r : Request) :
    r ∈ (IntersectionPolicy.TrafficSignalPolicy (p.enqueue r)).stored ∧
    ∀ r' ∈ (IntersectionPolicy.TrafficSignalPolicy p).stored,
      r' ∈ (IntersectionPolicy.TrafficSignalPolicy (p.enqueue r)).stored := by
  constructor
  · show r ∈ OSet.insert r p.requests
    rw [OSet.mem_insert]
    exact Or.inl rfl
  · intro r' hr'
    show r' ∈ OSet.insert r p.requests
    rw [OSet.mem_insert]
    exact Or.inr hr'

/-- `submit` with no accepted entry for the agent succeeds, stores the request,
keeps every stored request and leaves the accepted map unchanged. -/
theorem IntersectionPolicy.submit_stores (i : IntersectionPolicy) (r : Request)
    (hl : OMap.lookup r.agent i.accepted = none) :
    ∃ i1, i.submit r = Except.ok i1 ∧ r ∈ i1.stored ∧
      (∀ r' ∈ i.stored, r' ∈ i1.stored) ∧ i1.accepted = i.accepted := by
  cases i with
  | StopSignPolicy p =>
    refine ⟨.StopSignPolicy (p.enqueue r), IntersectionPolicy.submit_of_none _ r hl, ?_, ?_, ?_⟩
    · exact (StopSign.enqueue_stored p r).1
    · exact (StopSign.enqueue_stored p r).2
    · show (p.enqueue r).accepted = p.accepted
      exact StopSign.enqueue_accepted p r
  | TrafficSignalPolicy p =>
    refine ⟨.TrafficSignalPolicy (p.enqueue r), IntersectionPolicy.submit_of_none _ r hl,
      ?_, ?_, ?_⟩
    · exact (TrafficSignal.enqueue_stored_sig p r).1
    · exact (TrafficSignal.enqueue_stored_sig p r).2
    · rfl

/-- C10: the one-pending-request-per-agent precondition.  First, the API does
not enforce it: an agent with no accepted entry successfully submits two
requests for distinct turns at one intersection, and both end up stored
(`submit_request` returns `Ok` twice).  Second, under the discipline — every
state along the trace keeps at most one stored request per agent and
intersection (`ReachableOne`) — the internal `assert_eq!`s of `StopSign::step`
and `TrafficSignal::step` hold, so `step` is total.  Third, the precondition is
needed: `panicStop` stores two requests of one agent, violating `OnePerAgent`,
and `step` panics on it. -/
theorem C10_one_request_per_agent (mp : Map) (cm : ControlMap) :
    (∀ (s : IntersectionSimState) (r1 r2 : Request) (i : IntersectionPolicy),
      s.intersections[r1.turn.parent]? = some i →
      OMap.lookup r1.agent i.accepted = none →
      r2.agent = r1.agent → r2.turn.parent = r1.turn.parent → r1.turn ≠ r2.turn →
      ∃ s1 s2 i2, s.submit_request r1 = some (.ok s1) ∧
        s1.submit_request r2 = some (.ok s2) ∧
        s2.intersections[r1.turn.parent]? = some i2 ∧
        r1 ∈ i2.stored ∧ r2 ∈ i2.stored) ∧
    (∀ s : IntersectionSimState, ReachableOne mp cm s →
      ∀ (time : Tick) (info : AgentInfo), (s.step time mp cm info).isSome) ∧
    (¬ OnePerAgent ⟨[.StopSignPolicy panicStop], none⟩ ∧
      (⟨[.StopSignPolicy panicStop], none⟩ : IntersectionSimState).step 0 exMap
        yieldControl exInfo = none) := by
  refine ⟨?_, ?_, ?_, ?_⟩
  · intro s r1 r2 i hi hl hag hpar hne
    obtain ⟨i1, hs1, hr1s, hkeep1, hacc1⟩ := IntersectionPolicy.submit_stores i r1 hl
    have hl2 : OMap.lookup r2.agent i1.accepted = none := by
      rw [hacc1, hag]
      exact hl
    obtain ⟨i2, hs2, hr2s, hkeep2, hacc2⟩ := IntersectionPolicy.submit_stores i1 r2 hl2
    obtain ⟨hlt, -⟩ := List.getElem?_eq_some_iff.mp hi
    have h1 : s.submit_request r1 = some (.ok
        { s with intersections := s.intersections.set r1.turn.parent i1 }) := by
      rw [IntersectionSimState.submit_request_eq s r1 i hi, hs1]
    have hi1 : ({ s with intersections := s.intersections.set r1.turn.parent i1 }
        : IntersectionSimState).intersections[r2.turn.parent]? = some i1 := by
      show (s.intersections.set r1.turn.parent i1)[r2.turn.parent]? = some i1
      rw [hpar]
      exact List.getElem?_set_self hlt
    have h2 : ({ s with intersections := s.intersections.set r1.turn.parent i1 }
          : IntersectionSimState).submit_request r2 = some (.ok
        { s with intersections :=
            (s.intersections.set r1.turn.parent i1).set r2.turn.parent i2 }) := by
      rw [IntersectionSimState.submit_request_eq _ r2 i1 hi1, hs2]
    refine ⟨_, _, i2, h1, h2, ?_, hkeep2 r1 hr1s, hr2s⟩
    show ((s.intersections.set r1.turn.parent i1).set r2.turn.parent i2)[r1.turn.parent]?
        = some i2
    rw [hpar, List.set_set]
    exact List.getElem?_set_self hlt
  · intro s hre time info
    exact IntersectionSimState.step_total s time mp cm info (ReachableOne_StateOK mp cm s hre)
  · intro hOne
    exact (by decide :
        ¬ (((IntersectionPolicy.StopSignPolicy panicStop).stored.map Request.agent).Nodup))
      (hOne 0 (.StopSignPolicy panicStop) rfl)
  · rfl

/-- Witness for C10: at the one-stop-sign map, `Car 0` submits `exReq` and then
`exReqB` (distinct turns, same agent); both return `Ok` and both requests are
stored, and the fresh state steps without panicking. -/
theorem C10_one_request_per_agent_witness :
    (∃ s1 s2 i2, exState0.submit_request exReq = some (.ok s1) ∧
        s1.submit_request exReqB = some (.ok s2) ∧
        s2.intersections[exReq.turn.parent]? = some i2 ∧
        exReq ∈ i2.stored ∧ exReqB ∈ i2.stored) ∧
    ((IntersectionSimState.new exMap).step 0 exMap yieldControl exInfo).isSome := by
  have hmain := C10_one_request_per_agent exMap yieldControl
  constructor
  · exact hmain.1 exState0 exReq exReqB (.StopSignPolicy (StopSign.new 0)) rfl rfl rfl rfl
      (by decide)
  · refine hmain.2.1 (IntersectionSimState.new exMap) (ReachableOne.init ?_) 0 exInfo
    intro k i h
    match k with
    | 0 =>
      injection h with h
      rw [← h]
      rfl
    | n + 1 =>
      rw [List.getElem?_eq_none (by show 1 ≤ n + 1; omega)] at h
      cases h

end AbStreet
